import Mathlib

/-!
Verification of the gmarena repository: hex-grid board (`hex.py`),
game-state engine (`game_engine.py`) and the expectimax solver
(`minimax/minimax.py`), shallowly embedded in Lean.

Python `dict`s are embedded as association lists (first key occurrence wins,
insertion replaces in place, deletion removes the key); Python `float`
probabilities and scores are embedded as exact rationals; code that raises
exceptions is embedded with `Except`, and in the game engine the error value
carries the state at the moment of the raise so that partial mutation is
observable.
-/

namespace GMArena

/-- `Pt` from `hex.py`: immutable integer coordinate pair. -/
structure Pt where
  x : Int
  y : Int
deriving DecidableEq, Repr

/-- `Pt.add` from `hex.py`. -/
def Pt.add (p q : Pt) : Pt := ⟨p.x + q.x, p.y + q.y⟩

/-! ### Association lists: the embedding of Python `dict` -/

/-- Lookup in an association list (Python `d.get(k)` / `d[k]`). -/
def alookup {α β : Type} [DecidableEq α] : List (α × β) → α → Option β
  | [], _ => none
  | (a, b) :: t, k => if a = k then some b else alookup t k

/-- Insert/replace in an association list (Python `d[k] = v`). -/
def ainsert {α β : Type} [DecidableEq α] : List (α × β) → α → β → List (α × β)
  | [], k, v => [(k, v)]
  | (a, b) :: t, k, v => if a = k then (k, v) :: t else (a, b) :: ainsert t k v

/-- Delete from an association list (Python `del d[k]`). -/
def aerase {α β : Type} [DecidableEq α] : List (α × β) → α → List (α × β)
  | [], _ => []
  | (a, b) :: t, k => if a = k then t else (a, b) :: aerase t k

/-- The keys of an association list. -/
def akeys {α β : Type} (l : List (α × β)) : List α := l.map Prod.fst

/-! ### Hex geometry (`hex.py`) -/

/-- `HexGrid._to_cube`: odd-r offset to cube coordinates.
Python `(y - (y & 1)) // 2`: `y & 1` is `y mod 2` (in `{0,1}`), matching
`Int.emod`; the dividend is even, so floor division is exact division. -/
def toCube (p : Pt) : Int × Int × Int :=
  let q := p.x - (p.y - p.y % 2) / 2
  let r := p.y
  (q, r, -q - r)

/-- `HexGrid.distance`: cube-coordinate hex distance.  The Python result is a
nonnegative int, embedded as `Nat`. -/
def hexDistance (p1 p2 : Pt) : Nat :=
  (((toCube p1).1 - (toCube p2).1).natAbs +
      ((toCube p1).2.1 - (toCube p2).2.1).natAbs +
      ((toCube p1).2.2 - (toCube p2).2.2).natAbs) / 2

/-- `HexGrid._EVEN_ROW_OFFSETS`. -/
def evenRowOffsets : List Pt := [⟨-1, 0⟩, ⟨1, 0⟩, ⟨-1, -1⟩, ⟨0, -1⟩, ⟨-1, 1⟩, ⟨0, 1⟩]

/-- `HexGrid._ODD_ROW_OFFSETS`. -/
def oddRowOffsets : List Pt := [⟨-1, 0⟩, ⟨1, 0⟩, ⟨0, -1⟩, ⟨1, -1⟩, ⟨0, 1⟩, ⟨1, 1⟩]

/-- `0 <= pt.x < width and 0 <= pt.y < height` (the bounds test used by
`__setitem__`, `__getitem__` and `get_neighbors`). -/
def inBounds (w h : Nat) (p : Pt) : Prop :=
  0 ≤ p.x ∧ p.x < (w : Int) ∧ 0 ≤ p.y ∧ p.y < (h : Int)

instance (w h : Nat) (p : Pt) : Decidable (inBounds w h p) :=
  inferInstanceAs (Decidable (0 ≤ p.x ∧ p.x < (w : Int) ∧ 0 ≤ p.y ∧ p.y < (h : Int)))

/-- `HexGrid.get_neighbors`, parameterized by the grid extents. -/
def getNeighbors (w h : Nat) (p : Pt) : List Pt :=
  let offsets := if p.y % 2 = 0 then evenRowOffsets else oddRowOffsets
  (offsets.map p.add).filter (fun n => decide (inBounds w h n))

/-! ### The grid's occupancy state (`HexGrid`) -/

/-- `HexGrid`: `grid` embeds `_grid : Dict[Pt, int]`, `rev` embeds
`_reverse_grid : Dict[int, Pt]`. -/
structure HexGrid where
  width : Nat
  height : Nat
  grid : List (Pt × Nat)
  rev : List (Nat × Pt)
deriving DecidableEq, Repr

/-- The body of `__delitem__` once the position is known to be occupied:
remove the occupant from both directions.  (If the position is empty this is
the identity; the checked `delItem` below never reaches that case.) -/
def HexGrid.eraseAt (g : HexGrid) (pt : Pt) : HexGrid :=
  match alookup g.grid pt with
  | none => g
  | some oid => { g with grid := aerase g.grid pt, rev := aerase g.rev oid }

/-- `HexGrid.__delitem__`: raises `KeyError` when the position is empty. -/
def HexGrid.delItem (g : HexGrid) (pt : Pt) : Except String HexGrid :=
  match alookup g.grid pt with
  | none => .error "KeyError: Position is empty"
  | some _ => .ok (g.eraseAt pt)

/-- `HexGrid.__setitem__`.  The `oid` type check is enforced by typing.
Raises `IndexError` for an out-of-bounds position; otherwise vacates the
target position, vacates the object's previous position, then writes both
directions of the mapping. -/
def HexGrid.setItem (g : HexGrid) (pt : Pt) (oid : Nat) : Except String HexGrid :=
  if inBounds g.width g.height pt then
    let g1 := if (alookup g.grid pt).isSome then g.eraseAt pt else g
    let g2 :=
      match alookup g1.rev oid with
      | some oldPt => if (alookup g1.grid oldPt).isSome then g1.eraseAt oldPt else g1
      | none => g1
    .ok { g2 with grid := ainsert g2.grid pt oid, rev := ainsert g2.rev oid pt }
  else
    .error "IndexError: Position is out of bounds"

/-- `HexGrid.__getitem__`: total occupant lookup, `none` when out of bounds
or empty. -/
def HexGrid.getItem (g : HexGrid) (pt : Pt) : Option Nat :=
  if inBounds g.width g.height pt then alookup g.grid pt else none

/-- `HexGrid.get_pt` (reverse lookup); the Python `ValueError` on a missing
object is embedded as `none`. -/
def HexGrid.getPt (g : HexGrid) (oid : Nat) : Option Pt :=
  alookup g.rev oid

/-- `HexGrid.get_neighbors` on a grid value. -/
def HexGrid.neighbors (g : HexGrid) (p : Pt) : List Pt :=
  getNeighbors g.width g.height p

/-! ### Combat resolver (`Roll`, `FixedRoll` in `game_engine.py`) -/

/-- `RollResult`, in Python enum definition order `MISS, HIT, CRIT`. -/
inductive RollResult
  | MISS
  | HIT
  | CRIT
deriving DecidableEq, Repr

/-- Enumeration order of `for res in RollResult`. -/
def RollResult.enum : List RollResult := [.MISS, .HIT, .CRIT]

/-- Outcome classification of a drawn die value `r` in `Roll.roll`:
natural 20 is a crit, natural 1 a miss, otherwise hit iff `r >= threshold`. -/
def classifyRoll (r : Int) (threshold : Int) : RollResult :=
  if r = 20 then .CRIT
  else if r = 1 then .MISS
  else if threshold ≤ r then .HIT
  else .MISS

/-- The `hits` count of `Roll._calculate_probability`: the number of die
values in `[max(2, threshold), 19]`. -/
def rollHits (threshold : Int) : Int :=
  let lower := max 2 threshold
  if lower ≤ 19 then 19 - lower + 1 else 0

/-- `Roll._calculate_probability`, with the Python floats `0.05`,
`hits / 20.0` and `(19 - hits) / 20.0` embedded as exact rationals. -/
def calcProbability (result : RollResult) (threshold : Int) : ℚ :=
  match result with
  | .CRIT => 1 / 20
  | .HIT => (rollHits threshold : ℚ) / 20
  | .MISS => ((19 - rollHits threshold : Int) : ℚ) / 20

/-- A roll policy: Python `Roll.roll(bonus, difficulty)` returns the outcome
and records `last_probability`; the embedding returns both. -/
def RollFn : Type := Int → Int → RollResult × ℚ

/-- `FixedRoll(result).roll`: forced outcome with the probability that
outcome would have had under `threshold = difficulty - bonus`. -/
def fixedRoll (result : RollResult) : RollFn :=
  fun bonus difficulty => (result, calcProbability result (difficulty - bonus))

/-- `Roll.roll` with drawn die value `r` made explicit. -/
def randomRoll (r : Int) : RollFn :=
  fun bonus difficulty =>
    let res := classifyRoll r (difficulty - bonus)
    (res, calcProbability res (difficulty - bonus))

/-! ### A* pathfinding (`HexGrid.find_path`)

The `heapq` priority queue is embedded as a list from which `popMin` removes
the least `(f_score, counter)` entry — the counter is unique per push, so the
minimum is unique and this is exactly `heappop`.  The `f_score` dict of the
Python code is written but never read (priorities live in the heap entries),
so it is not part of the embedded state. -/

/-- One heap entry: `(f_score, counter, node)`. -/
abbrev HeapEntry : Type := Nat × Nat × Pt

/-- The least entry of the heap in lexicographic `(f, counter)` order. -/
def heapMin (l : List HeapEntry) : Option HeapEntry :=
  l.foldl
    (fun acc e =>
      match acc with
      | none => some e
      | some m => if e.1 < m.1 ∨ (e.1 = m.1 ∧ e.2.1 < m.2.1) then some e else some m)
    none

/-- `heapq.heappop`: the least entry and the remaining heap. -/
def popMin (l : List HeapEntry) : Option (HeapEntry × List HeapEntry) :=
  match heapMin l with
  | none => none
  | some m => some (m, l.erase m)

/-- The mutable loop state of `find_path`. -/
structure AStarState where
  opens : List HeapEntry
  hash : List Pt
  came : List (Pt × Pt)
  g : List (Pt × Nat)
  cnt : Nat
deriving Repr

/-- `HexGrid._reconstruct_path`, with fuel standing for the while loop
(the caller supplies fuel exceeding the longest possible parent chain). -/
def reconstructPath (came : List (Pt × Pt)) : Pt → Nat → List Pt
  | cur, 0 => [cur]
  | cur, fuel + 1 =>
    match alookup came cur with
    | none => [cur]
    | some p => reconstructPath came p fuel ++ [cur]

/-- The body of `for neighbor in self.get_neighbors(current)`: skip occupied
non-goal cells, otherwise relax the neighbor's `g_score`, record its parent
and push it unless it is already queued.  (`g_score[current]` is always
present — an assignment precedes every push — so `getD 0` never defaults.) -/
def relax (grid : List (Pt × Nat)) (goal : Pt) (cur : Pt)
    (st : AStarState) (nb : Pt) : AStarState :=
  if (alookup grid nb).isSome ∧ nb ≠ goal then st
  else
    let tentative := (alookup st.g cur).getD 0 + 1
    let improves :=
      match alookup st.g nb with
      | none => true
      | some gn => decide (tentative < gn)
    if improves then
      let f := tentative + hexDistance nb goal
      let st1 : AStarState :=
        { st with came := ainsert st.came nb cur, g := ainsert st.g nb tentative }
      if nb ∈ st1.hash then st1
      else
        { st1 with
          cnt := st1.cnt + 1
          opens := (f, st1.cnt + 1, nb) :: st1.opens
          hash := nb :: st1.hash }
    else st

/-- Result of the search loop; `fuelOut` is proved unreachable for the fuel
`find_path` supplies. -/
inductive LoopRes
  | found (p : List Pt)
  | exhausted
  | fuelOut
deriving DecidableEq, Repr

/-- The `while open_set:` loop of `find_path`. -/
def astarLoop (grid : List (Pt × Nat)) (w h : Nat) (goal : Pt) :
    Nat → AStarState → LoopRes
  | 0, _ => .fuelOut
  | fuel + 1, st =>
    match popMin st.opens with
    | none => .exhausted
    | some ((_, _, cur), rest) =>
      let st1 : AStarState := { st with opens := rest, hash := st.hash.erase cur }
      if cur = goal then .found (reconstructPath st1.came cur (st1.came.length + 1))
      else astarLoop grid w h goal fuel ((getNeighbors w h cur).foldl (relax grid goal cur) st1)

/-- Fuel provably exceeding the iteration count of the search loop. -/
def astarFuel (w h : Nat) : Nat := (w * h + 1) * (w * h + 1) + 2

/-- `HexGrid.find_path`. -/
def HexGrid.findPath (hg : HexGrid) (start goal : Pt) : Option (List Pt) :=
  if start = goal then some [start]
  else if (alookup hg.grid goal).isSome then none
  else
    let st0 : AStarState :=
      { opens := [(0, 0, start)], hash := [start], came := [], g := [(start, 0)], cnt := 0 }
    match astarLoop hg.grid hg.width hg.height goal (astarFuel hg.width hg.height) st0 with
    | .found p => some p
    | _ => none

/-- Modelled from the spec: `HexGrid.find_path_adj` is called by
`game_engine.py` but absent from `src/hex.py`.  Per the spec it is the
"same search but … returns a path to the nearest reachable point adjacent to
goal": run `find_path` to each neighbor of the goal and keep the first
shortest result. -/
def HexGrid.findPathAdj (hg : HexGrid) (start goal : Pt) : Option (List Pt) :=
  ((hg.neighbors goal).filterMap (fun n => hg.findPath start n)).foldl
    (fun best p =>
      match best with
      | none => some p
      | some b => if p.length < b.length then some p else best)
    none

/-! ### Game state engine (`game_engine.py`)

`GameState` is mutable in Python; the embedding passes the state explicitly.
A raised exception is embedded as `Except.error (message, state-at-raise)`
so that partial mutation before a raise is observable.  `UnitState` carries
only `uid` and `current_health`; the unit map is `uid → current_health`. -/

/-- `Spell`. -/
structure Spell where
  name : String
  damage : Int
  range : Int
deriving DecidableEq, Repr

/-- `UnitType` (unit archetype).  `speed` is a nonnegative config value. -/
structure UnitType where
  name : String
  health : Int
  ac : Int
  wc : Int
  attack_damage : Int
  speed : Nat
  spells : List String
deriving DecidableEq, Repr

/-- `MoveType`. -/
inductive MoveType
  | MOVE
  | ATTACK
  | CHARGE
  | CAST_SPELL
deriving DecidableEq, Repr

/-- `GameMove`. -/
structure GameMove where
  move_type : MoveType
  target_pos : Pt
  spell_name : Option String := none
deriving DecidableEq, Repr

/-- The immutable part shared by all states: spell config, turn order and
the `uid → UnitType` map of `GameInstance`. -/
structure GameInstance where
  spells : List (String × Spell)
  turn_order : List Nat
  units : List (Nat × UnitType)
deriving DecidableEq, Repr

/-- `GameState`: grid, per-unit current health, and the turn cursor. -/
structure GameState where
  inst : GameInstance
  grid : HexGrid
  units : List (Nat × Int)
  current_turn_index : Nat
deriving DecidableEq, Repr

/-- `UnitState.is_alive`: health strictly positive. -/
def isAlive (h : Int) : Prop := 0 < h

instance (h : Int) : Decidable (isAlive h) := by unfold isAlive; infer_instance

/-- `UnitState.player_id`: odd uid → player 1, even uid → player 2. -/
def playerId (uid : Nat) : Nat := if uid % 2 ≠ 0 then 1 else 2

/-- `GameState.get_current_unit` (the uid at the turn cursor);
`none` embeds the `IndexError`/`KeyError` of an invalid cursor. -/
def GameState.currentUnit (s : GameState) : Option Nat :=
  s.inst.turn_order.get? s.current_turn_index

/-- `self.instance.units[uid]`. -/
def GameState.unitTypeOf (s : GameState) (uid : Nat) : Option UnitType :=
  alookup s.inst.units uid

/-- An engine step result: either the new state (plus a value) or the raised
message together with the state at the moment of the raise. -/
abbrev EngineRes (α : Type) : Type := Except (String × GameState) α

/-- `GameState._next_turn` inner loop; fuel `n` (the turn-order length)
covers the full cycle back to `original_index`.  A uid missing from the unit
map is treated as dead (such a uid cannot arise from game setup). -/
def nextTurnAux (orig : Nat) : GameState → Nat → GameState
  | s, 0 => s
  | s, fuel + 1 =>
    let idx := (s.current_turn_index + 1) % s.inst.turn_order.length
    let s' : GameState := { s with current_turn_index := idx }
    let alive :=
      match s'.inst.turn_order.get? idx with
      | some uid =>
        match alookup s'.units uid with
        | some h => decide (isAlive h)
        | none => false
      | none => false
    if alive then s'
    else if idx = orig then s'
    else nextTurnAux orig s' fuel

/-- `GameState._next_turn`. -/
def GameState.nextTurn (s : GameState) : GameState :=
  if s.inst.turn_order.length = 0 then s
  else nextTurnAux s.current_turn_index s s.inst.turn_order.length

/-- `GameState.is_valid_move`: in bounds, unoccupied (or occupied by the
moving unit itself), and within `maxDist` of the unit's position. -/
def GameState.isValidMove (s : GameState) (uid : Nat) (targetPos : Pt)
    (maxDist : Nat) : EngineRes Bool :=
  if ¬ inBounds s.grid.width s.grid.height targetPos then .ok false
  else
    let targetUid := s.grid.getItem targetPos
    if h : targetUid.isSome then
      if targetUid.get h ≠ uid then .ok false
      else
        match s.grid.getPt uid with
        | none => .error ("ValueError: Object not found in grid", s)
        | some pos => .ok (decide (hexDistance pos targetPos ≤ maxDist))
    else
      match s.grid.getPt uid with
      | none => .error ("ValueError: Object not found in grid", s)
      | some pos => .ok (decide (hexDistance pos targetPos ≤ maxDist))

/-- `GameState._apply_damage`: subtract twice the base damage on a crit, the
base damage on a hit, nothing on a miss, and delete a no-longer-alive target
from the grid (the unit map keeps its record).  `th` is the target's health
as read by the caller (`target.current_health`). -/
def GameState.applyDamage (s : GameState) (base : Int) (tuid : Nat) (th : Int)
    (rr : RollResult) : EngineRes GameState :=
  let th' := if rr = .CRIT then th - base * 2 else if rr = .HIT then th - base else th
  let s1 : GameState := { s with units := ainsert s.units tuid th' }
  if isAlive th' then .ok s1
  else
    match s1.grid.getPt tuid with
    | none => .error ("ValueError: Object not found in grid", s1)
    | some tpos =>
      match s1.grid.delItem tpos with
      | .error msg => .error (msg, s1)
      | .ok g' => .ok { s1 with grid := g' }

/-- `GameState._attack`: requires grid distance at most 1, rolls with
`bonus = WC - penalty` and `difficulty = target AC`, applies the damage. -/
def GameState.attack (s : GameState) (auid tuid : Nat) (th : Int) (roll : RollFn)
    (penaltyWc : Int) : EngineRes (GameState × ℚ) :=
  match s.grid.getPt auid, s.grid.getPt tuid with
  | some apos, some tpos =>
    if 1 < hexDistance apos tpos then
      .error ("ValueError: Target out of range for attack", s)
    else
      match s.unitTypeOf auid, s.unitTypeOf tuid with
      | some atype, some ttype =>
        let rp := roll (atype.wc - penaltyWc) ttype.ac
        match s.applyDamage atype.attack_damage tuid th rp.1 with
        | .error e => .error e
        | .ok s' => .ok (s', rp.2)
      | _, _ => .error ("KeyError: unknown unit type", s)
  | _, _ => .error ("ValueError: Object not found in grid", s)

/-- `GameState._move`: validate against `speed * 2`, then delete the old
position and write the new one. -/
def GameState.moveUnit (s : GameState) (uid : Nat) (targetPos : Pt) :
    EngineRes GameState :=
  match s.unitTypeOf uid with
  | none => .error ("KeyError: unknown unit type", s)
  | some utype =>
    match s.isValidMove uid targetPos (utype.speed * 2) with
    | .error e => .error e
    | .ok false => .error ("ValueError: Invalid move", s)
    | .ok true =>
      match s.grid.getPt uid with
      | none => .error ("ValueError: Object not found in grid", s)
      | some oldPos =>
        match s.grid.delItem oldPos with
        | .error msg => .error (msg, s)
        | .ok g1 =>
          let s1 : GameState := { s with grid := g1 }
          match g1.setItem targetPos uid with
          | .error msg => .error (msg, s1)
          | .ok g2 => .ok { s with grid := g2 }

/-- `GameState._charge`: validate a move of at most `speed`, reposition,
then attack with a WC penalty of 4. -/
def GameState.charge (s : GameState) (auid : Nat) (movePos : Pt) (tuid : Nat)
    (th : Int) (roll : RollFn) : EngineRes (GameState × ℚ) :=
  match s.unitTypeOf auid with
  | none => .error ("KeyError: unknown unit type", s)
  | some atype =>
    match s.isValidMove auid movePos atype.speed with
    | .error e => .error e
    | .ok false => .error ("ValueError: Invalid charge move", s)
    | .ok true =>
      match s.grid.getPt auid with
      | none => .error ("ValueError: Object not found in grid", s)
      | some oldPos =>
        match s.grid.delItem oldPos with
        | .error msg => .error (msg, s)
        | .ok g1 =>
          let s1 : GameState := { s with grid := g1 }
          match g1.setItem movePos auid with
          | .error msg => .error (msg, s1)
          | .ok g2 => GameState.attack { s with grid := g2 } auid tuid th roll 4

/-- `GameState._cast_spell`: the caster must know the spell; difficulty is
the distance, growing by 4 per cell past the spell's range; damage is the
spell's own value. -/
def GameState.castSpell (s : GameState) (auid : Nat) (spellName : String)
    (tuid : Nat) (th : Int) (roll : RollFn) : EngineRes (GameState × ℚ) :=
  match s.unitTypeOf auid with
  | none => .error ("KeyError: unknown unit type", s)
  | some atype =>
    if spellName ∉ atype.spells then
      .error ("ValueError: does not know spell", s)
    else
      match alookup s.inst.spells spellName with
      | none => .error ("KeyError: unknown spell", s)
      | some spell =>
        match s.grid.getPt auid, s.grid.getPt tuid with
        | some apos, some tpos =>
          let dist : Int := hexDistance apos tpos
          let difficulty :=
            if dist ≤ spell.range then dist else dist + (dist - spell.range) * 4
          let rp := roll 0 difficulty
          match s.applyDamage spell.damage tuid th rp.1 with
          | .error e => .error e
          | .ok s' => .ok (s', rp.2)
        | _, _ => .error ("ValueError: Object not found in grid", s)

/-- `GameState.execute_move`: dispatch on the move type, then advance the
turn.  The second component is the `last_probability` recorded by the roll
(`none` when no roll happened, as for `MOVE`). -/
def GameState.executeMove (s : GameState) (move : GameMove) (roll : RollFn) :
    EngineRes (GameState × Option ℚ) :=
  match s.currentUnit with
  | none => .error ("ValueError: No active unit for turn.", s)
  | some auid =>
    match move.move_type with
    | .MOVE =>
      match s.moveUnit auid move.target_pos with
      | .error e => .error e
      | .ok s' => .ok (s'.nextTurn, none)
    | .ATTACK =>
      match s.grid.getItem move.target_pos with
      | none => .error ("ValueError: No unit at target position", s)
      | some tuid =>
        match alookup s.units tuid with
        | none => .error ("KeyError: unknown unit", s)
        | some th =>
          match s.attack auid tuid th roll 0 with
          | .error e => .error e
          | .ok (s', prob) => .ok (s'.nextTurn, some prob)
    | .CHARGE =>
      match s.grid.getItem move.target_pos with
      | none => .error ("ValueError: No unit at target position", s)
      | some tuid =>
        match alookup s.units tuid with
        | none => .error ("KeyError: unknown unit", s)
        | some th =>
          match s.grid.getPt auid, s.grid.getPt tuid with
          | some apos, some tpos =>
            match s.grid.findPathAdj apos tpos with
            | none => .error ("ValueError: No valid charge position found.", s)
            | some path =>
              if path.length ≤ 1 then
                .error ("ValueError: No valid charge position found.", s)
              else
                match s.unitTypeOf auid with
                | none => .error ("KeyError: unknown unit type", s)
                | some atype =>
                  if atype.speed < path.length - 1 then
                    .error ("ValueError: Target too far for charge", s)
                  else
                    match s.charge auid (path.getLastD ⟨0, 0⟩) tuid th roll with
                    | .error e => .error e
                    | .ok (s', prob) => .ok (s'.nextTurn, some prob)
          | _, _ => .error ("ValueError: Object not found in grid", s)
    | .CAST_SPELL =>
      match s.grid.getItem move.target_pos with
      | none => .error ("ValueError: No unit at target position", s)
      | some tuid =>
        match alookup s.units tuid with
        | none => .error ("KeyError: unknown unit", s)
        | some th =>
          match move.spell_name with
          | none => .error ("ValueError: Spell name required for CAST_SPELL move.", s)
          | some spellName =>
            match s.castSpell auid spellName tuid th roll with
            | .error e => .error e
            | .ok (s', prob) => .ok (s'.nextTurn, some prob)

/-- `GameState.is_over`: some side has no living unit. -/
def GameState.isOver (s : GameState) : Bool :=
  let p1 := s.units.any (fun u => playerId u.1 = 1 ∧ isAlive u.2)
  let p2 := s.units.any (fun u => playerId u.1 = 2 ∧ isAlive u.2)
  !p1 || !p2

/-- `GameState.clone` produces an equal, independently usable value; in the
pure embedding the copied contents are the value itself.  (The aliasing
behaviour of `clone` is modelled separately with an explicit store for the
frame claim.) -/
def GameState.clone (s : GameState) : GameState := s

/-- `GameState.apply` (`apply_with_branching`): a single certain successor
for `MOVE`; otherwise one forced-roll branch per `RollResult`, keeping
outcomes of positive probability, with the `assert` that the kept
probabilities sum to 1 embedded as an error.  A per-branch `ValueError` is
swallowed (`except ValueError: pass`). -/
def GameState.apply (s : GameState) (move : GameMove) :
    Except String (List (GameState × ℚ)) :=
  if move.move_type = .MOVE then
    match s.clone.executeMove move (fixedRoll .HIT) with
    | .error e => .error e.1
    | .ok (s', _) => .ok [(s', 1)]
  else
    let outcomes := RollResult.enum.filterMap (fun res =>
      match s.clone.executeMove move (fixedRoll res) with
      | .ok (s', some prob) => if 0 < prob then some (s', prob) else none
      | .ok (_, none) => none
      | .error _ => none)
    if (outcomes.map Prod.snd).sum = 1 then .ok outcomes
    else .error "Probabilities do not sum to 1."

/-! ### Expectimax solver (`minimax/minimax.py`)

`MinimaxSolver` is generic over the state protocol; the embedding takes the
protocol methods as a `GameRules` record and threads the transposition table
(a `dict` keyed by `(state, depth, is_maximizing)`) explicitly.  Floats are
embedded as rationals. -/

/-- The `GameState` protocol required by `MinimaxSolver`, plus the
heuristic the solver is constructed with. -/
structure GameRules (σ μ : Type) where
  is_over : σ → Bool
  moves : σ → List μ
  apply : σ → μ → List (σ × ℚ)
  heuristic : σ → ℚ

/-- Transposition table: `(state, depth, is_maximizing) → score`. -/
abbrev TT (σ : Type) : Type := List ((σ × Nat × Bool) × ℚ)

/-- The expected value of one move: `sum(probability * eval_score)` over the
outcomes of `apply`, threading the table through the recursive evaluations
(each child is evaluated with the alpha/beta in force when the move's
evaluation began). -/
def evalOutcomes {σ μ : Type}
    (recur : TT σ → σ → ℚ → ℚ → ℚ × Option μ × TT σ) (alpha beta : ℚ) :
    TT σ → List (σ × ℚ) → ℚ → ℚ × TT σ
  | tt, [], acc => (acc, tt)
  | tt, (child, prob) :: rest, acc =>
    let r := recur tt child alpha beta
    evalOutcomes recur alpha beta r.2.2 rest (acc + prob * r.1)

/-- The maximizing move loop: keep the strictly best expected value seen
(first-seen on ties), raise alpha, stop on `beta <= alpha`. -/
def maxLoop {σ μ : Type}
    (recur : TT σ → σ → ℚ → ℚ → ℚ × Option μ × TT σ)
    (applyMv : σ → μ → List (σ × ℚ)) (s : σ) :
    TT σ → List μ → ℚ → ℚ → ℚ → Option μ → ℚ × Option μ × TT σ
  | tt, [], _, _, best, bestMove => (best, bestMove, tt)
  | tt, m :: rest, alpha, beta, best, bestMove =>
    let ev := evalOutcomes recur alpha beta tt (applyMv s m) 0
    let best' := if best < ev.1 then ev.1 else best
    let bestMove' := if best < ev.1 then some m else bestMove
    let alpha' := max alpha ev.1
    if beta ≤ alpha' then (best', bestMove', ev.2)
    else maxLoop recur applyMv s ev.2 rest alpha' beta best' bestMove'

/-- The minimizing move loop. -/
def minLoop {σ μ : Type}
    (recur : TT σ → σ → ℚ → ℚ → ℚ × Option μ × TT σ)
    (applyMv : σ → μ → List (σ × ℚ)) (s : σ) :
    TT σ → List μ → ℚ → ℚ → ℚ → Option μ → ℚ × Option μ × TT σ
  | tt, [], _, _, best, bestMove => (best, bestMove, tt)
  | tt, m :: rest, alpha, beta, best, bestMove =>
    let ev := evalOutcomes recur alpha beta tt (applyMv s m) 0
    let best' := if ev.1 < best then ev.1 else best
    let bestMove' := if ev.1 < best then some m else bestMove
    let beta' := min beta ev.1
    if beta' ≤ alpha then (best', bestMove', ev.2)
    else minLoop recur applyMv s ev.2 rest alpha beta' best' bestMove'

/-- `MinimaxSolver._expectimax`: transposition lookup (`(value, None)` on a
hit), heuristic at depth 0 or a terminal state, otherwise the pruned move
loop; the computed value is stored under `(state, depth, is_maximizing)`. -/
def expectimax {σ μ : Type} [DecidableEq σ] (G : GameRules σ μ) :
    Nat → TT σ → σ → ℚ → ℚ → Bool → ℚ × Option μ × TT σ
  | 0, tt, s, _, _, maxing =>
    match alookup tt (s, 0, maxing) with
    | some v => (v, none, tt)
    | none =>
      let score := G.heuristic s
      (score, none, ainsert tt (s, 0, maxing) score)
  | depth + 1, tt, s, alpha, beta, maxing =>
    match alookup tt (s, depth + 1, maxing) with
    | some v => (v, none, tt)
    | none =>
      if G.is_over s then
        let score := G.heuristic s
        (score, none, ainsert tt (s, depth + 1, maxing) score)
      else
        let recur := fun tt' s' a b => expectimax G depth tt' s' a b (!maxing)
        if maxing then
          let r := maxLoop recur G.apply s tt (G.moves s) alpha beta (-1000001) none
          (r.1, r.2.1, ainsert r.2.2 (s, depth + 1, maxing) r.1)
        else
          let r := minLoop recur G.apply s tt (G.moves s) alpha beta 1000001 none
          (r.1, r.2.1, ainsert r.2.2 (s, depth + 1, maxing) r.1)

/-- `MinimaxSolver.solve`: search with the full window. -/
def solve {σ μ : Type} [DecidableEq σ] (G : GameRules σ μ) (tt : TT σ) (s : σ)
    (depth : Nat) (maxing : Bool) : ℚ × Option μ × TT σ :=
  expectimax G depth tt s (-1000001) 1000001 maxing

/-! ### The Nim fixture (`minimax/test_minimax.py`) -/

/-- `NimState`: `(tokens, is_max_player_turn)`. -/
abbrev NimState : Type := Nat × Bool

/-- The Nim game rules and heuristic from the test fixture: take 1 or 2
tokens; the heuristic is -1000 when the maximizing player faces an empty
pile, +1000 when the minimizing player does, 0 otherwise. -/
def nimGame : GameRules NimState Nat where
  is_over := fun s => s.1 = 0
  moves := fun s =>
    (if 1 ≤ s.1 then [1] else []) ++ (if 2 ≤ s.1 then [2] else [])
  apply := fun s m => [((s.1 - m, !s.2), 1)]
  heuristic := fun s =>
    if s.1 = 0 then (if s.2 then -1000 else 1000) else 0

/-- Reference expectimax for Nim: no table, no pruning — the plain maximal
(or minimal) expected value over moves. -/
def nimRefVal : Nat → NimState → Bool → ℚ
  | 0, s, _ => nimGame.heuristic s
  | depth + 1, s, maxing =>
    if nimGame.is_over s then nimGame.heuristic s
    else
      let evs := (nimGame.moves s).map (fun m =>
        ((nimGame.apply s m).map
          (fun o => o.2 * nimRefVal depth o.1 (!maxing))).sum)
      if maxing then evs.foldl max (-1000001) else evs.foldl min 1000001

/-- Reference best move for Nim: the first move whose expected value attains
the reference optimum (the strictly-improving scan of the move loop,
without pruning or memoization). -/
def nimRefMove (depth : Nat) (s : NimState) (maxing : Bool) : Option Nat :=
  match depth with
  | 0 => none
  | depth' + 1 =>
    if nimGame.is_over s then none
    else
      ((nimGame.moves s).filter (fun m =>
        ((nimGame.apply s m).map
          (fun o => o.2 * nimRefVal depth' o.1 (!maxing))).sum
          = nimRefVal depth s maxing)).head?

/-! ## Lemmas about the dict embedding -/

theorem alookup_ainsert_self {α β : Type} [DecidableEq α] (l : List (α × β))
    (k : α) (v : β) : alookup (ainsert l k v) k = some v := by
  induction l with
  | nil => simp [ainsert, alookup]
  | cons hd tl ih =>
    by_cases h : hd.1 = k
    · simp [ainsert, h, alookup]
    · simpa [ainsert, h, alookup] using ih

theorem alookup_ainsert_ne {α β : Type} [DecidableEq α] (l : List (α × β))
    (k k' : α) (v : β) (h : k' ≠ k) :
    alookup (ainsert l k v) k' = alookup l k' := by
  induction l with
  | nil => simp [ainsert, alookup, Ne.symm h]
  | cons hd tl ih =>
    obtain ⟨a, b⟩ := hd
    by_cases hh : a = k
    · subst hh
      simp [ainsert, alookup, Ne.symm h]
    · by_cases hk : a = k' <;> simp [ainsert, hh, alookup, hk, ih, h]

theorem alookup_aerase_ne {α β : Type} [DecidableEq α] (l : List (α × β))
    (k k' : α) (h : k' ≠ k) :
    alookup (aerase l k) k' = alookup l k' := by
  induction l with
  | nil => simp [aerase]
  | cons hd tl ih =>
    obtain ⟨a, b⟩ := hd
    by_cases hh : a = k
    · subst hh
      simp [aerase, alookup, Ne.symm h]
    · by_cases hk : a = k' <;> simp [aerase, hh, alookup, hk, ih, h]

theorem mem_akeys_of_alookup {α β : Type} [DecidableEq α] (l : List (α × β))
    (k : α) (v : β) (h : alookup l k = some v) : k ∈ akeys l := by
  induction l with
  | nil => simp [alookup] at h
  | cons hd tl ih =>
    by_cases hh : hd.1 = k
    · simp [akeys, hh]
    · simp only [alookup, hh, if_false] at h
      simpa [akeys] using Or.inr (ih h)

theorem alookup_eq_none_of_not_mem {α β : Type} [DecidableEq α]
    (l : List (α × β)) (k : α) (h : k ∉ akeys l) : alookup l k = none := by
  induction l with
  | nil => rfl
  | cons hd tl ih =>
    have h1 : hd.1 ≠ k := fun e => h (by simp [akeys, e])
    have h2 : k ∉ akeys tl := fun m => h (by simp [akeys]; exact Or.inr (by simpa [akeys] using m))
    simp only [alookup, h1, if_false]
    exact ih h2

theorem alookup_aerase_self {α β : Type} [DecidableEq α] (l : List (α × β))
    (k : α) (h : (akeys l).Nodup) : alookup (aerase l k) k = none := by
  induction l with
  | nil => rfl
  | cons hd tl ih =>
    simp only [akeys, List.map_cons, List.nodup_cons] at h
    by_cases hh : hd.1 = k
    · subst hh
      simpa [aerase] using alookup_eq_none_of_not_mem tl hd.1 (by simpa [akeys] using h.1)
    · simp only [aerase, hh, if_false, alookup]
      exact ih h.2

theorem mem_of_alookup {α β : Type} [DecidableEq α] (l : List (α × β))
    (k : α) (v : β) (h : alookup l k = some v) : (k, v) ∈ l := by
  induction l with
  | nil => simp [alookup] at h
  | cons hd tl ih =>
    obtain ⟨a, b⟩ := hd
    by_cases hh : a = k
    · subst hh
      simp only [alookup, eq_self_iff_true, if_true, Option.some.injEq] at h
      subst h
      exact List.mem_cons_self _ _
    · simp only [alookup, if_neg hh] at h
      exact List.mem_cons_of_mem _ (ih h)

theorem alookup_of_mem {α β : Type} [DecidableEq α] (l : List (α × β))
    (k : α) (v : β) (hn : (akeys l).Nodup) (h : (k, v) ∈ l) :
    alookup l k = some v := by
  induction l with
  | nil => simp at h
  | cons hd tl ih =>
    simp only [akeys, List.map_cons, List.nodup_cons] at hn
    rcases List.mem_cons.mp h with h | h
    · subst h
      simp [alookup]
    · have hk : hd.1 ≠ k := by
        intro e
        exact hn.1 (e ▸ List.mem_map_of_mem Prod.fst h)
      simp only [alookup, hk, if_false]
      exact ih hn.2 h

theorem mem_akeys_ainsert {α β : Type} [DecidableEq α] (l : List (α × β))
    (k k' : α) (v : β) (h : k' ∈ akeys (ainsert l k v)) :
    k' = k ∨ k' ∈ akeys l := by
  induction l with
  | nil => simpa [ainsert, akeys] using h
  | cons hd tl ih =>
    by_cases hh : hd.1 = k
    · subst hh
      simpa [ainsert, akeys] using h
    · simp only [ainsert, hh, if_false, akeys, List.map_cons, List.mem_cons] at h ⊢
      rcases h with h | h
      · exact Or.inr (Or.inl h)
      · rcases ih h with h | h
        · exact Or.inl h
        · exact Or.inr (Or.inr h)

theorem nodup_akeys_ainsert {α β : Type} [DecidableEq α] (l : List (α × β))
    (k : α) (v : β) (h : (akeys l).Nodup) : (akeys (ainsert l k v)).Nodup := by
  induction l with
  | nil => simp [ainsert, akeys]
  | cons hd tl ih =>
    rw [akeys, List.map_cons, List.nodup_cons] at h
    by_cases hh : hd.1 = k
    · subst hh
      obtain ⟨a, b⟩ := hd
      rw [ainsert, if_pos rfl, akeys, List.map_cons, List.nodup_cons]
      exact ⟨h.1, h.2⟩
    · rw [ainsert, if_neg hh, akeys, List.map_cons, List.nodup_cons]
      refine ⟨fun hc => ?_, ih h.2⟩
      rcases mem_akeys_ainsert tl k hd.1 v hc with e | e
      · exact hh e
      · exact h.1 e

theorem akeys_aerase_sublist {α β : Type} [DecidableEq α] (l : List (α × β))
    (k : α) : (akeys (aerase l k)).Sublist (akeys l) := by
  induction l with
  | nil => simp [aerase]
  | cons hd tl ih =>
    by_cases hh : hd.1 = k
    · simp only [aerase, hh, if_true, akeys, List.map_cons, eq_self_iff_true, ite_true]
      exact List.sublist_cons_self _ _
    · simpa [aerase, hh, akeys] using ih.cons₂ hd.1

theorem nodup_akeys_aerase {α β : Type} [DecidableEq α] (l : List (α × β))
    (k : α) (h : (akeys l).Nodup) : (akeys (aerase l k)).Nodup :=
  (akeys_aerase_sublist l k).nodup h

/-! ## C10: total occupant lookup, guarded insertion -/

/-- C10: `HexGrid.__getitem__` is total: it returns `none` for every
out-of-bounds point and the plain occupancy lookup otherwise (so `none` on
empty cells, an occupant id on occupied ones) and never raises; only
`__setitem__` rejects an out-of-bounds point, failing with an `IndexError`
and returning no mutated grid. -/
theorem occupant_lookup_total :
    ∀ (g : HexGrid) (pt : Pt) (oid : Nat),
      (¬ inBounds g.width g.height pt → g.getItem pt = none) ∧
      (inBounds g.width g.height pt → g.getItem pt = alookup g.grid pt) ∧
      (¬ inBounds g.width g.height pt →
        g.setItem pt oid = .error "IndexError: Position is out of bounds") ∧
      (inBounds g.width g.height pt → ∃ g', g.setItem pt oid = .ok g') := by
  intro g pt oid
  refine ⟨fun h => ?_, fun h => ?_, fun h => ?_, fun h => ?_⟩
  · simp [HexGrid.getItem, h]
  · simp [HexGrid.getItem, h]
  · simp [HexGrid.setItem, h]
  · unfold HexGrid.setItem
    rw [if_pos h]
    exact ⟨_, rfl⟩

/-- Witness for C10 at a concrete grid: the out-of-bounds point `(9, 9)` of
a 3×3 grid reads as `none` and is rejected by insertion. -/
theorem occupant_lookup_total_witness :
    (HexGrid.mk 3 3 [(⟨1, 1⟩, 4)] [(4, ⟨1, 1⟩)]).getItem ⟨9, 9⟩ = none ∧
      (HexGrid.mk 3 3 [(⟨1, 1⟩, 4)] [(4, ⟨1, 1⟩)]).setItem ⟨9, 9⟩ 5 =
        .error "IndexError: Position is out of bounds" :=
  ⟨(occupant_lookup_total (HexGrid.mk 3 3 [(⟨1, 1⟩, 4)] [(4, ⟨1, 1⟩)]) ⟨9, 9⟩ 5).1
      (by decide),
    (occupant_lookup_total (HexGrid.mk 3 3 [(⟨1, 1⟩, 4)] [(4, ⟨1, 1⟩)]) ⟨9, 9⟩ 5).2.2.1
      (by decide)⟩

/-! ## C3: the roll resolver -/

/-- C3: for every bonus and difficulty (with `threshold = difficulty -
bonus`) and every drawn value `r` in `1..20`: a 20 is always a crit, a 1
always a miss, otherwise the outcome is a hit exactly when `r ≥ threshold`;
the reported probabilities are `P(Crit) = 1/20` fixed, `P(Hit)` the count of
die values in `[max(2, threshold), 19]` over 20, and `P(Miss)` the
complement; and the fixed-outcome resolver reports for its forced outcome
exactly the probability that outcome would have had under the same
threshold. -/
theorem roll_resolver_spec :
    ∀ bonus difficulty r : Int, 1 ≤ r → r ≤ 20 →
      (r = 20 → classifyRoll r (difficulty - bonus) = .CRIT) ∧
      (r = 1 → classifyRoll r (difficulty - bonus) = .MISS) ∧
      (r ≠ 20 → r ≠ 1 →
        (classifyRoll r (difficulty - bonus) = .HIT ↔ difficulty - bonus ≤ r) ∧
        (classifyRoll r (difficulty - bonus) = .MISS ↔ r < difficulty - bonus)) ∧
      calcProbability .CRIT (difficulty - bonus) = 1 / 20 ∧
      calcProbability .HIT (difficulty - bonus) =
        ((Finset.Icc (max 2 (difficulty - bonus)) 19).card : ℚ) / 20 ∧
      calcProbability .MISS (difficulty - bonus) =
        1 - 1 / 20 - calcProbability .HIT (difficulty - bonus) ∧
      (∀ res, fixedRoll res bonus difficulty =
        (res, calcProbability res (difficulty - bonus))) ∧
      randomRoll r bonus difficulty =
        (classifyRoll r (difficulty - bonus),
          calcProbability (classifyRoll r (difficulty - bonus)) (difficulty - bonus)) := by
  intro bonus difficulty r _ _
  set th := difficulty - bonus with hth
  have hcard : ((Finset.Icc (max 2 th) 19).card : ℚ) = (rollHits th : ℚ) := by
    rw [Int.card_Icc]
    unfold rollHits
    by_cases hl : max 2 th ≤ 19
    · rw [if_pos hl]
      have h2 : ((19 + 1 - max 2 th).toNat : ℤ) = 19 - max 2 th + 1 := by omega
      exact_mod_cast congrArg (fun z : ℤ => (z : ℚ)) h2
    · rw [if_neg hl]
      have h2 : (19 + 1 - max 2 th).toNat = 0 := by omega
      rw [h2]
      simp
  refine ⟨fun h => by simp [classifyRoll, h], fun h => by simp [classifyRoll, h],
    fun h20 h1 => ⟨?_, ?_⟩, rfl, ?_, ?_, fun res => rfl, rfl⟩
  · unfold classifyRoll
    rw [if_neg h20, if_neg h1]
    by_cases hh : th ≤ r <;> simp [hh]
  · unfold classifyRoll
    rw [if_neg h20, if_neg h1]
    by_cases hh : th ≤ r <;> simp [hh] <;> omega
  · show (rollHits th : ℚ) / 20 = ((Finset.Icc (max 2 th) 19).card : ℚ) / 20
    rw [hcard]
  · show ((19 - rollHits th : Int) : ℚ) / 20 = 1 - 1 / 20 - (rollHits th : ℚ) / 20
    push_cast
    ring

unseal Rat.add Rat.mul Rat.inv Rat.sub Rat.ofScientific in
/-- Witness for C3 at `bonus = 2`, `difficulty = 5`, `r = 7`
(threshold 3, so 7 is a hit with probability 17/20). -/
theorem roll_resolver_spec_witness :
    classifyRoll 7 (5 - 2) = .HIT ∧ calcProbability .HIT (5 - 2) = 17 / 20 ∧
      randomRoll 7 2 5 = (.HIT, 17 / 20) := by
  have h := roll_resolver_spec 2 5 7 (by decide) (by decide)
  refine ⟨(h.2.2.1 (by decide) (by decide)).1.mpr (by decide), ?_, ?_⟩
  · have hp : calcProbability .HIT (5 - 2) = 17 / 20 := by decide
    exact hp
  · rw [h.2.2.2.2.2.2.2]
    have hc : classifyRoll 7 (5 - 2) = .HIT := by decide
    rw [hc]
    have hp : calcProbability .HIT (5 - 2) = 17 / 20 := by decide
    rw [hp]

/-! ## C7: the grid's occupancy mapping is a partial bijection -/

theorem mem_of_mem_aerase {α β : Type} [DecidableEq α] (l : List (α × β))
    (k : α) (e : α × β) (h : e ∈ aerase l k) : e ∈ l := by
  induction l with
  | nil => simpa [aerase] using h
  | cons hd tl ih =>
    by_cases hh : hd.1 = k
    · simp only [aerase, hh, if_true, eq_self_iff_true, ite_true] at h
      exact List.mem_cons_of_mem _ h
    · simp only [aerase, hh, if_false, ite_false, List.mem_cons] at h
      rcases h with h | h
      · exact h ▸ List.mem_cons_self _ _
      · exact List.mem_cons_of_mem _ (ih h)

theorem mem_ainsert_elim {α β : Type} [DecidableEq α] (l : List (α × β))
    (k : α) (v : β) (e : α × β) (hn : (akeys l).Nodup)
    (h : e ∈ ainsert l k v) : e = (k, v) ∨ (e ∈ l ∧ e.1 ≠ k) := by
  induction l with
  | nil => simp only [ainsert, List.mem_singleton] at h; exact Or.inl h
  | cons hd tl ih =>
    rw [akeys, List.map_cons, List.nodup_cons] at hn
    by_cases hh : hd.1 = k
    · rw [ainsert, if_pos hh] at h
      rcases List.mem_cons.mp h with h | h
      · exact Or.inl h
      · refine Or.inr ⟨List.mem_cons_of_mem _ h, fun e1 => ?_⟩
        exact hn.1 (hh ▸ e1 ▸ List.mem_map_of_mem Prod.fst h)
    · rw [ainsert, if_neg hh] at h
      rcases List.mem_cons.mp h with h | h
      · exact Or.inr ⟨h ▸ List.mem_cons_self _ _, h ▸ hh⟩
      · rcases ih hn.2 h with h | h
        · exact Or.inl h
        · exact Or.inr ⟨List.mem_cons_of_mem _ h.1, h.2⟩

/-- The two occupancy dicts are key-unique and mutually inverse: exactly the
"at most one occupant per point, at most one point per occupant" invariant. -/
def GInv (g : HexGrid) : Prop :=
  (akeys g.grid).Nodup ∧ (akeys g.rev).Nodup ∧
    (∀ e ∈ g.grid, alookup g.rev e.2 = some e.1) ∧
    (∀ e ∈ g.rev, alookup g.grid e.2 = some e.1)

instance (g : HexGrid) : Decidable (GInv g) :=
  inferInstanceAs (Decidable ((akeys g.grid).Nodup ∧ (akeys g.rev).Nodup ∧
    (∀ e ∈ g.grid, alookup g.rev e.2 = some e.1) ∧
    (∀ e ∈ g.rev, alookup g.grid e.2 = some e.1)))

theorem GInv.lookup_iff {g : HexGrid} (hg : GInv g) (p : Pt) (oid : Nat) :
    alookup g.grid p = some oid ↔ alookup g.rev oid = some p := by
  constructor
  · intro h
    exact hg.2.2.1 (p, oid) (mem_of_alookup _ _ _ h)
  · intro h
    exact hg.2.2.2 (oid, p) (mem_of_alookup _ _ _ h)

/-- Lookup description of `eraseAt` at an occupied point. -/
theorem eraseAt_lookups {g : HexGrid} {pt : Pt} {oid0 : Nat} (hg : GInv g)
    (hpo : alookup g.grid pt = some oid0) :
    (∀ q, alookup (g.eraseAt pt).grid q =
      if q = pt then none else alookup g.grid q) ∧
    (∀ o, alookup (g.eraseAt pt).rev o =
      if o = oid0 then none else alookup g.rev o) ∧
    GInv (g.eraseAt pt) := by
  have hE : g.eraseAt pt =
      { g with grid := aerase g.grid pt, rev := aerase g.rev oid0 } := by
    unfold HexGrid.eraseAt
    rw [hpo]
  have hgrid : ∀ q, alookup (g.eraseAt pt).grid q =
      if q = pt then none else alookup g.grid q := by
    intro q
    rw [hE]
    by_cases hq : q = pt
    · rw [if_pos hq, hq]
      exact alookup_aerase_self _ _ hg.1
    · rw [if_neg hq]
      exact alookup_aerase_ne _ _ _ hq
  have hrev : ∀ o, alookup (g.eraseAt pt).rev o =
      if o = oid0 then none else alookup g.rev o := by
    intro o
    rw [hE]
    by_cases ho : o = oid0
    · rw [if_pos ho, ho]
      exact alookup_aerase_self _ _ hg.2.1
    · rw [if_neg ho]
      exact alookup_aerase_ne _ _ _ ho
  refine ⟨hgrid, hrev, ?_, ?_, ?_, ?_⟩
  · rw [hE]
    exact nodup_akeys_aerase _ _ hg.1
  · rw [hE]
    exact nodup_akeys_aerase _ _ hg.2.1
  · intro e he
    rw [hE] at he
    have hel : e ∈ g.grid := mem_of_mem_aerase _ _ _ he
    have h1 : alookup g.rev e.2 = some e.1 := hg.2.2.1 e hel
    have h2 : e.2 ≠ oid0 := by
      intro hcon
      have hrv : alookup g.rev oid0 = some pt := (hg.lookup_iff pt oid0).mp hpo
      have : e.1 = pt := by
        rw [hcon] at h1
        rw [h1] at hrv
        exact (Option.some.injEq _ _).mp hrv
      have hlk : alookup (g.eraseAt pt).grid e.1 = none := by
        rw [hgrid, if_pos this]
      have hlk2 : alookup (g.eraseAt pt).grid e.1 = some e.2 := by
        rw [hE]
        refine alookup_of_mem _ _ _ (nodup_akeys_aerase _ _ hg.1) ?_
        cases e
        exact he
      rw [hlk] at hlk2
      exact Option.noConfusion hlk2
    rw [hrev, if_neg h2]
    exact h1
  · intro e he
    rw [hE] at he
    have hel : e ∈ g.rev := mem_of_mem_aerase _ _ _ he
    have h1 : alookup g.grid e.2 = some e.1 := hg.2.2.2 e hel
    have h2 : e.2 ≠ pt := by
      intro hcon
      have : e.1 = oid0 := by
        rw [hcon, hpo] at h1
        exact ((Option.some.injEq _ _).mp h1).symm
      have hlk : alookup (g.eraseAt pt).rev e.1 = none := by
        rw [hrev, if_pos this]
      have hlk2 : alookup (g.eraseAt pt).rev e.1 = some e.2 := by
        rw [hE]
        refine alookup_of_mem _ _ _ (nodup_akeys_aerase _ _ hg.2.1) ?_
        cases e
        exact he
      rw [hlk] at hlk2
      exact Option.noConfusion hlk2
    rw [hgrid, if_neg h2]
    exact h1

/-- Width and height are untouched by `eraseAt`. -/
theorem eraseAt_dims (g : HexGrid) (pt : Pt) :
    (g.eraseAt pt).width = g.width ∧ (g.eraseAt pt).height = g.height := by
  unfold HexGrid.eraseAt
  cases alookup g.grid pt <;> exact ⟨rfl, rfl⟩

/-- Writing a fresh pair into both directions preserves the invariant. -/
theorem insert_pair_GInv {g2 : HexGrid} (hg2 : GInv g2) (pt : Pt) (oid : Nat)
    (hpt : alookup g2.grid pt = none) (hoid : alookup g2.rev oid = none) :
    GInv { g2 with grid := ainsert g2.grid pt oid, rev := ainsert g2.rev oid pt } := by
  refine ⟨nodup_akeys_ainsert _ _ _ hg2.1, nodup_akeys_ainsert _ _ _ hg2.2.1, ?_, ?_⟩
  · intro e he
    rcases mem_ainsert_elim _ _ _ _ hg2.1 he with he | ⟨he, hne⟩
    · rw [he]
      exact alookup_ainsert_self _ _ _
    · have h1 : alookup g2.rev e.2 = some e.1 := hg2.2.2.1 e he
      have h2 : e.2 ≠ oid := by
        intro hcon
        rw [hcon] at h1
        rw [h1] at hoid
        exact Option.noConfusion hoid
      rw [alookup_ainsert_ne _ _ _ _ h2]
      exact h1
  · intro e he
    rcases mem_ainsert_elim _ _ _ _ hg2.2.1 he with he | ⟨he, hne⟩
    · rw [he]
      exact alookup_ainsert_self _ _ _
    · have h1 : alookup g2.grid e.2 = some e.1 := hg2.2.2.2 e he
      have h2 : e.2 ≠ pt := by
        intro hcon
        rw [hcon] at h1
        rw [h1] at hpt
        exact Option.noConfusion hpt
      rw [alookup_ainsert_ne _ _ _ _ h2]
      exact h1

/-- Closed-form lookup description of a successful `__setitem__`: the new
pair is present in both directions, the occupant's previous position is
vacated, the position's previous occupant is evicted, and everything else is
untouched. -/
theorem setItem_ok_spec {g : HexGrid} {pt : Pt} {oid : Nat} {g' : HexGrid}
    (hg : GInv g) (h : g.setItem pt oid = .ok g') :
    GInv g' ∧ g'.width = g.width ∧ g'.height = g.height ∧
      (∀ q, alookup g'.grid q =
        if q = pt then some oid
        else if alookup g.rev oid = some q then none
        else alookup g.grid q) ∧
      (∀ o, alookup g'.rev o =
        if o = oid then some pt
        else if alookup g.grid pt = some o then none
        else alookup g.rev o) := by
  simp only [HexGrid.setItem] at h
  by_cases hb : inBounds g.width g.height pt
  case neg =>
    rw [if_neg hb] at h
    exact absurd h (by simp)
  rw [if_pos hb] at h
  -- Stage 1: vacate the written-to position.
  obtain ⟨g1, hinv1, hw1, hh1, he1, hpt1, hgr1, hrv1⟩ :
      ∃ g1 : HexGrid, GInv g1 ∧ g1.width = g.width ∧ g1.height = g.height ∧
        (if (alookup g.grid pt).isSome then g.eraseAt pt else g) = g1 ∧
        alookup g1.grid pt = none ∧
        (∀ q, q ≠ pt → alookup g1.grid q = alookup g.grid q) ∧
        (∀ o, alookup g1.rev o =
          if alookup g.grid pt = some o then none else alookup g.rev o) := by
    cases hocc : alookup g.grid pt with
    | none =>
      refine ⟨g, hg, rfl, rfl, rfl, hocc, fun q _ => rfl, fun o => ?_⟩
      simp
    | some prev =>
      obtain ⟨hgr, hrv, hinv⟩ := eraseAt_lookups hg hocc
      refine ⟨g.eraseAt pt, hinv, (eraseAt_dims g pt).1, (eraseAt_dims g pt).2,
        rfl, ?_, fun q hq => ?_, fun o => ?_⟩
      · rw [hgr, if_pos rfl]
      · rw [hgr, if_neg hq]
      · rw [hrv]
        by_cases ho : o = prev
        · simp [ho]
        · rw [if_neg ho,
            if_neg (fun hc : (some prev : Option Nat) = some o =>
              ho (Option.some_inj.mp hc).symm)]
  rw [he1] at h
  -- Stage 2: vacate the occupant's previous position.
  obtain ⟨g2, hinv2, hw2, hh2, he2, hpt2, hoid2, hgr2, hrv2⟩ :
      ∃ g2 : HexGrid, GInv g2 ∧ g2.width = g.width ∧ g2.height = g.height ∧
        (match alookup g1.rev oid with
          | some oldPt =>
            if (alookup g1.grid oldPt).isSome then g1.eraseAt oldPt else g1
          | none => g1) = g2 ∧
        alookup g2.grid pt = none ∧ alookup g2.rev oid = none ∧
        (∀ q, q ≠ pt → alookup g2.grid q =
          if alookup g.rev oid = some q then none else alookup g.grid q) ∧
        (∀ o, o ≠ oid → alookup g2.rev o =
          if alookup g.grid pt = some o then none else alookup g.rev o) := by
    rcases hself : alookup g.grid pt with _ | prev
    case none =>
      have hro : alookup g1.rev oid = alookup g.rev oid := by
        rw [hrv1, if_neg (by rw [hself]; simp)]
      rcases hrev : alookup g.rev oid with _ | oldPt
      case none =>
        refine ⟨g1, hinv1, hw1, hh1, by rw [hro, hrev], hpt1, by rw [hro, hrev],
          fun q hq => ?_, fun o ho => ?_⟩
        · simp [hgr1 q hq]
        · rw [hrv1]
          simp [hself]
      case some =>
        have hgold : alookup g.grid oldPt = some oid := (hg.lookup_iff oldPt oid).mpr hrev
        have holdne : oldPt ≠ pt := by
          intro hc
          rw [hc, hself] at hgold
          exact Option.noConfusion hgold
        have hg1old : alookup g1.grid oldPt = some oid := by
          rw [hgr1 oldPt holdne]
          exact hgold
        obtain ⟨hgr, hrv, hinv⟩ := eraseAt_lookups hinv1 hg1old
        refine ⟨g1.eraseAt oldPt, hinv,
          (eraseAt_dims g1 oldPt).1.trans hw1, (eraseAt_dims g1 oldPt).2.trans hh1,
          by simp [hro, hrev, hg1old], ?_, ?_, fun q hq => ?_, fun o ho => ?_⟩
        · rw [hgr, if_neg (fun hc => holdne hc.symm)]
          exact hpt1
        · rw [hrv, if_pos rfl]
        · rw [hgr]
          by_cases hqo : q = oldPt
          · simp [hqo]
          · rw [if_neg hqo,
              if_neg (fun hc : (some oldPt : Option Pt) = some q =>
                hqo (Option.some_inj.mp hc).symm)]
            exact hgr1 q hq
        · rw [hrv, if_neg ho, hrv1]
          simp [hself]
    case some =>
      by_cases hpo : prev = oid
      case pos =>
        -- the written-to position already holds `oid`; its reverse entry is gone
        subst hpo
        have hro : alookup g1.rev prev = none := by
          rw [hrv1, if_pos hself]
        have hrevg : alookup g.rev prev = some pt := (hg.lookup_iff pt prev).mp hself
        refine ⟨g1, hinv1, hw1, hh1, by rw [hro], hpt1, hro, fun q hq => ?_, fun o ho => ?_⟩
        · have hne : alookup g.rev prev ≠ some q := by
            rw [hrevg]
            exact fun hc => hq (Option.some_inj.mp hc).symm
          rw [if_neg hne]
          exact hgr1 q hq
        · rw [hrv1]
          have hne : alookup g.grid pt ≠ some o := by
            rw [hself]
            exact fun hc => ho (Option.some_inj.mp hc).symm
          rw [if_neg hne,
            if_neg (fun hc : (some prev : Option ℕ) = some o =>
              ho (Option.some_inj.mp hc).symm)]
      case neg =>
        -- a different occupant sits at the position; `oid`'s entry is intact
        have hro : alookup g1.rev oid = alookup g.rev oid := by
          rw [hrv1, if_neg (fun hc => hpo (Option.some_inj.mp (hself ▸ hc)))]
        rcases hrev : alookup g.rev oid with _ | oldPt
        case none =>
          refine ⟨g1, hinv1, hw1, hh1, by rw [hro, hrev], hpt1, by rw [hro, hrev],
            fun q hq => ?_, fun o ho => ?_⟩
          · simp [hgr1 q hq]
          · rw [hrv1]
            by_cases hop : o = prev
            · subst hop
              rw [if_pos hself, if_pos rfl]
            · rw [if_neg (by rw [hself]; exact fun hc => hop (Option.some_inj.mp hc).symm),
                if_neg (fun hc : (some prev : Option ℕ) = some o =>
                  hop (Option.some_inj.mp hc).symm)]
        case some =>
          have hgold : alookup g.grid oldPt = some oid := (hg.lookup_iff oldPt oid).mpr hrev
          have holdne : oldPt ≠ pt := by
            intro hc
            rw [hc, hself] at hgold
            exact hpo (Option.some_inj.mp hgold)
          have hg1old : alookup g1.grid oldPt = some oid := by
            rw [hgr1 oldPt holdne]
            exact hgold
          obtain ⟨hgr, hrv, hinv⟩ := eraseAt_lookups hinv1 hg1old
          refine ⟨g1.eraseAt oldPt, hinv,
            (eraseAt_dims g1 oldPt).1.trans hw1, (eraseAt_dims g1 oldPt).2.trans hh1,
            by simp [hro, hrev, hg1old], ?_, ?_, fun q hq => ?_, fun o ho => ?_⟩
          · rw [hgr, if_neg (fun hc => holdne hc.symm)]
            exact hpt1
          · rw [hrv, if_pos rfl]
          · rw [hgr]
            by_cases hqo : q = oldPt
            · simp [hqo]
            · rw [if_neg hqo,
                if_neg (fun hc : (some oldPt : Option Pt) = some q =>
                  hqo (Option.some_inj.mp hc).symm)]
              exact hgr1 q hq
          · rw [hrv, if_neg ho, hrv1]
            by_cases hop : o = prev
            · subst hop
              rw [if_pos hself, if_pos rfl]
            · rw [if_neg (by rw [hself]; exact fun hc => hop (Option.some_inj.mp hc).symm),
                if_neg (fun hc : (some prev : Option ℕ) = some o =>
                  hop (Option.some_inj.mp hc).symm)]
  rw [he2] at h
  -- Stage 3: write the pair into both directions.
  have hrec : { g2 with grid := ainsert g2.grid pt oid, rev := ainsert g2.rev oid pt } = g' := by
    injection h
  subst hrec
  refine ⟨insert_pair_GInv hinv2 pt oid hpt2 hoid2, hw2, hh2, fun q => ?_, fun o => ?_⟩
  · by_cases hq : q = pt
    · rw [if_pos hq, hq]
      exact alookup_ainsert_self _ _ _
    · rw [if_neg hq]
      show alookup (ainsert g2.grid pt oid) q = _
      rw [alookup_ainsert_ne _ _ _ _ hq]
      exact hgr2 q hq
  · by_cases ho : o = oid
    · rw [if_pos ho, ho]
      exact alookup_ainsert_self _ _ _
    · rw [if_neg ho]
      show alookup (ainsert g2.rev oid pt) o = _
      rw [alookup_ainsert_ne _ _ _ _ ho]
      exact hrv2 o ho

/-- Closed-form lookup description of a successful `__delitem__`. -/
theorem delItem_ok_spec {g : HexGrid} {pt : Pt} {g' : HexGrid} (hg : GInv g)
    (h : g.delItem pt = .ok g') :
    ∃ oid0, alookup g.grid pt = some oid0 ∧ GInv g' ∧
      g'.width = g.width ∧ g'.height = g.height ∧
      (∀ q, alookup g'.grid q = if q = pt then none else alookup g.grid q) ∧
      (∀ o, alookup g'.rev o = if o = oid0 then none else alookup g.rev o) := by
  unfold HexGrid.delItem at h
  cases hocc : alookup g.grid pt with
  | none =>
    rw [hocc] at h
    exact absurd h (by simp)
  | some oid0 =>
    rw [hocc] at h
    have he : g.eraseAt pt = g' := by injection h
    obtain ⟨hgr, hrv, hinv⟩ := eraseAt_lookups hg hocc
    subst he
    exact ⟨oid0, rfl, hinv, (eraseAt_dims g pt).1, (eraseAt_dims g pt).2, hgr, hrv⟩

/-- One grid operation of a test sequence: `grid[pt] = oid` or `del grid[pt]`;
the Python exception on a rejected operation leaves the grid unchanged. -/
inductive GridOp
  | place (pt : Pt) (oid : Nat)
  | remove (pt : Pt)

/-- Apply one operation, keeping the old grid on failure. -/
def stepOp (g : HexGrid) : GridOp → HexGrid
  | .place pt oid =>
    match g.setItem pt oid with
    | .ok g' => g'
    | .error _ => g
  | .remove pt =>
    match g.delItem pt with
    | .ok g' => g'
    | .error _ => g

/-- A fresh grid. -/
def emptyGrid (w h : Nat) : HexGrid := ⟨w, h, [], []⟩

/-- A sequence of place/remove operations from a fresh grid. -/
def runOps (w h : Nat) (ops : List GridOp) : HexGrid :=
  ops.foldl stepOp (emptyGrid w h)

theorem GInv_empty (w h : Nat) : GInv (emptyGrid w h) := by
  refine ⟨List.nodup_nil, List.nodup_nil, ?_, ?_⟩ <;> intro e he <;> exact absurd he (by simp [emptyGrid])

theorem GInv_stepOp {g : HexGrid} (hg : GInv g) (op : GridOp) : GInv (stepOp g op) := by
  cases op with
  | place pt oid =>
    simp only [stepOp]
    cases hset : g.setItem pt oid with
    | ok g' => exact (setItem_ok_spec hg hset).1
    | error _ => exact hg
  | remove pt =>
    simp only [stepOp]
    cases hdel : g.delItem pt with
    | ok g' =>
      obtain ⟨_, _, hinv, _⟩ := delItem_ok_spec hg hdel
      exact hinv
    | error _ => exact hg

theorem GInv_foldl {g : HexGrid} (hg : GInv g) (ops : List GridOp) :
    GInv (ops.foldl stepOp g) := by
  induction ops generalizing g with
  | nil => exact hg
  | cons op rest ih => exact ih (GInv_stepOp hg op)

/-- C7: after every sequence of place/remove operations the two occupancy
dicts stay key-unique and mutually inverse (at most one occupant per point,
at most one point per occupant); a successful insertion makes the pair
current in both directions, vacates the id's previous point, evicts the
prior occupant's mapping entirely, and re-inserting an id at its current
point changes no lookup. -/
theorem grid_occupancy_bijective :
    (∀ w h ops, GInv (runOps w h ops)) ∧
    (∀ g : HexGrid, ∀ p o, GInv g →
      (alookup g.grid p = some o ↔ alookup g.rev o = some p)) ∧
    (∀ g : HexGrid, ∀ pt oid g', GInv g → g.setItem pt oid = .ok g' →
      GInv g' ∧ alookup g'.grid pt = some oid ∧ alookup g'.rev oid = some pt ∧
      (∀ oldPt, alookup g.rev oid = some oldPt → oldPt ≠ pt →
        alookup g'.grid oldPt = none) ∧
      (∀ prev, alookup g.grid pt = some prev → prev ≠ oid →
        alookup g'.rev prev = none ∧ ∀ q, alookup g'.grid q ≠ some prev) ∧
      (alookup g.grid pt = some oid →
        (∀ q, alookup g'.grid q = alookup g.grid q) ∧
        (∀ o, alookup g'.rev o = alookup g.rev o))) ∧
    (∀ g : HexGrid, ∀ pt g', GInv g → g.delItem pt = .ok g' → GInv g') := by
  refine ⟨fun w h ops => GInv_foldl (GInv_empty w h) ops,
    fun g p o hg => hg.lookup_iff p o,
    fun g pt oid g' hg hset => ?_,
    fun g pt g' hg hdel => by
      obtain ⟨_, _, hinv, _⟩ := delItem_ok_spec hg hdel
      exact hinv⟩
  obtain ⟨hinv, _, _, hgr, hrv⟩ := setItem_ok_spec hg hset
  refine ⟨hinv, by rw [hgr, if_pos rfl], by rw [hrv, if_pos rfl],
    fun oldPt hold holdne => ?_, fun prev hprev hpo => ⟨?_, fun q => ?_⟩, fun hid => ?_⟩
  · rw [hgr, if_neg holdne, if_pos hold]
  · rw [hrv, if_neg hpo, if_pos hprev]
  · rw [hgr]
    by_cases hq : q = pt
    · rw [if_pos hq]
      exact fun hc => hpo (Option.some_inj.mp hc).symm
    · rw [if_neg hq]
      by_cases hrq : alookup g.rev oid = some q
      · rw [if_pos hrq]
        simp
      · rw [if_neg hrq]
        intro hc
        have h1 : alookup g.rev prev = some q := (hg.lookup_iff q prev).mp hc
        have h2 : alookup g.rev prev = some pt := (hg.lookup_iff pt prev).mp hprev
        rw [h1] at h2
        exact hq (Option.some_inj.mp h2)
  · have hrevo : alookup g.rev oid = some pt := (hg.lookup_iff pt oid).mp hid
    constructor
    · intro q
      rw [hgr]
      by_cases hq : q = pt
      · rw [if_pos hq, hq, hid]
      · rw [if_neg hq,
          if_neg (by rw [hrevo]; exact fun hc => hq (Option.some_inj.mp hc).symm)]
    · intro o
      rw [hrv]
      by_cases ho : o = oid
      · rw [if_pos ho, ho, hrevo]
      · rw [if_neg ho,
          if_neg (by rw [hid]; exact fun hc => ho (Option.some_inj.mp hc).symm)]

/-- Witness for C7: moving id 4 from `(0,0)` onto `(1,1)` (occupied by 9)
in one insertion: afterwards 4 is at `(1,1)` in both directions, `(0,0)` is
vacated, 9's mapping is gone, and the invariant still holds. -/
theorem grid_occupancy_bijective_witness :
    (HexGrid.mk 3 3 [(⟨0, 0⟩, 4), (⟨1, 1⟩, 9)] [(4, ⟨0, 0⟩), (9, ⟨1, 1⟩)]).setItem ⟨1, 1⟩ 4 =
      .ok (HexGrid.mk 3 3 [(⟨1, 1⟩, 4)] [(4, ⟨1, 1⟩)]) ∧
    GInv (HexGrid.mk 3 3 [(⟨1, 1⟩, 4)] [(4, ⟨1, 1⟩)]) ∧
    alookup (HexGrid.mk 3 3 [(⟨1, 1⟩, 4)] [(4, ⟨1, 1⟩)]).grid ⟨0, 0⟩ = none ∧
    alookup (HexGrid.mk 3 3 [(⟨1, 1⟩, 4)] [(4, ⟨1, 1⟩)]).rev 9 = none := by
  have hset : (HexGrid.mk 3 3 [(⟨0, 0⟩, 4), (⟨1, 1⟩, 9)] [(4, ⟨0, 0⟩), (9, ⟨1, 1⟩)]).setItem
      ⟨1, 1⟩ 4 = .ok (HexGrid.mk 3 3 [(⟨1, 1⟩, 4)] [(4, ⟨1, 1⟩)]) := by rfl
  have h := grid_occupancy_bijective.2.2.1 _ ⟨1, 1⟩ 4 _ (by decide) hset
  exact ⟨hset, h.1,
    h.2.2.2.1 ⟨0, 0⟩ (by decide) (by decide),
    (h.2.2.2.2.1 9 (by decide) (by decide)).1⟩

/-! ## C2 and C4: the expectimax solver on the Nim fixture -/

set_option maxRecDepth 10000 in
unseal Rat.add Rat.mul Rat.inv Rat.sub Rat.ofScientific in
/-- C2: on the Nim fixture, a fresh solver searching the 4-token pile to
depth 10 with the maximizing player to move returns score 1000 and the move
that takes exactly 1 token. -/
theorem nim_four_tokens_forced_win :
    (solve nimGame [] (4, true) 10 true).1 = 1000 ∧
      (solve nimGame [] (4, true) 10 true).2.1 = some 1 := by
  decide

set_option maxRecDepth 10000 in
unseal Rat.add Rat.mul Rat.inv Rat.sub Rat.ofScientific in
/-- C4 (code bug): at the non-terminal 5-token Nim pile (legal moves
`[1, 2]`, depth 10 ≥ 1) a fresh solver returns score -1000 with move 1,
although taking 2 tokens has expected value 1000 under the solver's own
`apply` (the plain unpruned expectimax optimum is 1000): transposition
entries cached under narrowed alpha/beta windows are reused as exact values,
so `solve` does not return the best expected value.  A repeat solve of the
same root returns the memoized value with move `none`. -/
theorem solver_wrong_value_nim5 :
    nimGame.is_over (5, true) = false ∧
      nimGame.moves (5, true) = [1, 2] ∧
      (solve nimGame [] (5, true) 10 true).1 = -1000 ∧
      (solve nimGame [] (5, true) 10 true).2.1 = some 1 ∧
      ((nimGame.apply (5, true) 2).map (fun o => o.2 * nimRefVal 9 o.1 false)).sum = 1000 ∧
      nimRefVal 10 (5, true) true = 1000 ∧
      (solve nimGame (solve nimGame [] (5, true) 10 true).2.2 (5, true) 10 true).2.1 =
        none := by
  decide

/-! ## C9: `GameState.clone` independence

Python mutates objects through references, so the independence of a clone is
a statement about the object graph.  The mutable pieces of a `GameState` are
the `HexGrid` object, each `UnitState`'s `current_health` and the state's
own turn cursor; the model gives each a cell in an explicit store.  `clone`
allocates fresh cells and copies the values: the grid copy is the
spec-modelled `HexGrid.clone` (absent from `src/hex.py`; the spec calls the
clone "a fully independent copy" of the grid contents), the fresh health
cells are the new `UnitState` objects built by the dict comprehension, the
fresh cursor cell is the new state object's own `current_turn_index` field,
and `instanceRef` (the shared immutable `GameInstance` holding
TurnOrder/Archetype/Spell data) is copied by reference. -/

/-- The store of mutable cells. -/
structure Store where
  nextRef : Nat
  gridVal : Nat → HexGrid
  healthVal : Nat → Int
  cursorVal : Nat → Nat

/-- A `GameState` as a set of references into the store. -/
structure StateRefs where
  instanceRef : Nat
  gridRef : Nat
  healthRefs : List (Nat × Nat)
  cursorRef : Nat

/-- All cells of a state are allocated. -/
def StateRefs.WF (st : StateRefs) (σ : Store) : Prop :=
  st.gridRef < σ.nextRef ∧ st.cursorRef < σ.nextRef ∧
    ∀ e ∈ st.healthRefs, e.2 < σ.nextRef

instance (st : StateRefs) (σ : Store) : Decidable (st.WF σ) := by
  unfold StateRefs.WF; infer_instance

/-- In-place mutation of the grid object (`self.grid[...] = ...` etc.). -/
def Store.writeGrid (σ : Store) (r : Nat) (v : HexGrid) : Store :=
  { σ with gridVal := fun x => if x = r then v else σ.gridVal x }

/-- In-place mutation of one unit's `current_health`. -/
def Store.writeHealth (σ : Store) (r : Nat) (v : Int) : Store :=
  { σ with healthVal := fun x => if x = r then v else σ.healthVal x }

/-- In-place mutation of a state's turn cursor. -/
def Store.writeCursor (σ : Store) (r : Nat) (v : Nat) : Store :=
  { σ with cursorVal := fun x => if x = r then v else σ.cursorVal x }

/-- Fresh health cells for the cloned `UnitState` objects, keyed by uid. -/
def copyRefs : List (Nat × Nat) → Nat → List (Nat × Nat)
  | [], _ => []
  | (uid, _) :: rest, ref => (uid, ref) :: copyRefs rest (ref + 1)

/-- Copy each unit's current health into its fresh cell. -/
def copyHealths (σ : Store) : List (Nat × Nat) → Nat → (Nat → Int) → Nat → Int
  | [], _, f => f
  | (_, r) :: rest, ref, f =>
    copyHealths σ rest (ref + 1) (fun x => if x = ref then σ.healthVal r else f x)

/-- `GameState.clone`: allocate a fresh grid cell (the spec-modelled
`HexGrid.clone` deep copy), a fresh cursor cell, and a fresh health cell per
unit, copying each value; the instance reference is shared. -/
def cloneState (σ : Store) (st : StateRefs) : Store × StateRefs :=
  let base := σ.nextRef
  (⟨base + 2 + st.healthRefs.length,
      fun x => if x = base then σ.gridVal st.gridRef else σ.gridVal x,
      copyHealths σ st.healthRefs (base + 2) σ.healthVal,
      fun x => if x = base + 1 then σ.cursorVal st.cursorRef else σ.cursorVal x⟩,
    ⟨st.instanceRef, base, copyRefs st.healthRefs (base + 2), base + 1⟩)

theorem copyHealths_lt (σ : Store) (l : List (Nat × Nat)) (ref : Nat)
    (f : Nat → Int) (x : Nat) (hx : x < ref) :
    copyHealths σ l ref f x = f x := by
  induction l generalizing ref f with
  | nil => rfl
  | cons hd rest ih =>
    obtain ⟨uid, r⟩ := hd
    show copyHealths σ rest (ref + 1) _ x = f x
    rw [ih (ref + 1) _ (Nat.lt_succ_of_lt hx)]
    rw [if_neg (Nat.ne_of_lt hx)]

theorem copyRefs_bounds (l : List (Nat × Nat)) (ref : Nat) (e : Nat × Nat)
    (h : e ∈ copyRefs l ref) : ref ≤ e.2 ∧ e.2 < ref + l.length := by
  induction l generalizing ref with
  | nil => simp [copyRefs] at h
  | cons hd rest ih =>
    obtain ⟨uid, r⟩ := hd
    rcases List.mem_cons.mp h with h | h
    · rw [h]
      simp
    · obtain ⟨h1, h2⟩ := ih (ref + 1) h
      exact ⟨Nat.le_of_succ_le h1, by simpa [Nat.succ_add] using h2⟩

theorem copyHealths_pair (σ : Store) (l : List (Nat × Nat)) (ref : Nat)
    (f : Nat → Int) (uid r r' : Nat) (h1 : alookup l uid = some r)
    (h2 : alookup (copyRefs l ref) uid = some r') :
    copyHealths σ l ref f r' = σ.healthVal r := by
  induction l generalizing ref f with
  | nil => exact absurd h1 (by simp [alookup])
  | cons hd rest ih =>
    obtain ⟨u0, r0⟩ := hd
    by_cases hu : u0 = uid
    · rw [alookup, if_pos hu] at h1
      rw [copyRefs, alookup, if_pos hu] at h2
      have hr : r = r0 := (Option.some_inj.mp h1).symm
      have hr' : r' = ref := (Option.some_inj.mp h2).symm
      have hstep : copyHealths σ ((u0, r0) :: rest) ref f r' =
          copyHealths σ rest (ref + 1)
            (fun x => if x = ref then σ.healthVal r0 else f x) r' := rfl
      rw [hstep, hr', copyHealths_lt σ rest (ref + 1) _ ref (Nat.lt_succ_self ref),
        if_pos rfl, hr]
    · rw [alookup, if_neg hu] at h1
      rw [copyRefs, alookup, if_neg hu] at h2
      exact ih (ref + 1) _ h1 h2

/-- C9: after `clone`, the clone reads equal grid/health/cursor values; the
clone allocation does not disturb the original's cells; every later
in-place write through the clone's references is invisible through the
original's references and vice versa; and the two states share exactly the
immutable instance reference. -/
theorem clone_independence :
    ∀ (σ : Store) (st : StateRefs), st.WF σ →
      ((cloneState σ st).2.instanceRef = st.instanceRef) ∧
      ((cloneState σ st).1.gridVal (cloneState σ st).2.gridRef =
        σ.gridVal st.gridRef) ∧
      ((cloneState σ st).1.cursorVal (cloneState σ st).2.cursorRef =
        σ.cursorVal st.cursorRef) ∧
      (∀ uid r r', alookup st.healthRefs uid = some r →
        alookup (cloneState σ st).2.healthRefs uid = some r' →
        (cloneState σ st).1.healthVal r' = σ.healthVal r) ∧
      ((cloneState σ st).1.gridVal st.gridRef = σ.gridVal st.gridRef) ∧
      ((cloneState σ st).1.cursorVal st.cursorRef = σ.cursorVal st.cursorRef) ∧
      (∀ e ∈ st.healthRefs, (cloneState σ st).1.healthVal e.2 = σ.healthVal e.2) ∧
      (∀ (σ' : Store) (v : HexGrid),
        (σ'.writeGrid (cloneState σ st).2.gridRef v).gridVal st.gridRef =
        σ'.gridVal st.gridRef) ∧
      (∀ (σ' : Store) (v : HexGrid),
        (σ'.writeGrid st.gridRef v).gridVal (cloneState σ st).2.gridRef =
        σ'.gridVal (cloneState σ st).2.gridRef) ∧
      (∀ (σ' : Store) (v : Nat),
        (σ'.writeCursor (cloneState σ st).2.cursorRef v).cursorVal st.cursorRef =
        σ'.cursorVal st.cursorRef) ∧
      (∀ (σ' : Store) (v : Nat),
        (σ'.writeCursor st.cursorRef v).cursorVal (cloneState σ st).2.cursorRef =
        σ'.cursorVal (cloneState σ st).2.cursorRef) ∧
      (∀ (σ' : Store) (v : Int) (r r' : Nat),
        r ∈ akeys ((cloneState σ st).2.healthRefs.map Prod.swap) →
        r' ∈ akeys (st.healthRefs.map Prod.swap) →
        (σ'.writeHealth r v).healthVal r' = σ'.healthVal r' ∧
        (σ'.writeHealth r' v).healthVal r = σ'.healthVal r) := by
  intro σ st hwf
  have hgne : st.gridRef ≠ σ.nextRef := Nat.ne_of_lt hwf.1
  have hcne : st.cursorRef ≠ σ.nextRef + 1 :=
    Nat.ne_of_lt (Nat.lt_succ_of_lt hwf.2.1)
  have hdisj : ∀ r r', r ∈ akeys ((cloneState σ st).2.healthRefs.map Prod.swap) →
      r' ∈ akeys (st.healthRefs.map Prod.swap) → r ≠ r' := by
    intro r r' hr hr' he
    simp only [cloneState, akeys, List.map_map, List.mem_map] at hr hr'
    obtain ⟨e, he1, he2⟩ := hr
    obtain ⟨e', he1', he2'⟩ := hr'
    have hb := (copyRefs_bounds st.healthRefs (σ.nextRef + 2) e he1).1
    have hb' := hwf.2.2 e' he1'
    rw [show (Prod.fst ∘ Prod.swap) e = e.2 from rfl] at he2
    rw [show (Prod.fst ∘ Prod.swap) e' = e'.2 from rfl] at he2'
    omega
  refine ⟨rfl, ?_, ?_, ?_, ?_, ?_, ?_, ?_, ?_, ?_, ?_, ?_⟩
  · show (if σ.nextRef = σ.nextRef then _ else _) = _
    rw [if_pos rfl]
  · show (if σ.nextRef + 1 = σ.nextRef + 1 then _ else _) = _
    rw [if_pos rfl]
  · intro uid r r' h1 h2
    exact copyHealths_pair σ st.healthRefs (σ.nextRef + 2) σ.healthVal uid r r' h1 h2
  · show (if st.gridRef = σ.nextRef then _ else _) = _
    rw [if_neg hgne]
  · show (if st.cursorRef = σ.nextRef + 1 then _ else _) = _
    rw [if_neg hcne]
  · intro e he
    have hlt : e.2 < σ.nextRef + 2 := Nat.lt_succ_of_lt (Nat.lt_succ_of_lt (hwf.2.2 e he))
    exact copyHealths_lt σ st.healthRefs (σ.nextRef + 2) σ.healthVal e.2 hlt
  · intro σ' v
    show (if st.gridRef = σ.nextRef then _ else _) = _
    rw [if_neg hgne]
  · intro σ' v
    show (if σ.nextRef = st.gridRef then _ else _) = _
    rw [if_neg (Ne.symm hgne)]
  · intro σ' v
    show (if st.cursorRef = σ.nextRef + 1 then _ else _) = _
    rw [if_neg hcne]
  · intro σ' v
    show (if σ.nextRef + 1 = st.cursorRef then _ else _) = _
    rw [if_neg (Ne.symm hcne)]
  · intro σ' v r r' hr hr'
    have hne := hdisj r r' hr hr'
    constructor
    · show (if r' = r then _ else _) = _
      rw [if_neg (Ne.symm hne)]
    · show (if r = r' then _ else _) = _
      rw [if_neg hne]

/-- Witness for C9 at a concrete two-unit store: writing health 0 through
the clone's cell for unit 1 leaves the original's reading intact, and the
clone starts out reading the same health. -/
theorem clone_independence_witness :
    (cloneState ⟨5, fun _ => emptyGrid 2 2, fun _ => 7, fun _ => 0⟩
        ⟨0, 1, [(1, 2), (2, 3)], 4⟩).2.healthRefs = [(1, 7), (2, 8)] ∧
    (cloneState ⟨5, fun _ => emptyGrid 2 2, fun _ => 7, fun _ => 0⟩
        ⟨0, 1, [(1, 2), (2, 3)], 4⟩).1.healthVal 7 = 7 ∧
    ((cloneState ⟨5, fun _ => emptyGrid 2 2, fun _ => 7, fun _ => 0⟩
        ⟨0, 1, [(1, 2), (2, 3)], 4⟩).1.writeHealth 7 0).healthVal 2 = 7 := by
  have h := clone_independence ⟨5, fun _ => emptyGrid 2 2, fun _ => 7, fun _ => 0⟩
    ⟨0, 1, [(1, 2), (2, 3)], 4⟩ (by decide)
  refine ⟨rfl, ?_, ?_⟩
  · exact h.2.2.2.1 1 2 7 (by rfl) (by rfl)
  · exact ((h.2.2.2.2.2.2.2.2.2.2.2
      (cloneState ⟨5, fun _ => emptyGrid 2 2, fun _ => 7, fun _ => 0⟩
        ⟨0, 1, [(1, 2), (2, 3)], 4⟩).1 0 7 2 (by decide) (by decide)).1).trans (by rfl)

/-! ## Engine lemmas shared by the attack/apply/rejection claims -/

/-- `_next_turn` only moves the cursor. -/
theorem nextTurnAux_frame (orig : Nat) :
    ∀ (fuel : Nat) (s : GameState),
      (nextTurnAux orig s fuel).inst = s.inst ∧
      (nextTurnAux orig s fuel).grid = s.grid ∧
      (nextTurnAux orig s fuel).units = s.units := by
  intro fuel
  induction fuel with
  | zero => exact fun s => ⟨rfl, rfl, rfl⟩
  | succ n ih =>
    intro s
    simp only [nextTurnAux]
    split
    · exact ⟨rfl, rfl, rfl⟩
    · split
      · exact ⟨rfl, rfl, rfl⟩
      · exact ih _

theorem nextTurn_frame (s : GameState) :
    s.nextTurn.inst = s.inst ∧ s.nextTurn.grid = s.grid ∧ s.nextTurn.units = s.units := by
  unfold GameState.nextTurn
  by_cases h : s.inst.turn_order.length = 0
  · rw [if_pos h]
    exact ⟨rfl, rfl, rfl⟩
  · rw [if_neg h]
    exact nextTurnAux_frame _ _ _

/-- The damage multiplier of `_apply_damage`: 2 on a crit, 1 on a hit,
0 on a miss. -/
def dmgMult : RollResult → Int
  | .CRIT => 2
  | .HIT => 1
  | .MISS => 0

theorem damage_as_mult (th base : Int) (rr : RollResult) :
    (if rr = .CRIT then th - base * 2 else if rr = .HIT then th - base else th) =
      th - dmgMult rr * base := by
  cases rr <;> simp [dmgMult] <;> ring

/-- What `_apply_damage` does when the target sits on the grid (the
invariant guarantees the reverse lookup and the deletion succeed). -/
theorem applyDamage_spec {s : GameState} {tuid : Nat} {tpos : Pt}
    (base th : Int) (rr : RollResult) (hg : GInv s.grid)
    (htpos : s.grid.getPt tuid = some tpos) :
    ∃ s', s.applyDamage base tuid th rr = .ok s' ∧
      s'.units = ainsert s.units tuid (th - dmgMult rr * base) ∧
      s'.inst = s.inst ∧ s'.current_turn_index = s.current_turn_index ∧
      GInv s'.grid ∧
      s'.grid.width = s.grid.width ∧ s'.grid.height = s.grid.height ∧
      (0 < th - dmgMult rr * base → s'.grid = s.grid) ∧
      (¬ 0 < th - dmgMult rr * base →
        (∀ q, alookup s'.grid.grid q = if q = tpos then none else alookup s.grid.grid q) ∧
        (∀ o, alookup s'.grid.rev o = if o = tuid then none else alookup s.grid.rev o)) := by
  have hgt : alookup s.grid.grid tpos = some tuid := (hg.lookup_iff tpos tuid).mpr htpos
  unfold GameState.applyDamage
  rw [damage_as_mult]
  by_cases halive : isAlive (th - dmgMult rr * base)
  · rw [if_pos halive]
    exact ⟨_, rfl, rfl, rfl, rfl, hg, rfl, rfl, fun _ => rfl,
      fun hc => absurd halive hc⟩
  · rw [if_neg halive]
    have hgpt : ({ s with units := ainsert s.units tuid (th - dmgMult rr * base) } :
        GameState).grid.getPt tuid = some tpos := htpos
    have hdel : ({ s with units := ainsert s.units tuid (th - dmgMult rr * base) } :
        GameState).grid.delItem tpos = .ok (s.grid.eraseAt tpos) := by
      show s.grid.delItem tpos = _
      unfold HexGrid.delItem
      rw [hgt]
    simp only [hgpt, hdel]
    obtain ⟨hgr, hrv, hinv⟩ := eraseAt_lookups hg hgt
    exact ⟨_, rfl, rfl, rfl, rfl, hinv, (eraseAt_dims _ _).1, (eraseAt_dims _ _).2,
      fun hc => absurd hc halive, fun _ => ⟨fun q => hgr q, fun o => hrv o⟩⟩

theorem getItem_some_lookup {g : HexGrid} {pt : Pt} {o : Nat}
    (h : g.getItem pt = some o) : alookup g.grid pt = some o := by
  unfold HexGrid.getItem at h
  by_cases hb : inBounds g.width g.height pt
  · rwa [if_pos hb] at h
  · rw [if_neg hb] at h
    exact absurd h (by simp)

theorem executeMove_attack_eq {s : GameState} {tpos : Pt} {auid tuid : Nat}
    {th : Int} (roll : RollFn) (hcur : s.currentUnit = some auid)
    (hti : s.grid.getItem tpos = some tuid) (hth : alookup s.units tuid = some th) :
    s.executeMove ⟨.ATTACK, tpos, none⟩ roll =
      match s.attack auid tuid th roll 0 with
      | .error e => .error e
      | .ok (s', prob) => .ok (s'.nextTurn, some prob) := by
  simp only [GameState.executeMove, hcur, hti, hth]

theorem attack_eq {s : GameState} {auid tuid : Nat} {apos tpos : Pt}
    {atype ttype : UnitType} (th : Int) (roll : RollFn) (penaltyWc : Int)
    (hapos : s.grid.getPt auid = some apos) (htpos : s.grid.getPt tuid = some tpos)
    (hat : s.unitTypeOf auid = some atype) (htt : s.unitTypeOf tuid = some ttype) :
    s.attack auid tuid th roll penaltyWc =
      if 1 < hexDistance apos tpos then
        .error ("ValueError: Target out of range for attack", s)
      else
        match s.applyDamage atype.attack_damage tuid th
            (roll (atype.wc - penaltyWc) ttype.ac).1 with
        | .error e => .error e
        | .ok s' => .ok (s', (roll (atype.wc - penaltyWc) ttype.ac).2) := by
  simp only [GameState.attack, hapos, htpos, hat, htt]

/-- C6: when an Attack is executed through `execute_move`, it is rejected
when the target sits at hex distance above 1 (the state unchanged in the
error); otherwise it rolls with `bonus = attacker WC` and `difficulty =
target AC` and subtracts `2×`, `1×`, `0×` the attacker's attack damage on
Crit/Hit/Miss from the target's health; a target at health ≤ 0 disappears
from the grid at once while its unit-map record stays. -/
theorem attack_execution_spec :
    ∀ (s : GameState) (tpos apos : Pt) (auid tuid : Nat) (th : Int)
      (atype ttype : UnitType) (roll : RollFn),
      GInv s.grid →
      s.currentUnit = some auid →
      s.grid.getPt auid = some apos →
      s.grid.getItem tpos = some tuid →
      alookup s.units tuid = some th →
      s.unitTypeOf auid = some atype →
      s.unitTypeOf tuid = some ttype →
      (1 < hexDistance apos tpos →
        s.executeMove ⟨.ATTACK, tpos, none⟩ roll =
          .error ("ValueError: Target out of range for attack", s)) ∧
      (hexDistance apos tpos ≤ 1 →
        ∀ res prob, roll atype.wc ttype.ac = (res, prob) →
        ∃ s', s.executeMove ⟨.ATTACK, tpos, none⟩ roll = .ok (s', some prob) ∧
          alookup s'.units tuid = some (th - dmgMult res * atype.attack_damage) ∧
          (th - dmgMult res * atype.attack_damage ≤ 0 →
            alookup s'.grid.grid tpos = none ∧ (alookup s'.units tuid).isSome) ∧
          (0 < th - dmgMult res * atype.attack_damage →
            alookup s'.grid.grid tpos = some tuid)) := by
  intro s tpos apos auid tuid th atype ttype roll hg hcur hapos hti hth hat htt
  have htpos : s.grid.getPt tuid = some tpos :=
    (hg.lookup_iff tpos tuid).mp (getItem_some_lookup hti)
  have hgt : alookup s.grid.grid tpos = some tuid := getItem_some_lookup hti
  rw [executeMove_attack_eq roll hcur hti hth,
    attack_eq th roll 0 hapos htpos hat htt]
  constructor
  · intro hdist
    rw [if_pos hdist]
  · intro hdist res prob hroll
    rw [if_neg (Nat.not_lt.mpr hdist)]
    rw [show atype.wc - 0 = atype.wc from sub_zero _, hroll]
    obtain ⟨s1, hs1, hunits, hinst, hcuri, hginv, hwid, hhei, halive, hdead⟩ :=
      applyDamage_spec atype.attack_damage th res hg htpos
    rw [hs1]
    obtain ⟨hfi, hfg, hfu⟩ := nextTurn_frame s1
    refine ⟨s1.nextTurn, rfl, ?_, fun hle => ⟨?_, ?_⟩, fun hgt0 => ?_⟩
    · rw [hfu, hunits]
      exact alookup_ainsert_self _ _ _
    · rw [hfg]
      exact ((hdead (by omega)).1 tpos).trans (if_pos rfl)
    · rw [hfu, hunits, alookup_ainsert_self]
      rfl
    · rw [hfg, halive hgt0]
      exact hgt

/-- Witness for C6: the two-unit state from the C1 development; a forced
Hit by a 1-damage attacker on an adjacent 3-health, AC-0 defender leaves
the defender at 2 health and still on the grid. -/
theorem attack_execution_spec_witness :
    ∃ s', (GameState.mk
        ⟨[], [1, 2], [(1, ⟨"A", 3, 0, 0, 1, 1, []⟩), (2, ⟨"B", 3, 0, 0, 1, 1, []⟩)]⟩
        ⟨3, 3, [(⟨0, 0⟩, 1), (⟨1, 0⟩, 2)], [(1, ⟨0, 0⟩), (2, ⟨1, 0⟩)]⟩
        [(1, 3), (2, 3)] 0).executeMove ⟨.ATTACK, ⟨1, 0⟩, none⟩ (fixedRoll .HIT) =
        .ok (s', some (calcProbability .HIT 0)) ∧
      alookup s'.units 2 = some 2 ∧ alookup s'.grid.grid ⟨1, 0⟩ = some 2 := by
  have h := (attack_execution_spec
    (GameState.mk
      ⟨[], [1, 2], [(1, ⟨"A", 3, 0, 0, 1, 1, []⟩), (2, ⟨"B", 3, 0, 0, 1, 1, []⟩)]⟩
      ⟨3, 3, [(⟨0, 0⟩, 1), (⟨1, 0⟩, 2)], [(1, ⟨0, 0⟩), (2, ⟨1, 0⟩)]⟩
      [(1, 3), (2, 3)] 0)
    ⟨1, 0⟩ ⟨0, 0⟩ 1 2 3 ⟨"A", 3, 0, 0, 1, 1, []⟩ ⟨"B", 3, 0, 0, 1, 1, []⟩
    (fixedRoll .HIT) (by decide) rfl rfl (by decide) rfl rfl rfl).2
    (by decide) .HIT (calcProbability .HIT 0) rfl
  obtain ⟨s', hs', hunits, _, hongrid⟩ := h
  exact ⟨s', hs', hunits, hongrid (by decide)⟩

/-! ## C1: `apply` produces positive probabilities summing to one

The key structural fact: for a non-MOVE move, everything `execute_move` does
before the single roll call is independent of the roll policy, so execution
either fails identically for every forced outcome or factors through
`_apply_damage` with one fixed `(bonus, difficulty)` pair. -/

/-- The shape of a combat action after its pre-roll phase: one roll with a
fixed bonus and difficulty, then damage application. -/
def rollFactored (s0 : GameState) (bonus difficulty base th : Int) (tuid : Nat)
    (roll : RollFn) : EngineRes (GameState × ℚ) :=
  match s0.applyDamage base tuid th (roll bonus difficulty).1 with
  | .error e => .error e
  | .ok s' => .ok (s', (roll bonus difficulty).2)

/-- A roll-consuming action either fails the same way for every roll policy
or is `rollFactored`. -/
def RollSplit (X : RollFn → EngineRes (GameState × ℚ)) : Prop :=
  (∃ e, ∀ roll : RollFn, X roll = .error e) ∨
  (∃ s0 bonus difficulty base th tuid,
    ∀ roll : RollFn, X roll = rollFactored s0 bonus difficulty base th tuid roll)

theorem attack_rollSplit (s : GameState) (auid tuid : Nat) (th : Int)
    (penaltyWc : Int) :
    RollSplit (fun roll => s.attack auid tuid th roll penaltyWc) := by
  cases hapos : s.grid.getPt auid with
  | none =>
    refine Or.inl ⟨("ValueError: Object not found in grid", s), fun roll => ?_⟩
    simp only [GameState.attack, hapos]
  | some apos =>
    cases htpos : s.grid.getPt tuid with
    | none =>
      refine Or.inl ⟨("ValueError: Object not found in grid", s), fun roll => ?_⟩
      simp only [GameState.attack, hapos, htpos]
    | some tpos =>
      by_cases hdist : 1 < hexDistance apos tpos
      · refine Or.inl ⟨("ValueError: Target out of range for attack", s), fun roll => ?_⟩
        simp only [GameState.attack, hapos, htpos, if_pos hdist]
      · cases hat : s.unitTypeOf auid with
        | none =>
          refine Or.inl ⟨("KeyError: unknown unit type", s), fun roll => ?_⟩
          simp only [GameState.attack, hapos, htpos, if_neg hdist, hat]
        | some atype =>
          cases htt : s.unitTypeOf tuid with
          | none =>
            refine Or.inl ⟨("KeyError: unknown unit type", s), fun roll => ?_⟩
            simp only [GameState.attack, hapos, htpos, if_neg hdist, hat, htt]
          | some ttype =>
            refine Or.inr ⟨s, atype.wc - penaltyWc, ttype.ac, atype.attack_damage,
              th, tuid, fun roll => ?_⟩
            simp only [GameState.attack, hapos, htpos, if_neg hdist, hat, htt,
              rollFactored]

theorem castSpell_rollSplit (s : GameState) (auid : Nat) (spellName : String)
    (tuid : Nat) (th : Int) :
    RollSplit (fun roll => s.castSpell auid spellName tuid th roll) := by
  cases hat : s.unitTypeOf auid with
  | none =>
    refine Or.inl ⟨("KeyError: unknown unit type", s), fun roll => ?_⟩
    simp only [GameState.castSpell, hat]
  | some atype =>
    by_cases hknown : spellName ∉ atype.spells
    · refine Or.inl ⟨("ValueError: does not know spell", s), fun roll => ?_⟩
      simp only [GameState.castSpell, hat, if_pos hknown]
    · cases hsp : alookup s.inst.spells spellName with
      | none =>
        refine Or.inl ⟨("KeyError: unknown spell", s), fun roll => ?_⟩
        simp only [GameState.castSpell, hat, if_neg hknown, hsp]
      | some spell =>
        cases hapos : s.grid.getPt auid with
        | none =>
          refine Or.inl ⟨("ValueError: Object not found in grid", s), fun roll => ?_⟩
          simp only [GameState.castSpell, hat, if_neg hknown, hsp, hapos]
        | some apos =>
          cases htpos : s.grid.getPt tuid with
          | none =>
            refine Or.inl ⟨("ValueError: Object not found in grid", s), fun roll => ?_⟩
            simp only [GameState.castSpell, hat, if_neg hknown, hsp, hapos, htpos]
          | some tpos =>
            refine Or.inr ⟨s, 0,
              (if (hexDistance apos tpos : Int) ≤ spell.range
                then (hexDistance apos tpos : Int)
                else (hexDistance apos tpos : Int) +
                  ((hexDistance apos tpos : Int) - spell.range) * 4),
              spell.damage, th, tuid, fun roll => ?_⟩
            simp only [GameState.castSpell, hat, if_neg hknown, hsp, hapos, htpos,
              rollFactored]

theorem charge_rollSplit (s : GameState) (auid : Nat) (movePos : Pt)
    (tuid : Nat) (th : Int) :
    RollSplit (fun roll => s.charge auid movePos tuid th roll) := by
  cases hat : s.unitTypeOf auid with
  | none =>
    refine Or.inl ⟨("KeyError: unknown unit type", s), fun roll => ?_⟩
    simp only [GameState.charge, hat]
  | some atype =>
    cases hval : s.isValidMove auid movePos atype.speed with
    | error e =>
      refine Or.inl ⟨e, fun roll => ?_⟩
      simp only [GameState.charge, hat, hval]
    | ok b =>
      cases b with
      | false =>
        refine Or.inl ⟨("ValueError: Invalid charge move", s), fun roll => ?_⟩
        simp only [GameState.charge, hat, hval]
      | true =>
        cases hapos : s.grid.getPt auid with
        | none =>
          refine Or.inl ⟨("ValueError: Object not found in grid", s), fun roll => ?_⟩
          simp only [GameState.charge, hat, hval, hapos]
        | some oldPos =>
          cases hdel : s.grid.delItem oldPos with
          | error msg =>
            refine Or.inl ⟨(msg, s), fun roll => ?_⟩
            simp only [GameState.charge, hat, hval, hapos, hdel]
          | ok g1 =>
            cases hset : g1.setItem movePos auid with
            | error msg =>
              refine Or.inl ⟨(msg, { s with grid := g1 }), fun roll => ?_⟩
              simp only [GameState.charge, hat, hval, hapos, hdel, hset]
            | ok g2 =>
              have hsplit := attack_rollSplit { s with grid := g2 } auid tuid th 4
              rcases hsplit with ⟨e, he⟩ | ⟨s0, bonus, difficulty, base, th', tuid', hf⟩
              · refine Or.inl ⟨e, fun roll => ?_⟩
                simp only [GameState.charge, hat, hval, hapos, hdel, hset]
                exact he roll
              · refine Or.inr ⟨s0, bonus, difficulty, base, th', tuid', fun roll => ?_⟩
                simp only [GameState.charge, hat, hval, hapos, hdel, hset]
                exact hf roll

/-- Lift a factored action through `execute_move`'s turn-advancing wrapper. -/
theorem executeMove_rollSplit (s : GameState) (move : GameMove)
    (hmt : move.move_type ≠ .MOVE) :
    (∃ e, ∀ roll : RollFn, s.executeMove move roll = .error e) ∨
    (∃ (s0 : GameState) (bonus difficulty base th : Int) (tuid : Nat),
      ∀ roll : RollFn, s.executeMove move roll =
        match s0.applyDamage base tuid th (roll bonus difficulty).1 with
        | .error e => .error e
        | .ok s' => .ok (s'.nextTurn, some (roll bonus difficulty).2)) := by
  cases hcur : s.currentUnit with
  | none =>
    refine Or.inl ⟨("ValueError: No active unit for turn.", s), fun roll => ?_⟩
    cases hmv : move.move_type <;> simp only [GameState.executeMove, hcur]
  | some auid =>
    have lift : ∀ X : RollFn → EngineRes (GameState × ℚ), RollSplit X →
        ∀ wrap : RollFn → EngineRes (GameState × Option ℚ),
        (∀ roll, wrap roll = match X roll with
          | .error e => .error e
          | .ok sp => .ok (sp.1.nextTurn, some sp.2)) →
        (∃ e, ∀ roll : RollFn, wrap roll = .error e) ∨
        (∃ (s0 : GameState) (bonus difficulty base th : Int) (tuid : Nat),
          ∀ roll : RollFn, wrap roll =
            match s0.applyDamage base tuid th (roll bonus difficulty).1 with
            | .error e => .error e
            | .ok s' => .ok (s'.nextTurn, some (roll bonus difficulty).2)) := by
      intro X hX wrap hwrap
      rcases hX with ⟨e, he⟩ | ⟨s0, bonus, difficulty, base, th, tuid, hf⟩
      · refine Or.inl ⟨e, fun roll => ?_⟩
        rw [hwrap, he]
      · refine Or.inr ⟨s0, bonus, difficulty, base, th, tuid, fun roll => ?_⟩
        rw [hwrap, hf]
        unfold rollFactored
        cases s0.applyDamage base tuid th (roll bonus difficulty).1 with
        | _ => rfl
    cases hmv : move.move_type with
    | MOVE => exact absurd hmv hmt
    | ATTACK =>
      cases hti : s.grid.getItem move.target_pos with
      | none =>
        refine Or.inl ⟨("ValueError: No unit at target position", s), fun roll => ?_⟩
        simp only [GameState.executeMove, hcur, hmv, hti]
      | some tuid =>
        cases hth : alookup s.units tuid with
        | none =>
          refine Or.inl ⟨("KeyError: unknown unit", s), fun roll => ?_⟩
          simp only [GameState.executeMove, hcur, hmv, hti, hth]
        | some th =>
          refine lift _ (attack_rollSplit s auid tuid th 0) _ fun roll => ?_
          simp only [GameState.executeMove, hcur, hmv, hti, hth]
          cases s.attack auid tuid th roll 0 with
          | error e => rfl
          | ok sp => rfl
    | CAST_SPELL =>
      cases hti : s.grid.getItem move.target_pos with
      | none =>
        refine Or.inl ⟨("ValueError: No unit at target position", s), fun roll => ?_⟩
        simp only [GameState.executeMove, hcur, hmv, hti]
      | some tuid =>
        cases hth : alookup s.units tuid with
        | none =>
          refine Or.inl ⟨("KeyError: unknown unit", s), fun roll => ?_⟩
          simp only [GameState.executeMove, hcur, hmv, hti, hth]
        | some th =>
          cases hsn : move.spell_name with
          | none =>
            refine Or.inl ⟨("ValueError: Spell name required for CAST_SPELL move.", s),
              fun roll => ?_⟩
            simp only [GameState.executeMove, hcur, hmv, hti, hth, hsn]
          | some spellName =>
            refine lift _ (castSpell_rollSplit s auid spellName tuid th) _ fun roll => ?_
            simp only [GameState.executeMove, hcur, hmv, hti, hth, hsn]
            cases s.castSpell auid spellName tuid th roll with
            | error e => rfl
            | ok sp => rfl
    | CHARGE =>
      cases hti : s.grid.getItem move.target_pos with
      | none =>
        refine Or.inl ⟨("ValueError: No unit at target position", s), fun roll => ?_⟩
        simp only [GameState.executeMove, hcur, hmv, hti]
      | some tuid =>
        cases hth : alookup s.units tuid with
        | none =>
          refine Or.inl ⟨("KeyError: unknown unit", s), fun roll => ?_⟩
          simp only [GameState.executeMove, hcur, hmv, hti, hth]
        | some th =>
          cases hapos : s.grid.getPt auid with
          | none =>
            refine Or.inl ⟨("ValueError: Object not found in grid", s), fun roll => ?_⟩
            simp only [GameState.executeMove, hcur, hmv, hti, hth, hapos]
          | some apos =>
            cases htpos : s.grid.getPt tuid with
            | none =>
              refine Or.inl ⟨("ValueError: Object not found in grid", s), fun roll => ?_⟩
              simp only [GameState.executeMove, hcur, hmv, hti, hth, hapos, htpos]
            | some tpos =>
              cases hpath : s.grid.findPathAdj apos tpos with
              | none =>
                refine Or.inl ⟨("ValueError: No valid charge position found.", s),
                  fun roll => ?_⟩
                simp only [GameState.executeMove, hcur, hmv, hti, hth, hapos, htpos, hpath]
              | some path =>
                by_cases hlen : path.length ≤ 1
                · refine Or.inl ⟨("ValueError: No valid charge position found.", s),
                    fun roll => ?_⟩
                  simp only [GameState.executeMove, hcur, hmv, hti, hth, hapos, htpos,
                    hpath, if_pos hlen]
                · cases hat : s.unitTypeOf auid with
                  | none =>
                    refine Or.inl ⟨("KeyError: unknown unit type", s), fun roll => ?_⟩
                    simp only [GameState.executeMove, hcur, hmv, hti, hth, hapos, htpos,
                      hpath, if_neg hlen, hat]
                  | some atype =>
                    by_cases hspd : atype.speed < path.length - 1
                    · refine Or.inl ⟨("ValueError: Target too far for charge", s),
                        fun roll => ?_⟩
                      simp only [GameState.executeMove, hcur, hmv, hti, hth, hapos,
                        htpos, hpath, if_neg hlen, hat, if_pos hspd]
                    · refine lift _
                        (charge_rollSplit s auid (path.getLastD ⟨0, 0⟩) tuid th) _
                        fun roll => ?_
                      simp only [GameState.executeMove, hcur, hmv, hti, hth, hapos,
                        htpos, hpath, if_neg hlen, hat, if_neg hspd]
                      cases s.charge auid (path.getLastD ⟨0, 0⟩) tuid th roll with
                      | error e => rfl
                      | ok sp => rfl

theorem rollHits_bounds (t : Int) : 0 ≤ rollHits t ∧ rollHits t ≤ 18 := by
  simp only [rollHits]
  split <;> omega

theorem calcProb_total (t : Int) :
    calcProbability .MISS t + calcProbability .HIT t + calcProbability .CRIT t = 1 := by
  show ((19 - rollHits t : Int) : ℚ) / 20 + (rollHits t : ℚ) / 20 + 1 / 20 = 1
  push_cast
  ring

theorem calcProb_miss_pos (t : Int) : 0 < calcProbability .MISS t := by
  show (0 : ℚ) < ((19 - rollHits t : Int) : ℚ) / 20
  have hb := rollHits_bounds t
  apply div_pos _ (by norm_num)
  exact_mod_cast (by omega : (0 : Int) < 19 - rollHits t)

theorem calcProb_crit_pos (t : Int) : 0 < calcProbability .CRIT t := by
  show (0 : ℚ) < 1 / 20
  norm_num

/-- C1: whenever the state can execute the move under every forced outcome,
`apply` (the branching transition) succeeds; for a `MOVE` it returns exactly
one successor of probability 1, and for Attack/Charge/CastSpell every
returned outcome has probability strictly above 0 and the probabilities sum
to exactly 1. -/
theorem apply_branching_probabilities :
    ∀ (s : GameState) (move : GameMove),
      (∀ res, (s.executeMove move (fixedRoll res)).isOk) →
      (move.move_type = .MOVE → ∃ s', s.apply move = .ok [(s', 1)]) ∧
      (move.move_type ≠ .MOVE →
        ∃ outs, s.apply move = .ok outs ∧
          (∀ x ∈ outs, 0 < x.2) ∧ (outs.map Prod.snd).sum = 1) := by
  intro s move hexec
  constructor
  · intro hmv
    unfold GameState.apply
    rw [if_pos hmv]
    have h := hexec .HIT
    cases hrun : s.executeMove move (fixedRoll .HIT) with
    | error e =>
      rw [hrun] at h
      exact absurd h (by simp [Except.isOk, Except.toBool])
    | ok sp =>
      obtain ⟨s1, p1⟩ := sp
      have hrun' : s.clone.executeMove move (fixedRoll .HIT) = .ok (s1, p1) := hrun
      rw [hrun']
      exact ⟨s1, rfl⟩
  · intro hmt
    rcases executeMove_rollSplit s move hmt with ⟨e, he⟩ | hfact
    · have h := hexec .HIT
      rw [he (fixedRoll .HIT)] at h
      exact absurd h (by simp [Except.isOk, Except.toBool])
    obtain ⟨s0, bonus, difficulty, base, th, tuid, hf⟩ := hfact
    have key : ∀ res, ∃ sres, s.executeMove move (fixedRoll res) =
        .ok (sres, some (calcProbability res (difficulty - bonus))) := by
      intro res
      have h := hexec res
      rw [hf (fixedRoll res)] at h ⊢
      simp only [show (fixedRoll res) bonus difficulty =
        (res, calcProbability res (difficulty - bonus)) from rfl] at h ⊢
      cases hres : s0.applyDamage base tuid th res with
      | error e =>
        rw [hres] at h
        exact absurd h (by simp [Except.isOk, Except.toBool])
      | ok sres =>
        exact ⟨sres.nextTurn, rfl⟩
    obtain ⟨sM, hM⟩ := key .MISS
    obtain ⟨sH, hH⟩ := key .HIT
    obtain ⟨sC, hC⟩ := key .CRIT
    have hMc : s.clone.executeMove move (fixedRoll .MISS) =
        .ok (sM, some (calcProbability .MISS (difficulty - bonus))) := hM
    have hHc : s.clone.executeMove move (fixedRoll .HIT) =
        .ok (sH, some (calcProbability .HIT (difficulty - bonus))) := hH
    have hCc : s.clone.executeMove move (fixedRoll .CRIT) =
        .ok (sC, some (calcProbability .CRIT (difficulty - bonus))) := hC
    unfold GameState.apply
    rw [if_neg hmt]
    by_cases hz : rollHits (difficulty - bonus) = 0
    · have hph : calcProbability .HIT (difficulty - bonus) = 0 := by
        show ((rollHits (difficulty - bonus) : ℚ)) / 20 = 0
        rw [hz]
        norm_num
      simp only [RollResult.enum, List.filterMap_cons, List.filterMap_nil, hMc, hHc,
        hCc, hph, if_pos (calcProb_miss_pos (difficulty - bonus)),
        if_pos (calcProb_crit_pos (difficulty - bonus)), if_neg (lt_irrefl (0 : ℚ))]
      have hsum : (([(sM, calcProbability .MISS (difficulty - bonus)),
          (sC, calcProbability .CRIT (difficulty - bonus))] :
            List (GameState × ℚ)).map Prod.snd).sum = 1 := by
        have htot := calcProb_total (difficulty - bonus)
        rw [hph] at htot
        show calcProbability .MISS (difficulty - bonus) +
          (calcProbability .CRIT (difficulty - bonus) + 0) = 1
        linarith
      rw [if_pos hsum]
      refine ⟨_, rfl, ?_, hsum⟩
      intro x hx
      rcases List.mem_cons.mp hx with hx | hx
      · rw [hx]
        exact calcProb_miss_pos (difficulty - bonus)
      · rw [List.mem_singleton.mp hx]
        exact calcProb_crit_pos (difficulty - bonus)
    · have hpos : 0 < calcProbability .HIT (difficulty - bonus) := by
        show (0 : ℚ) < (rollHits (difficulty - bonus) : ℚ) / 20
        apply div_pos _ (by norm_num)
        have hb := rollHits_bounds (difficulty - bonus)
        exact_mod_cast (by omega : (0 : Int) < rollHits (difficulty - bonus))
      simp only [RollResult.enum, List.filterMap_cons, List.filterMap_nil, hMc, hHc,
        hCc, if_pos (calcProb_miss_pos (difficulty - bonus)),
        if_pos (calcProb_crit_pos (difficulty - bonus)), if_pos hpos]
      have hsum : (([(sM, calcProbability .MISS (difficulty - bonus)),
          (sH, calcProbability .HIT (difficulty - bonus)),
          (sC, calcProbability .CRIT (difficulty - bonus))] :
            List (GameState × ℚ)).map Prod.snd).sum = 1 := by
        have htot := calcProb_total (difficulty - bonus)
        show calcProbability .MISS (difficulty - bonus) +
          (calcProbability .HIT (difficulty - bonus) +
            (calcProbability .CRIT (difficulty - bonus) + 0)) = 1
        linarith
      rw [if_pos hsum]
      refine ⟨_, rfl, ?_, hsum⟩
      intro x hx
      rcases List.mem_cons.mp hx with hx | hx
      · rw [hx]
        exact calcProb_miss_pos (difficulty - bonus)
      rcases List.mem_cons.mp hx with hx | hx
      · rw [hx]
        exact hpos
      · rw [List.mem_singleton.mp hx]
        exact calcProb_crit_pos (difficulty - bonus)

unseal Rat.add Rat.mul Rat.inv Rat.sub Rat.ofScientific in
/-- Witness for C1: the adjacent-attack state executes under every forced
outcome, and `apply` returns positive-probability outcomes summing to 1. -/
theorem apply_branching_probabilities_witness :
    (∀ res, ((GameState.mk
        ⟨[], [1, 2], [(1, ⟨"A", 3, 0, 0, 1, 1, []⟩), (2, ⟨"B", 3, 0, 0, 1, 1, []⟩)]⟩
        ⟨3, 3, [(⟨0, 0⟩, 1), (⟨1, 0⟩, 2)], [(1, ⟨0, 0⟩), (2, ⟨1, 0⟩)]⟩
        [(1, 3), (2, 3)] 0).executeMove ⟨.ATTACK, ⟨1, 0⟩, none⟩
          (fixedRoll res)).isOk) ∧
      ∃ outs, (GameState.mk
        ⟨[], [1, 2], [(1, ⟨"A", 3, 0, 0, 1, 1, []⟩), (2, ⟨"B", 3, 0, 0, 1, 1, []⟩)]⟩
        ⟨3, 3, [(⟨0, 0⟩, 1), (⟨1, 0⟩, 2)], [(1, ⟨0, 0⟩), (2, ⟨1, 0⟩)]⟩
        [(1, 3), (2, 3)] 0).apply ⟨.ATTACK, ⟨1, 0⟩, none⟩ = .ok outs ∧
        (∀ x ∈ outs, 0 < x.2) ∧ (outs.map Prod.snd).sum = 1 := by
  have hex : ∀ res, ((GameState.mk
      ⟨[], [1, 2], [(1, ⟨"A", 3, 0, 0, 1, 1, []⟩), (2, ⟨"B", 3, 0, 0, 1, 1, []⟩)]⟩
      ⟨3, 3, [(⟨0, 0⟩, 1), (⟨1, 0⟩, 2)], [(1, ⟨0, 0⟩), (2, ⟨1, 0⟩)]⟩
      [(1, 3), (2, 3)] 0).executeMove ⟨.ATTACK, ⟨1, 0⟩, none⟩
        (fixedRoll res)).isOk := by
    intro res
    cases res <;> decide
  exact ⟨hex, (apply_branching_probabilities _ _ hex).2 (by decide)⟩

/-! ## C5: `find_path`

The specification of a usable path: starts at `start`, ends at `goal`,
consecutive points are grid neighbors, and no point but `start` is
occupied. -/

/-- The path property claimed for `find_path` results (and the notion of an
unobstructed route). -/
def ValidSeq (grid : List (Pt × Nat)) (w h : Nat) (start goal : Pt)
    (l : List Pt) : Prop :=
  l ≠ [] ∧ l.head? = some start ∧ l.getLast? = some goal ∧
    List.Chain' (fun a b => b ∈ getNeighbors w h a) l ∧
    ∀ x ∈ l, x ≠ start → alookup grid x = none

instance (grid : List (Pt × Nat)) (w h : Nat) (start goal : Pt) (l : List Pt) :
    Decidable (ValidSeq grid w h start goal l) :=
  inferInstanceAs (Decidable (l ≠ [] ∧ l.head? = some start ∧
    l.getLast? = some goal ∧
    List.Chain' (fun a b => b ∈ getNeighbors w h a) l ∧
    ∀ x ∈ l, x ≠ start → alookup grid x = none))

theorem heapMin_mem : ∀ (l : List HeapEntry) (acc : Option HeapEntry),
    ∀ e, l.foldl
      (fun acc e =>
        match acc with
        | none => some e
        | some m => if e.1 < m.1 ∨ (e.1 = m.1 ∧ e.2.1 < m.2.1) then some e else some m)
      acc = some e → e ∈ l ∨ acc = some e := by
  intro l
  induction l with
  | nil => exact fun acc e h => Or.inr h
  | cons hd tl ih =>
    intro acc e h
    rcases ih _ e h with hm | hm
    · exact Or.inl (List.mem_cons_of_mem _ hm)
    · cases acc with
      | none =>
        simp only at hm
        have he : hd = e := Option.some_inj.mp hm
        subst he
        exact Or.inl (List.mem_cons_self _ _)
      | some m =>
        simp only at hm
        by_cases hc : hd.1 < m.1 ∨ (hd.1 = m.1 ∧ hd.2.1 < m.2.1)
        · rw [if_pos hc] at hm
          have he : hd = e := Option.some_inj.mp hm
          subst he
          exact Or.inl (List.mem_cons_self _ _)
        · rw [if_neg hc] at hm
          exact Or.inr hm

theorem popMin_none {l : List HeapEntry} (h : popMin l = none) : l = [] := by
  unfold popMin at h
  cases hm : heapMin l with
  | some e => rw [hm] at h; exact absurd h (by simp)
  | none =>
    cases l with
    | nil => rfl
    | cons hd tl =>
      exfalso
      unfold heapMin at hm
      have : ∀ (tl : List HeapEntry) (m : HeapEntry), tl.foldl
          (fun acc e =>
            match acc with
            | none => some e
            | some m => if e.1 < m.1 ∨ (e.1 = m.1 ∧ e.2.1 < m.2.1) then some e else some m)
          (some m) ≠ none := by
        intro tl
        induction tl with
        | nil => intro m h; exact Option.noConfusion h
        | cons hd2 tl2 ih2 =>
          intro m
          show tl2.foldl _ (if _ then some hd2 else some m) ≠ none
          by_cases hc : hd2.1 < m.1 ∨ (hd2.1 = m.1 ∧ hd2.2.1 < m.2.1)
          · rw [if_pos hc]; exact ih2 hd2
          · rw [if_neg hc]; exact ih2 m
      exact this tl hd (by simpa using hm)

theorem popMin_some {l : List HeapEntry} {e : HeapEntry} {rest : List HeapEntry}
    (h : popMin l = some (e, rest)) : e ∈ l ∧ rest = l.erase e := by
  unfold popMin at h
  cases hm : heapMin l with
  | none => rw [hm] at h; exact absurd h (by simp)
  | some m =>
    rw [hm] at h
    have hp : (m, l.erase m) = (e, rest) := Option.some_inj.mp h
    have he : m = e := congrArg Prod.fst hp
    have hr : l.erase m = rest := congrArg Prod.snd hp
    subst he
    refine ⟨?_, hr.symm⟩
    rcases heapMin_mem l none m hm with hmem | hmem
    · exact hmem
    · exact absurd hmem (by simp)

theorem mem_getNeighbors {w h : Nat} {p nb : Pt} (hm : nb ∈ getNeighbors w h p) :
    inBounds w h nb ∧ nb ≠ p := by
  unfold getNeighbors at hm
  rw [List.mem_filter] at hm
  obtain ⟨hm, hb⟩ := hm
  refine ⟨by simpa using hb, ?_⟩
  rw [List.mem_map] at hm
  obtain ⟨off, hoff, hadd⟩ := hm
  intro hc
  rw [hc] at hadd
  have hx : p.x + off.x = p.x := congrArg Pt.x hadd
  have hy : p.y + off.y = p.y := congrArg Pt.y hadd
  have hox : off.x = 0 := by omega
  have hoy : off.y = 0 := by omega
  revert hoff
  split <;>
    · intro hoff
      simp only [evenRowOffsets, oddRowOffsets, List.mem_cons, List.not_mem_nil,
        or_false] at hoff
      rcases hoff with hoff | hoff | hoff | hoff | hoff | hoff <;>
        · rw [hoff] at hox hoy
          simp at hox hoy

/-- Sum of the values of an association list. -/
def asum (l : List (Pt × Nat)) : Nat := (l.map Prod.snd).sum

theorem asum_ainsert_fresh (l : List (Pt × Nat)) (k : Pt) (v : Nat)
    (h : alookup l k = none) : asum (ainsert l k v) = asum l + v := by
  induction l with
  | nil => simp [ainsert, asum]
  | cons hd tl ih =>
    obtain ⟨a, b⟩ := hd
    by_cases ha : a = k
    · rw [alookup, if_pos ha] at h
      exact absurd h (by simp)
    · rw [alookup, if_neg ha] at h
      rw [ainsert, if_neg ha]
      show b + asum (ainsert tl k v) = b + asum tl + v
      rw [ih h]
      omega

theorem asum_ainsert_existing (l : List (Pt × Nat)) (k : Pt) (v old : Nat)
    (h : alookup l k = some old) : asum (ainsert l k v) + old = asum l + v := by
  induction l with
  | nil => exact absurd h (by simp [alookup])
  | cons hd tl ih =>
    obtain ⟨a, b⟩ := hd
    by_cases ha : a = k
    · rw [alookup, if_pos ha] at h
      have hb : b = old := Option.some_inj.mp h
      rw [ainsert, if_pos ha]
      show v + asum tl + old = b + asum tl + v
      omega
    · rw [alookup, if_neg ha] at h
      rw [ainsert, if_neg ha]
      show b + asum (ainsert tl k v) + old = b + asum tl + v
      have := ih h
      omega

theorem length_ainsert_fresh {α β : Type} [DecidableEq α] (l : List (α × β))
    (k : α) (v : β) (h : alookup l k = none) :
    (ainsert l k v).length = l.length + 1 := by
  induction l with
  | nil => rfl
  | cons hd tl ih =>
    obtain ⟨a, b⟩ := hd
    by_cases ha : a = k
    · rw [alookup, if_pos ha] at h
      exact absurd h (by simp)
    · rw [alookup, if_neg ha] at h
      rw [ainsert, if_neg ha]
      show (ainsert tl k v).length + 1 = tl.length + 1 + 1
      rw [ih h]

theorem length_ainsert_existing {α β : Type} [DecidableEq α] (l : List (α × β))
    (k : α) (v : β) {old : β} (h : alookup l k = some old) :
    (ainsert l k v).length = l.length := by
  induction l with
  | nil => exact absurd h (by simp [alookup])
  | cons hd tl ih =>
    obtain ⟨a, b⟩ := hd
    by_cases ha : a = k
    · rw [ainsert, if_pos ha]
      rfl
    · rw [alookup, if_neg ha] at h
      rw [ainsert, if_neg ha]
      show (ainsert tl k v).length + 1 = tl.length + 1
      rw [ih h]

/-- A cell the relaxation step does not skip: empty, or the goal itself. -/
def passable (grid : List (Pt × Nat)) (goal nb : Pt) : Prop :=
  alookup grid nb = none ∨ nb = goal

theorem not_skip_iff_passable (grid : List (Pt × Nat)) (goal nb : Pt) :
    ¬((alookup grid nb).isSome ∧ nb ≠ goal) ↔ passable grid goal nb := by
  unfold passable
  rcases h : alookup grid nb with _ | v <;> by_cases hg : nb = goal <;> simp [hg]

/-- Some heap entry carries the point `k`. -/
def HasEntry (st : AStarState) (k : Pt) : Prop := ∃ f c : Nat, (f, c, k) ∈ st.opens

/-- All passable neighbors of `k` already have a `g_score`. -/
def Closed (grid : List (Pt × Nat)) (w h : Nat) (goal : Pt)
    (st : AStarState) (k : Pt) : Prop :=
  ∀ nb ∈ getNeighbors w h k, passable grid goal nb → (alookup st.g nb).isSome

/-- The loop invariant of `find_path`'s A* search, minus the frontier
condition (which is briefly violated while a popped node's neighbors are
being relaxed).  `chainInv` records that each scored node is reached by a
duplicate-free neighbor chain from `start` whose `i`-th point has a
`g_score` at most `i`. -/
structure AInvB (grid : List (Pt × Nat)) (w h : Nat) (start goal : Pt)
    (st : AStarState) : Prop where
  hashNodup : st.hash.Nodup
  gNodup : (akeys st.g).Nodup
  cameNodup : (akeys st.came).Nodup
  gAllowed : ∀ k ∈ akeys st.g, k = start ∨ inBounds w h k
  gStart : alookup st.g start = some 0
  cameAdj : ∀ e ∈ st.came, e.1 ∈ getNeighbors w h e.2
  camePass : ∀ e ∈ st.came, passable grid goal e.1 ∧ e.1 ≠ start
  cameDec : ∀ e ∈ st.came, ∃ vk vp : Nat,
    alookup st.g e.1 = some vk ∧ alookup st.g e.2 = some vp ∧ vp < vk
  gCame : ∀ e ∈ st.g, e.1 ≠ start → (alookup st.came e.1).isSome
  chainInv : ∀ e ∈ st.g, ∃ l : List Pt, l ≠ [] ∧ l.head? = some start ∧
    l.getLast? = some e.1 ∧ l.Nodup ∧
    List.Chain' (fun a b => b ∈ getNeighbors w h a) l ∧ l.length = e.2 + 1 ∧
    ∀ x ∈ l, ∃ vx : Nat, vx ≤ e.2 ∧ alookup st.g x = some vx
  hashOpen : ∀ p ∈ st.hash, HasEntry st p
  openG : ∀ e ∈ st.opens, (alookup st.g e.2.2).isSome
  goalOpen : ∀ v : Nat, alookup st.g goal = some v → HasEntry st goal

/-- Frontier condition away from one excluded point. -/
def FrontierExc (grid : List (Pt × Nat)) (w h : Nat) (goal : Pt)
    (st : AStarState) (ex : Pt) : Prop :=
  ∀ e ∈ st.g, e.1 ≠ ex → HasEntry st e.1 ∨ Closed grid w h goal st e.1

/-- The full loop invariant: `AInvB` plus the frontier condition at every
scored node. -/
def AInv (grid : List (Pt × Nat)) (w h : Nat) (start goal : Pt)
    (st : AStarState) : Prop :=
  AInvB grid w h start goal st ∧
    ∀ e ∈ st.g, HasEntry st e.1 ∨ Closed grid w h goal st e.1

/-- `g'` dominates `g` from below on `g`'s domain. -/
def gExt (g g' : List (Pt × Nat)) : Prop :=
  ∀ x v, alookup g x = some v → ∃ v' : Nat, v' ≤ v ∧ alookup g' x = some v'

theorem gExt_refl (g : List (Pt × Nat)) : gExt g g :=
  fun _ v h => ⟨v, le_refl v, h⟩

theorem gExt_trans {g1 g2 g3 : List (Pt × Nat)} (h12 : gExt g1 g2)
    (h23 : gExt g2 g3) : gExt g1 g3 := by
  intro x v h
  obtain ⟨v2, hv2, h2⟩ := h12 x v h
  obtain ⟨v3, hv3, h3⟩ := h23 x v2 h2
  exact ⟨v3, le_trans hv3 hv2, h3⟩

theorem gExt_isSome {g g' : List (Pt × Nat)} (h : gExt g g') (k : Pt)
    (hk : (alookup g k).isSome) : (alookup g' k).isSome := by
  obtain ⟨v, hv⟩ := Option.isSome_iff_exists.mp hk
  obtain ⟨v', _, hv'⟩ := h k v hv
  exact Option.isSome_iff_exists.mpr ⟨v', hv'⟩

/-- The points that can carry a `g_score`: `start` plus the in-bounds cells. -/
def allowedSet (w h : Nat) (start : Pt) : Finset Pt :=
  insert start
    ((Finset.range w ×ˢ Finset.range h).image (fun q => (⟨q.1, q.2⟩ : Pt)))

theorem mem_allowedSet_of_inBounds {w h : Nat} {p : Pt} (start : Pt)
    (hb : inBounds w h p) : p ∈ allowedSet w h start := by
  obtain ⟨h1, h2, h3, h4⟩ := hb
  refine Finset.mem_insert_of_mem (Finset.mem_image.mpr ⟨(p.x.toNat, p.y.toNat), ?_, ?_⟩)
  · rw [Finset.mem_product, Finset.mem_range, Finset.mem_range]
    omega
  · have hx : (p.x.toNat : Int) = p.x := Int.toNat_of_nonneg h1
    have hy : (p.y.toNat : Int) = p.y := Int.toNat_of_nonneg h3
    cases p
    simp_all

theorem card_allowedSet (w h : Nat) (start : Pt) :
    (allowedSet w h start).card ≤ w * h + 1 := by
  have h1 : (allowedSet w h start).card ≤
      ((Finset.range w ×ˢ Finset.range h).image
        (fun q : Nat × Nat => (⟨q.1, q.2⟩ : Pt))).card + 1 :=
    Finset.card_insert_le _ _
  have h2 : ((Finset.range w ×ˢ Finset.range h).image
      (fun q : Nat × Nat => (⟨q.1, q.2⟩ : Pt))).card ≤
      (Finset.range w ×ˢ Finset.range h).card :=
    Finset.card_image_le
  have h3 : (Finset.range w ×ˢ Finset.range h).card = w * h := by
    rw [Finset.card_product, Finset.card_range, Finset.card_range]
  omega

theorem nodup_allowed_length_le (w h : Nat) (start : Pt) (l : List Pt)
    (hn : l.Nodup) (hall : ∀ x ∈ l, x = start ∨ inBounds w h x) :
    l.length ≤ w * h + 1 := by
  have hsub : l.toFinset ⊆ allowedSet w h start := by
    intro x hx
    rcases hall x (List.mem_toFinset.mp hx) with h | h
    · exact h ▸ Finset.mem_insert_self _ _
    · exact mem_allowedSet_of_inBounds start h
  calc l.length = l.toFinset.card := (List.toFinset_card_of_nodup hn).symm
    _ ≤ (allowedSet w h start).card := Finset.card_le_card hsub
    _ ≤ w * h + 1 := card_allowedSet w h start

theorem AInvB.gval_le {grid : List (Pt × Nat)} {w h : Nat} {start goal : Pt}
    {st : AStarState} (hB : AInvB grid w h start goal st) {e : Pt × Nat}
    (he : e ∈ st.g) : e.2 + 1 ≤ w * h + 1 := by
  obtain ⟨l, _, _, _, hnd, _, hlen, hidx⟩ := hB.chainInv e he
  rw [← hlen]
  refine nodup_allowed_length_le w h start l hnd (fun x hx => ?_)
  obtain ⟨vx, _, hvx⟩ := hidx x hx
  exact hB.gAllowed x (mem_akeys_of_alookup st.g _ vx hvx)

theorem AInvB.glen_le {grid : List (Pt × Nat)} {w h : Nat} {start goal : Pt}
    {st : AStarState} (hB : AInvB grid w h start goal st) :
    st.g.length ≤ w * h + 1 := by
  have : (akeys st.g).length ≤ w * h + 1 :=
    nodup_allowed_length_le w h start (akeys st.g) hB.gNodup hB.gAllowed
  simpa [akeys] using this

/-- The termination potential of the search loop: each iteration pops one
entry and pushes at most one entry per strict `g_score` improvement, and
every improvement pays for itself in the weighted remaining-slack and
score-sum terms. -/
def phi (w h : Nat) (st : AStarState) : Nat :=
  st.opens.length + (w * h + 1) * ((w * h + 1) - st.g.length) + asum st.g

theorem gval_le_came_length {grid : List (Pt × Nat)} {w h : Nat}
    {start goal : Pt} {st : AStarState} (hB : AInvB grid w h start goal st)
    {e : Pt × Nat} (he : e ∈ st.g) : e.2 ≤ st.came.length := by
  obtain ⟨l, hne, hhd, _, hnd, _, hlen, hidx⟩ := hB.chainInv e he
  cases l with
  | nil => exact absurd rfl hne
  | cons a t =>
    have ha : a = start := by simpa using hhd
    rw [List.nodup_cons] at hnd
    have htsub : ∀ x ∈ t, x ∈ akeys st.came := by
      intro x hx
      have hxl : x ∈ a :: t := List.mem_cons_of_mem _ hx
      obtain ⟨vi, _, hvi⟩ := hidx x hxl
      have hxg : (x, vi) ∈ st.g := mem_of_alookup st.g x vi hvi
      have hxs : x ≠ start := fun hc => hnd.1 ((hc.trans ha.symm) ▸ hx)
      have := hB.gCame (x, vi) hxg hxs
      obtain ⟨p, hp⟩ := Option.isSome_iff_exists.mp this
      exact mem_akeys_of_alookup st.came x p hp
    have hcard : t.length ≤ (akeys st.came).length := by
      calc t.length = t.toFinset.card := (List.toFinset_card_of_nodup hnd.2).symm
        _ ≤ (akeys st.came).toFinset.card :=
          Finset.card_le_card (fun x hx => List.mem_toFinset.mpr
            (htsub x (List.mem_toFinset.mp hx)))
        _ ≤ (akeys st.came).length := (akeys st.came).toFinset_card_le
    have hlc : (akeys st.came).length = st.came.length := by simp [akeys]
    have : t.length = e.2 := by simpa using hlen
    omega

theorem relax_skip {grid : List (Pt × Nat)} {goal cur nb : Pt} {st : AStarState}
    (hs : (alookup grid nb).isSome ∧ nb ≠ goal) :
    relax grid goal cur st nb = st := by
  unfold relax
  rw [if_pos hs]

theorem relax_stay {grid : List (Pt × Nat)} {goal cur nb : Pt} {st : AStarState}
    {vcur gn : Nat} (hns : ¬((alookup grid nb).isSome ∧ nb ≠ goal))
    (hcur : alookup st.g cur = some vcur) (hgn : alookup st.g nb = some gn)
    (hge : ¬(vcur + 1 < gn)) : relax grid goal cur st nb = st := by
  unfold relax
  rw [if_neg hns]
  simp only [hcur, hgn, Option.getD_some, decide_eq_true_eq]
  rw [if_neg hge]

theorem relax_improve_push {grid : List (Pt × Nat)} {goal cur nb : Pt}
    {st : AStarState} {vcur : Nat}
    (hns : ¬((alookup grid nb).isSome ∧ nb ≠ goal))
    (hcur : alookup st.g cur = some vcur)
    (himp : alookup st.g nb = none ∨ ∃ gn, alookup st.g nb = some gn ∧ vcur + 1 < gn)
    (hhash : nb ∉ st.hash) :
    relax grid goal cur st nb =
      { st with
        came := ainsert st.came nb cur
        g := ainsert st.g nb (vcur + 1)
        cnt := st.cnt + 1
        opens := (vcur + 1 + hexDistance nb goal, st.cnt + 1, nb) :: st.opens
        hash := nb :: st.hash } := by
  unfold relax
  rw [if_neg hns]
  rcases himp with hfresh | ⟨gn, hgn, hlt⟩
  · simp only [hcur, hfresh, Option.getD_some, if_true]
    rw [if_neg hhash]
  · simp only [hcur, hgn, Option.getD_some, decide_eq_true_eq]
    rw [if_pos hlt, if_neg hhash]

theorem relax_improve_nopush {grid : List (Pt × Nat)} {goal cur nb : Pt}
    {st : AStarState} {vcur : Nat}
    (hns : ¬((alookup grid nb).isSome ∧ nb ≠ goal))
    (hcur : alookup st.g cur = some vcur)
    (himp : alookup st.g nb = none ∨ ∃ gn, alookup st.g nb = some gn ∧ vcur + 1 < gn)
    (hhash : nb ∈ st.hash) :
    relax grid goal cur st nb =
      { st with
        came := ainsert st.came nb cur
        g := ainsert st.g nb (vcur + 1) } := by
  unfold relax
  rw [if_neg hns]
  rcases himp with hfresh | ⟨gn, hgn, hlt⟩
  · simp only [hcur, hfresh, Option.getD_some, if_true]
    rw [if_pos hhash]
  · simp only [hcur, hgn, Option.getD_some, decide_eq_true_eq]
    rw [if_pos hlt, if_pos hhash]

theorem relax_step {grid : List (Pt × Nat)} {w h : Nat} {start goal cur : Pt}
    {st : AStarState} {vcur : Nat} (nb : Pt)
    (hB : AInvB grid w h start goal st)
    (hF : FrontierExc grid w h goal st cur)
    (hcur : alookup st.g cur = some vcur)
    (hnb : nb ∈ getNeighbors w h cur) :
    AInvB grid w h start goal (relax grid goal cur st nb) ∧
    FrontierExc grid w h goal (relax grid goal cur st nb) cur ∧
    alookup (relax grid goal cur st nb).g cur = some vcur ∧
    gExt st.g (relax grid goal cur st nb).g ∧
    (∀ e ∈ st.opens, e ∈ (relax grid goal cur st nb).opens) ∧
    phi w h (relax grid goal cur st nb) ≤ phi w h st ∧
    (passable grid goal nb → (alookup (relax grid goal cur st nb).g nb).isSome) := by
  obtain ⟨hnbin, hnbcur⟩ := mem_getNeighbors hnb
  by_cases hskip : (alookup grid nb).isSome ∧ nb ≠ goal
  · rw [relax_skip hskip]
    exact ⟨hB, hF, hcur, gExt_refl _, fun e he => he, le_refl _,
      fun hp => absurd hskip ((not_skip_iff_passable grid goal nb).mpr hp)⟩
  · have hpass : passable grid goal nb := (not_skip_iff_passable grid goal nb).mp hskip
    by_cases himp :
        alookup st.g nb = none ∨ ∃ gn, alookup st.g nb = some gn ∧ vcur + 1 < gn
    case neg =>
      push_neg at himp
      obtain ⟨hs, hno⟩ := himp
      obtain ⟨gn, hgn⟩ := Option.ne_none_iff_exists'.mp hs
      have hge : ¬(vcur + 1 < gn) := by
        have := hno gn hgn
        omega
      rw [relax_stay hskip hcur hgn hge]
      exact ⟨hB, hF, hcur, gExt_refl _, fun e he => he, le_refl _,
        fun _ => Option.isSome_iff_exists.mpr ⟨gn, hgn⟩⟩
    case pos =>
      have hnbs : nb ≠ start := by
        intro hc
        rw [hc, hB.gStart] at himp
        rcases himp with hnone | ⟨gn, hgn, hlt⟩
        · exact Option.noConfusion hnone
        · have : (0 : Nat) = gn := Option.some_inj.mp hgn
          omega
      have hgNe : ∀ k, k ≠ nb →
          alookup (ainsert st.g nb (vcur + 1)) k = alookup st.g k :=
        fun k hk => alookup_ainsert_ne st.g nb k (vcur + 1) hk
      have hgSelf : alookup (ainsert st.g nb (vcur + 1)) nb = some (vcur + 1) :=
        alookup_ainsert_self st.g nb (vcur + 1)
      have hcameNe : ∀ k, k ≠ nb →
          alookup (ainsert st.came nb cur) k = alookup st.came k :=
        fun k hk => alookup_ainsert_ne st.came nb k cur hk
      have hcameSelf : alookup (ainsert st.came nb cur) nb = some cur :=
        alookup_ainsert_self st.came nb cur
      have hgext : gExt st.g (ainsert st.g nb (vcur + 1)) := by
        intro x v hx
        by_cases hxnb : x = nb
        · subst hxnb
          rcases himp with hnone | ⟨gn, hgn, hlt⟩
          · rw [hx] at hnone
            exact Option.noConfusion hnone
          · rw [hx] at hgn
            have hv : v = gn := Option.some_inj.mp hgn
            exact ⟨vcur + 1, by omega, hgSelf⟩
        · exact ⟨v, le_refl v, (hgNe x hxnb).trans hx⟩
      have hcurNe : alookup (ainsert st.g nb (vcur + 1)) cur = some vcur :=
        (hgNe cur (Ne.symm hnbcur)).trans hcur
      have hgNodup' : (akeys (ainsert st.g nb (vcur + 1))).Nodup :=
        nodup_akeys_ainsert st.g nb (vcur + 1) hB.gNodup
      have hcameNodup' : (akeys (ainsert st.came nb cur)).Nodup :=
        nodup_akeys_ainsert st.came nb cur hB.cameNodup
      have hgAllowed' : ∀ k ∈ akeys (ainsert st.g nb (vcur + 1)),
          k = start ∨ inBounds w h k := by
        intro k hk
        rcases mem_akeys_ainsert st.g nb k (vcur + 1) hk with hk | hk
        · exact Or.inr (hk ▸ hnbin)
        · exact hB.gAllowed k hk
      have hgStart' : alookup (ainsert st.g nb (vcur + 1)) start = some 0 :=
        (hgNe start (Ne.symm hnbs)).trans hB.gStart
      have hcameAdj' : ∀ e ∈ ainsert st.came nb cur, e.1 ∈ getNeighbors w h e.2 := by
        intro e he
        rcases mem_ainsert_elim st.came nb cur e hB.cameNodup he with heq | ⟨hold, _⟩
        · rw [heq]
          exact hnb
        · exact hB.cameAdj e hold
      have hcamePass' : ∀ e ∈ ainsert st.came nb cur,
          passable grid goal e.1 ∧ e.1 ≠ start := by
        intro e he
        rcases mem_ainsert_elim st.came nb cur e hB.cameNodup he with heq | ⟨hold, _⟩
        · rw [heq]
          exact ⟨hpass, hnbs⟩
        · exact hB.camePass e hold
      have hcameDec' : ∀ e ∈ ainsert st.came nb cur, ∃ vk vp : Nat,
          alookup (ainsert st.g nb (vcur + 1)) e.1 = some vk ∧
          alookup (ainsert st.g nb (vcur + 1)) e.2 = some vp ∧ vp < vk := by
        intro e he
        rcases mem_ainsert_elim st.came nb cur e hB.cameNodup he with heq | ⟨hold, hne⟩
        · rw [heq]
          exact ⟨vcur + 1, vcur, hgSelf, hcurNe, by omega⟩
        · obtain ⟨vk, vp, hvk, hvp, hlt⟩ := hB.cameDec e hold
          obtain ⟨vp', hvp'le, hvp'⟩ := hgext e.2 vp hvp
          exact ⟨vk, vp', (hgNe e.1 hne).trans hvk, hvp', by omega⟩
      have hgCame' : ∀ e ∈ ainsert st.g nb (vcur + 1), e.1 ≠ start →
          (alookup (ainsert st.came nb cur) e.1).isSome := by
        intro e he hes
        rcases mem_ainsert_elim st.g nb (vcur + 1) e hB.gNodup he with heq | ⟨hold, hne⟩
        · rw [heq]
          show (alookup (ainsert st.came nb cur) nb).isSome
          rw [hcameSelf]
          rfl
        · rw [hcameNe e.1 hne]
          exact hB.gCame e hold hes
      have hchain' : ∀ e ∈ ainsert st.g nb (vcur + 1), ∃ l : List Pt,
          l ≠ [] ∧ l.head? = some start ∧ l.getLast? = some e.1 ∧ l.Nodup ∧
          List.Chain' (fun a b => b ∈ getNeighbors w h a) l ∧ l.length = e.2 + 1 ∧
          ∀ x ∈ l, ∃ vx : Nat, vx ≤ e.2 ∧
            alookup (ainsert st.g nb (vcur + 1)) x = some vx := by
        intro e he
        rcases mem_ainsert_elim st.g nb (vcur + 1) e hB.gNodup he with heq | ⟨hold, hne⟩
        · subst heq
          obtain ⟨l, hlne, hhd, hlast, hnd, hch, hlen, hval⟩ :=
            hB.chainInv (cur, vcur) (mem_of_alookup st.g cur vcur hcur)
          have hnbl : nb ∉ l := by
            intro hc
            obtain ⟨vi, hvile, hvi⟩ := hval nb hc
            rcases himp with hnone | ⟨gn, hgn, hlt⟩
            · rw [hvi] at hnone
              exact Option.noConfusion hnone
            · rw [hvi] at hgn
              have : vi = gn := Option.some_inj.mp hgn
              simp only at hvile
              omega
          refine ⟨l ++ [nb], by simp, ?_, ?_, ?_, ?_, ?_, ?_⟩
          · cases l with
            | nil => exact absurd rfl hlne
            | cons a t => simpa using hhd
          · rw [List.getLast?_concat]
          · rw [List.nodup_append]
            exact ⟨hnd, List.nodup_singleton nb,
              fun x hx hx' => hnbl ((List.mem_singleton.mp hx') ▸ hx)⟩
          · refine List.chain'_append.mpr ⟨hch, List.chain'_singleton nb, ?_⟩
            intro x hx y hy
            have hxc : cur = x := by
              rw [hlast] at hx
              simpa using hx
            have hyn : nb = y := by simpa using hy
            rw [← hxc, ← hyn]
            exact hnb
          · simp only [List.length_append, List.length_singleton, hlen]
          · intro x hx
            rcases List.mem_append.mp hx with hx | hx
            · obtain ⟨vi, hvile, hvi⟩ := hval x hx
              have hxnb : x ≠ nb := fun hc => hnbl (hc ▸ hx)
              refine ⟨vi, ?_, (hgNe x hxnb).trans hvi⟩
              simp only at hvile ⊢
              omega
            · rw [List.mem_singleton.mp hx]
              exact ⟨vcur + 1, le_refl _, hgSelf⟩
        · obtain ⟨l, hlne, hhd, hlast, hnd, hch, hlen, hval⟩ := hB.chainInv e hold
          refine ⟨l, hlne, hhd, hlast, hnd, hch, hlen, fun x hx => ?_⟩
          obtain ⟨vx, hle, hvx⟩ := hval x hx
          obtain ⟨vx', hle', hvx'⟩ := hgext x vx hvx
          exact ⟨vx', by omega, hvx'⟩
      by_cases hhash : nb ∈ st.hash
      · -- already queued: `g`/`came` update only
        rw [relax_improve_nopush hskip hcur himp hhash]
        refine ⟨⟨hB.hashNodup, hgNodup', hcameNodup', hgAllowed', hgStart',
          hcameAdj', hcamePass', hcameDec', hgCame', hchain', ?_, ?_, ?_⟩,
          ?_, hcurNe, hgext, fun e he => he, ?_, fun _ => by rw [hgSelf]; rfl⟩
        · exact fun p hp => hB.hashOpen p hp
        · exact fun e he => gExt_isSome hgext _ (hB.openG e he)
        · intro v hv
          by_cases hgnb : goal = nb
          · rw [hgnb]
            exact hB.hashOpen nb hhash
          · rw [hgNe goal hgnb] at hv
            exact hB.goalOpen v hv
        · intro e he hecur
          rcases mem_ainsert_elim st.g nb (vcur + 1) e hB.gNodup he with heq | ⟨hold, _⟩
          · rw [heq]
            exact Or.inl (hB.hashOpen nb hhash)
          · rcases hF e hold hecur with hent | hclosed
            · exact Or.inl hent
            · exact Or.inr (fun nb' hnb' hp' => gExt_isSome hgext _ (hclosed nb' hnb' hp'))
        · -- potential does not increase
          rcases himp with hfresh | ⟨gn, hgn, hlt⟩
          · have hlen' : (ainsert st.g nb (vcur + 1)).length = st.g.length + 1 :=
              length_ainsert_fresh st.g nb (vcur + 1) hfresh
            have hasum' : asum (ainsert st.g nb (vcur + 1)) = asum st.g + (vcur + 1) :=
              asum_ainsert_fresh st.g nb (vcur + 1) hfresh
            have hAB : AInvB grid w h start goal
                { st with came := ainsert st.came nb cur, g := ainsert st.g nb (vcur + 1) } :=
              ⟨hB.hashNodup, hgNodup', hcameNodup', hgAllowed', hgStart',
                hcameAdj', hcamePass', hcameDec', hgCame', hchain',
                fun p hp => hB.hashOpen p hp,
                fun e he => gExt_isSome hgext _ (hB.openG e he), by
                  intro v hv
                  by_cases hgnb : goal = nb
                  · rw [hgnb]
                    exact hB.hashOpen nb hhash
                  · rw [hgNe goal hgnb] at hv
                    exact hB.goalOpen v hv⟩
            have hval_le : vcur + 1 + 1 ≤ w * h + 1 :=
              hAB.gval_le (mem_of_alookup _ nb (vcur + 1) hgSelf)
            have hlen_le : st.g.length + 1 ≤ w * h + 1 := by
              have := hAB.glen_le
              simp only at this
              omega
            have hmul : (w * h + 1) * ((w * h + 1) - st.g.length) =
                (w * h + 1) * ((w * h + 1) - (st.g.length + 1)) + (w * h + 1) := by
              have hsub : (w * h + 1) - st.g.length =
                  ((w * h + 1) - (st.g.length + 1)) + 1 := by omega
              rw [hsub, Nat.mul_add, Nat.mul_one]
            show st.opens.length +
                (w * h + 1) * ((w * h + 1) - (ainsert st.g nb (vcur + 1)).length) +
                asum (ainsert st.g nb (vcur + 1)) ≤
              st.opens.length + (w * h + 1) * ((w * h + 1) - st.g.length) + asum st.g
            rw [hlen', hasum', hmul]
            omega
          · have hlen' : (ainsert st.g nb (vcur + 1)).length = st.g.length :=
              length_ainsert_existing st.g nb (vcur + 1) hgn
            have hasum' : asum (ainsert st.g nb (vcur + 1)) + gn = asum st.g + (vcur + 1) :=
              asum_ainsert_existing st.g nb (vcur + 1) gn hgn
            show st.opens.length +
                (w * h + 1) * ((w * h + 1) - (ainsert st.g nb (vcur + 1)).length) +
                asum (ainsert st.g nb (vcur + 1)) ≤
              st.opens.length + (w * h + 1) * ((w * h + 1) - st.g.length) + asum st.g
            rw [hlen']
            omega
      · -- fresh in the queue: also push a heap entry
        rw [relax_improve_push hskip hcur himp hhash]
        have hasEntryNew : HasEntry
            { st with
              came := ainsert st.came nb cur
              g := ainsert st.g nb (vcur + 1)
              cnt := st.cnt + 1
              opens := (vcur + 1 + hexDistance nb goal, st.cnt + 1, nb) :: st.opens
              hash := nb :: st.hash } nb :=
          ⟨vcur + 1 + hexDistance nb goal, st.cnt + 1, List.mem_cons_self _ _⟩
        refine ⟨⟨List.nodup_cons.mpr ⟨hhash, hB.hashNodup⟩, hgNodup', hcameNodup',
          hgAllowed', hgStart', hcameAdj', hcamePass', hcameDec', hgCame', hchain',
          ?_, ?_, ?_⟩, ?_, hcurNe, hgext, fun e he => List.mem_cons_of_mem _ he, ?_,
          fun _ => by rw [hgSelf]; rfl⟩
        · intro p hp
          rcases List.mem_cons.mp hp with hp | hp
          · exact hp ▸ hasEntryNew
          · obtain ⟨f, c, hfc⟩ := hB.hashOpen p hp
            exact ⟨f, c, List.mem_cons_of_mem _ hfc⟩
        · intro e he
          rcases List.mem_cons.mp he with he | he
          · rw [he]
            show (alookup (ainsert st.g nb (vcur + 1)) nb).isSome
            rw [hgSelf]
            rfl
          · exact gExt_isSome hgext _ (hB.openG e he)
        · intro v hv
          by_cases hgnb : goal = nb
          · exact ⟨vcur + 1 + hexDistance nb goal, st.cnt + 1, by
              rw [hgnb]
              exact List.mem_cons_self _ _⟩
          · rw [hgNe goal hgnb] at hv
            obtain ⟨f, c, hfc⟩ := hB.goalOpen v hv
            exact ⟨f, c, List.mem_cons_of_mem _ hfc⟩
        · intro e he hecur
          rcases mem_ainsert_elim st.g nb (vcur + 1) e hB.gNodup he with heq | ⟨hold, _⟩
          · rw [heq]
            exact Or.inl hasEntryNew
          · rcases hF e hold hecur with hent | hclosed
            · obtain ⟨f, c, hfc⟩ := hent
              exact Or.inl ⟨f, c, List.mem_cons_of_mem _ hfc⟩
            · exact Or.inr (fun nb' hnb' hp' => gExt_isSome hgext _ (hclosed nb' hnb' hp'))
        · -- potential: the push is paid for by the `g_score` improvement
          rcases himp with hfresh | ⟨gn, hgn, hlt⟩
          · have hlen' : (ainsert st.g nb (vcur + 1)).length = st.g.length + 1 :=
              length_ainsert_fresh st.g nb (vcur + 1) hfresh
            have hasum' : asum (ainsert st.g nb (vcur + 1)) = asum st.g + (vcur + 1) :=
              asum_ainsert_fresh st.g nb (vcur + 1) hfresh
            have hAB : AInvB grid w h start goal
                { st with
                  came := ainsert st.came nb cur
                  g := ainsert st.g nb (vcur + 1)
                  cnt := st.cnt + 1
                  opens := (vcur + 1 + hexDistance nb goal, st.cnt + 1, nb) :: st.opens
                  hash := nb :: st.hash } :=
              ⟨List.nodup_cons.mpr ⟨hhash, hB.hashNodup⟩, hgNodup', hcameNodup',
                hgAllowed', hgStart', hcameAdj', hcamePass', hcameDec', hgCame', hchain', by
                  intro p hp
                  rcases List.mem_cons.mp hp with hp | hp
                  · exact hp ▸ hasEntryNew
                  · obtain ⟨f, c, hfc⟩ := hB.hashOpen p hp
                    exact ⟨f, c, List.mem_cons_of_mem _ hfc⟩, by
                  intro e he
                  rcases List.mem_cons.mp he with he | he
                  · rw [he]
                    show (alookup (ainsert st.g nb (vcur + 1)) nb).isSome
                    rw [hgSelf]
                    rfl
                  · exact gExt_isSome hgext _ (hB.openG e he), by
                  intro v hv
                  by_cases hgnb : goal = nb
                  · exact ⟨vcur + 1 + hexDistance nb goal, st.cnt + 1, by
                      rw [hgnb]
                      exact List.mem_cons_self _ _⟩
                  · rw [hgNe goal hgnb] at hv
                    obtain ⟨f, c, hfc⟩ := hB.goalOpen v hv
                    exact ⟨f, c, List.mem_cons_of_mem _ hfc⟩⟩
            have hval_le : vcur + 1 + 1 ≤ w * h + 1 :=
              hAB.gval_le (mem_of_alookup _ nb (vcur + 1) hgSelf)
            have hlen_le : st.g.length + 1 ≤ w * h + 1 := by
              have := hAB.glen_le
              simp only at this
              omega
            have hmul : (w * h + 1) * ((w * h + 1) - st.g.length) =
                (w * h + 1) * ((w * h + 1) - (st.g.length + 1)) + (w * h + 1) := by
              have hsub : (w * h + 1) - st.g.length =
                  ((w * h + 1) - (st.g.length + 1)) + 1 := by omega
              rw [hsub, Nat.mul_add, Nat.mul_one]
            show st.opens.length + 1 +
                (w * h + 1) * ((w * h + 1) - (ainsert st.g nb (vcur + 1)).length) +
                asum (ainsert st.g nb (vcur + 1)) ≤
              st.opens.length + (w * h + 1) * ((w * h + 1) - st.g.length) + asum st.g
            rw [hlen', hasum', hmul]
            omega
          · have hlen' : (ainsert st.g nb (vcur + 1)).length = st.g.length :=
              length_ainsert_existing st.g nb (vcur + 1) hgn
            have hasum' : asum (ainsert st.g nb (vcur + 1)) + gn = asum st.g + (vcur + 1) :=
              asum_ainsert_existing st.g nb (vcur + 1) gn hgn
            show st.opens.length + 1 +
                (w * h + 1) * ((w * h + 1) - (ainsert st.g nb (vcur + 1)).length) +
                asum (ainsert st.g nb (vcur + 1)) ≤
              st.opens.length + (w * h + 1) * ((w * h + 1) - st.g.length) + asum st.g
            rw [hlen']
            omega

theorem foldRelax {grid : List (Pt × Nat)} {w h : Nat} {start goal cur : Pt}
    {vcur : Nat} :
    ∀ (ns : List Pt) (st : AStarState),
      (∀ nb ∈ ns, nb ∈ getNeighbors w h cur) →
      AInvB grid w h start goal st →
      FrontierExc grid w h goal st cur →
      alookup st.g cur = some vcur →
      AInvB grid w h start goal (ns.foldl (relax grid goal cur) st) ∧
      FrontierExc grid w h goal (ns.foldl (relax grid goal cur) st) cur ∧
      alookup (ns.foldl (relax grid goal cur) st).g cur = some vcur ∧
      gExt st.g (ns.foldl (relax grid goal cur) st).g ∧
      (∀ e ∈ st.opens, e ∈ (ns.foldl (relax grid goal cur) st).opens) ∧
      phi w h (ns.foldl (relax grid goal cur) st) ≤ phi w h st ∧
      (∀ nb ∈ ns, passable grid goal nb →
        (alookup (ns.foldl (relax grid goal cur) st).g nb).isSome) := by
  intro ns
  induction ns with
  | nil =>
    intro st _ hB hF hcur
    exact ⟨hB, hF, hcur, gExt_refl _, fun e he => he, le_refl _, by simp⟩
  | cons nb ns ih =>
    intro st hns hB hF hcur
    simp only [List.foldl_cons]
    obtain ⟨hB1, hF1, hcur1, hext1, hopens1, hphi1, hnb1⟩ :=
      relax_step nb hB hF hcur (hns nb (List.mem_cons_self _ _))
    obtain ⟨hB2, hF2, hcur2, hext2, hopens2, hphi2, hrest⟩ :=
      ih (relax grid goal cur st nb)
        (fun x hx => hns x (List.mem_cons_of_mem _ hx)) hB1 hF1 hcur1
    refine ⟨hB2, hF2, hcur2, gExt_trans hext1 hext2,
      fun e he => hopens2 e (hopens1 e he), le_trans hphi2 hphi1, ?_⟩
    intro x hx hpx
    rcases List.mem_cons.mp hx with hx | hx
    · subst hx
      exact gExt_isSome hext2 x (hnb1 hpx)
    · exact hrest x hx hpx

theorem astar_pop_step {grid : List (Pt × Nat)} {w h : Nat} {start goal : Pt}
    {st : AStarState} {f c : Nat} {cur : Pt} {rest : List HeapEntry}
    (hAI : AInv grid w h start goal st)
    (hpop : popMin st.opens = some ((f, c, cur), rest))
    (hne : cur ≠ goal) :
    AInv grid w h start goal ((getNeighbors w h cur).foldl (relax grid goal cur)
      { st with opens := rest, hash := st.hash.erase cur }) ∧
    phi w h ((getNeighbors w h cur).foldl (relax grid goal cur)
      { st with opens := rest, hash := st.hash.erase cur }) < phi w h st := by
  obtain ⟨hB, hFall⟩ := hAI
  obtain ⟨hmem, hrest⟩ := popMin_some hpop
  obtain ⟨vcur, hvcur⟩ := Option.isSome_iff_exists.mp (hB.openG (f, c, cur) hmem)
  set st1 : AStarState := { st with opens := rest, hash := st.hash.erase cur } with hst1
  have hB1 : AInvB grid w h start goal st1 := by
    refine ⟨hB.hashNodup.erase cur, hB.gNodup, hB.cameNodup, hB.gAllowed,
      hB.gStart, hB.cameAdj, hB.camePass, hB.cameDec, hB.gCame, hB.chainInv,
      ?_, ?_, ?_⟩
    · intro p hp
      have hp' : p ≠ cur ∧ p ∈ st.hash :=
        (List.Nodup.mem_erase_iff hB.hashNodup).mp hp
      obtain ⟨f', c', hfc⟩ := hB.hashOpen p hp'.2
      refine ⟨f', c', ?_⟩
      show (f', c', p) ∈ rest
      rw [hrest]
      exact (List.mem_erase_of_ne
        (fun hc => hp'.1 (congrArg (fun e : HeapEntry => e.2.2) hc))).mpr hfc
    · intro e he
      have he' : e ∈ rest := he
      rw [hrest] at he'
      exact hB.openG e (List.mem_of_mem_erase he')
    · intro v hv
      obtain ⟨f', c', hfc⟩ := hB.goalOpen v hv
      refine ⟨f', c', ?_⟩
      show (f', c', goal) ∈ rest
      rw [hrest]
      exact (List.mem_erase_of_ne
        (fun hc => hne (congrArg (fun e : HeapEntry => e.2.2) hc).symm)).mpr hfc
  have hF1 : FrontierExc grid w h goal st1 cur := by
    intro e he hecur
    rcases hFall e he with hent | hclosed
    · obtain ⟨f', c', hfc⟩ := hent
      refine Or.inl ⟨f', c', ?_⟩
      show (f', c', e.1) ∈ rest
      rw [hrest]
      exact (List.mem_erase_of_ne
        (fun hc => hecur (congrArg (fun e : HeapEntry => e.2.2) hc))).mpr hfc
    · exact Or.inr hclosed
  obtain ⟨hB2, hF2, hcur2, hext2, hopens2, hphi2, hclosednb⟩ :=
    foldRelax (getNeighbors w h cur) st1 (fun x hx => hx) hB1 hF1 hvcur
  have hlen : st.opens.length = rest.length + 1 := by
    rw [hrest, List.length_erase_of_mem hmem]
    have : st.opens ≠ [] := fun hnil => by
      rw [hnil] at hmem
      exact absurd hmem (List.not_mem_nil _)
    have hpos : 0 < st.opens.length := List.length_pos.mpr this
    omega
  have hphi1 : phi w h st1 + 1 = phi w h st := by
    show rest.length + (w * h + 1) * ((w * h + 1) - st.g.length) + asum st.g + 1 =
      st.opens.length + (w * h + 1) * ((w * h + 1) - st.g.length) + asum st.g
    omega
  constructor
  · refine ⟨hB2, ?_⟩
    intro e he
    by_cases hec : e.1 = cur
    · refine Or.inr (fun nb hnbmem hpassnb => ?_)
      rw [hec] at hnbmem
      exact hclosednb nb hnbmem hpassnb
    · exact hF2 e he hec
  · omega

theorem reconstruct_spec {grid : List (Pt × Nat)} {w h : Nat} {start goal : Pt}
    {came : List (Pt × Pt)} {g : List (Pt × Nat)}
    (hadj : ∀ e ∈ came, e.1 ∈ getNeighbors w h e.2)
    (hpass : ∀ e ∈ came, passable grid goal e.1 ∧ e.1 ≠ start)
    (hdec : ∀ e ∈ came, ∃ vk vp : Nat,
      alookup g e.1 = some vk ∧ alookup g e.2 = some vp ∧ vp < vk)
    (hgcame : ∀ e ∈ g, e.1 ≠ start → (alookup came e.1).isSome)
    (hgoalfree : alookup grid goal = none) :
    ∀ (v : Nat) (cur : Pt) (fuel : Nat), alookup g cur = some v → v < fuel →
      reconstructPath came cur fuel ≠ [] ∧
      (reconstructPath came cur fuel).head? = some start ∧
      (reconstructPath came cur fuel).getLast? = some cur ∧
      List.Chain' (fun a b => b ∈ getNeighbors w h a) (reconstructPath came cur fuel) ∧
      ∀ x ∈ reconstructPath came cur fuel, x ≠ start → alookup grid x = none := by
  intro v
  induction v using Nat.strong_induction_on with
  | _ v ih =>
    intro cur fuel hcur hfuel
    cases fuel with
    | zero => omega
    | succ fuel =>
      cases hcame : alookup came cur with
      | none =>
        have hcs : cur = start := by
          by_contra hcs
          have := hgcame (cur, v) (mem_of_alookup g cur v hcur) hcs
          rw [hcame] at this
          exact absurd this (by simp)
        simp only [reconstructPath, hcame]
        exact ⟨by simp, by rw [hcs]; rfl, rfl, List.chain'_singleton cur,
          fun x hx hxs => absurd ((List.mem_singleton.mp hx).trans hcs) hxs⟩
      | some p =>
        obtain ⟨vk, vp, hvk, hvp, hlt⟩ := hdec (cur, p) (mem_of_alookup came cur p hcame)
        have hv : vk = v := by
          simp only at hvk
          rw [hcur] at hvk
          exact (Option.some_inj.mp hvk).symm
        simp only at hvp
        obtain ⟨hne', hhd, hlast, hch, hpassall⟩ :=
          ih vp (by omega) p fuel hvp (by omega)
        simp only [reconstructPath, hcame]
        refine ⟨by simp, ?_, ?_, ?_, ?_⟩
        · cases hrec : reconstructPath came p fuel with
          | nil => exact absurd hrec hne'
          | cons a t =>
            rw [hrec] at hhd
            simpa using hhd
        · rw [List.getLast?_concat]
        · refine List.chain'_append.mpr ⟨hch, List.chain'_singleton cur, ?_⟩
          intro x hx y hy
          have hxp : p = x := by
            rw [hlast] at hx
            simpa using hx
          have hyc : cur = y := by simpa using hy
          rw [← hxp, ← hyc]
          exact hadj (cur, p) (mem_of_alookup came cur p hcame)
        · intro x hx hxs
          rcases List.mem_append.mp hx with hx | hx
          · exact hpassall x hx hxs
          · rw [List.mem_singleton.mp hx]
            rcases (hpass (cur, p) (mem_of_alookup came cur p hcame)).1 with hnone | hgl
            · exact hnone
            · simp only at hgl
              rw [hgl]
              exact hgoalfree

theorem getLast?_mem : ∀ (l : List Pt) (a : Pt), l.getLast? = some a → a ∈ l := by
  intro l
  induction l with
  | nil => intro a h; exact absurd h (by simp)
  | cons hd tl ih =>
    intro a hl
    cases tl with
    | nil =>
      have : hd = a := by simpa using hl
      rw [this]
      exact List.mem_cons_self _ _
    | cons b t =>
      rw [List.getLast?_cons_cons] at hl
      exact List.mem_cons_of_mem _ (ih a hl)

theorem closed_chain_propagate {grid : List (Pt × Nat)} {w h : Nat} {goal : Pt}
    {st : AStarState}
    (hclosed : ∀ e ∈ st.g, Closed grid w h goal st e.1) :
    ∀ (t : List Pt) (a : Pt), (alookup st.g a).isSome →
      List.Chain' (fun x y => y ∈ getNeighbors w h x) (a :: t) →
      (∀ x ∈ t, passable grid goal x ∨ (alookup st.g x).isSome) →
      ∀ x ∈ a :: t, (alookup st.g x).isSome := by
  intro t
  induction t with
  | nil =>
    intro a ha _ _ x hx
    rw [List.mem_singleton.mp hx]
    exact ha
  | cons b t ih =>
    intro a ha hch hpassall x hx
    have hadj : b ∈ getNeighbors w h a := (List.chain'_cons.mp hch).1
    have hb : (alookup st.g b).isSome := by
      rcases hpassall b (List.mem_cons_self _ _) with hp | hs
      · obtain ⟨va, hva⟩ := Option.isSome_iff_exists.mp ha
        exact hclosed (a, va) (mem_of_alookup st.g a va hva) b hadj hp
      · exact hs
    rcases List.mem_cons.mp hx with hx | hx
    · rw [hx]
      exact ha
    · exact ih b hb (List.chain'_cons.mp hch).2
        (fun y hy => hpassall y (List.mem_cons_of_mem _ hy)) x hx

theorem astarLoop_found_valid {grid : List (Pt × Nat)} {w h : Nat}
    {start goal : Pt} (hgoalfree : alookup grid goal = none) :
    ∀ (fuel : Nat) (st : AStarState), AInv grid w h start goal st →
      ∀ p, astarLoop grid w h goal fuel st = .found p →
        ValidSeq grid w h start goal p := by
  intro fuel
  induction fuel with
  | zero =>
    intro st _ p hp
    exact absurd hp (by simp [astarLoop])
  | succ fuel ih =>
    intro st hAI p hp
    cases hpop : popMin st.opens with
    | none =>
      simp only [astarLoop, hpop] at hp
      exact LoopRes.noConfusion hp
    | some pr =>
      obtain ⟨⟨f, c, cur⟩, rest⟩ := pr
      simp only [astarLoop, hpop] at hp
      by_cases hcg : cur = goal
      · rw [if_pos hcg] at hp
        have hpeq : reconstructPath st.came cur (st.came.length + 1) = p := by
          have := hp
          injection this
        obtain ⟨hmem, _⟩ := popMin_some hpop
        obtain ⟨v, hv⟩ := Option.isSome_iff_exists.mp (hAI.1.openG (f, c, cur) hmem)
        have hvle : v ≤ st.came.length :=
          gval_le_came_length hAI.1 (mem_of_alookup st.g cur v hv)
        obtain ⟨hne', hhd, hlast, hch, hpassall⟩ :=
          reconstruct_spec hAI.1.cameAdj hAI.1.camePass hAI.1.cameDec hAI.1.gCame
            hgoalfree v cur (st.came.length + 1) hv (by omega)
        rw [hpeq] at hne' hhd hlast hch hpassall
        exact ⟨hne', hhd, hcg ▸ hlast, hch, hpassall⟩
      · rw [if_neg hcg] at hp
        exact ih _ (astar_pop_step hAI hpop hcg).1 p hp

theorem astarLoop_exhausted_noroute {grid : List (Pt × Nat)} {w h : Nat}
    {start goal : Pt} :
    ∀ (fuel : Nat) (st : AStarState), AInv grid w h start goal st →
      astarLoop grid w h goal fuel st = .exhausted →
      ∀ l, ¬ ValidSeq grid w h start goal l := by
  intro fuel
  induction fuel with
  | zero =>
    intro st _ hp
    exact absurd hp (by simp [astarLoop])
  | succ fuel ih =>
    intro st hAI hp l hl
    cases hpop : popMin st.opens with
    | some pr =>
      obtain ⟨⟨f, c, cur⟩, rest⟩ := pr
      simp only [astarLoop, hpop] at hp
      by_cases hcg : cur = goal
      · rw [if_pos hcg] at hp
        exact LoopRes.noConfusion hp
      · rw [if_neg hcg] at hp
        exact ih _ (astar_pop_step hAI hpop hcg).1 hp l hl
    | none =>
      have hopens : st.opens = [] := popMin_none hpop
      obtain ⟨hB, hFall⟩ := hAI
      have hnoent : ∀ k, ¬ HasEntry st k := by
        rintro k ⟨f, c, hfc⟩
        rw [hopens] at hfc
        exact absurd hfc (List.not_mem_nil _)
      have hclosed : ∀ e ∈ st.g, Closed grid w h goal st e.1 := by
        intro e he
        rcases hFall e he with hent | hc
        · exact absurd hent (hnoent e.1)
        · exact hc
      obtain ⟨hlne, hlhd, hllast, hlch, hlpass⟩ := hl
      cases l with
      | nil => exact hlne rfl
      | cons a t =>
        have ha : a = start := by simpa using hlhd
        have hstart : (alookup st.g a).isSome := by
          rw [ha, hB.gStart]
          rfl
        have hall : ∀ x ∈ a :: t, (alookup st.g x).isSome := by
          refine closed_chain_propagate hclosed t a hstart hlch (fun x hx => ?_)
          by_cases hxs : x = start
          · refine Or.inr ?_
            rw [hxs, hB.gStart]
            rfl
          · exact Or.inl (Or.inl (hlpass x (List.mem_cons_of_mem _ hx) hxs))
        have hgoalmem : goal ∈ a :: t := getLast?_mem _ goal hllast
        obtain ⟨vg, hvg⟩ := Option.isSome_iff_exists.mp (hall goal hgoalmem)
        exact hnoent goal (hB.goalOpen vg hvg)

theorem astarLoop_no_fuelOut {grid : List (Pt × Nat)} {w h : Nat}
    {start goal : Pt} :
    ∀ (fuel : Nat) (st : AStarState), AInv grid w h start goal st →
      phi w h st < fuel → astarLoop grid w h goal fuel st ≠ .fuelOut := by
  intro fuel
  induction fuel with
  | zero =>
    intro st _ hphi
    omega
  | succ fuel ih =>
    intro st hAI hphi
    cases hpop : popMin st.opens with
    | none => simp [astarLoop, hpop]
    | some pr =>
      obtain ⟨⟨f, c, cur⟩, rest⟩ := pr
      simp only [astarLoop, hpop]
      by_cases hcg : cur = goal
      · rw [if_pos hcg]
        simp
      · rw [if_neg hcg]
        have hstep := astar_pop_step hAI hpop hcg
        exact ih _ hstep.1 (by omega)

/-- The initial loop state of `find_path`. -/
def astarInit (start : Pt) : AStarState :=
  { opens := [(0, 0, start)], hash := [start], came := [], g := [(start, 0)], cnt := 0 }

theorem findPath_loop_eq (hg : HexGrid) (start goal : Pt) (hsg : ¬start = goal)
    (hocc : ¬(alookup hg.grid goal).isSome) :
    hg.findPath start goal =
      (match astarLoop hg.grid hg.width hg.height goal
          (astarFuel hg.width hg.height) (astarInit start) with
        | .found p => some p
        | _ => none) := by
  unfold HexGrid.findPath
  rw [if_neg hsg, if_neg hocc]
  rfl

theorem astarInit_inv (grid : List (Pt × Nat)) (w h : Nat) (start goal : Pt) :
    AInv grid w h start goal (astarInit start) := by
  constructor
  · refine ⟨by simp [astarInit], by simp [astarInit, akeys], by simp [astarInit, akeys],
      ?_, by simp [astarInit, alookup], ?_, ?_, ?_, ?_, ?_, ?_, ?_, ?_⟩
    · intro k hk
      left
      simpa [astarInit, akeys] using hk
    · intro e he
      exact absurd he (by simp [astarInit])
    · intro e he
      exact absurd he (by simp [astarInit])
    · intro e he
      exact absurd he (by simp [astarInit])
    · intro e he hes
      have heq : e = (start, 0) := by simpa [astarInit] using he
      rw [heq] at hes
      exact absurd rfl hes
    · intro e he
      have heq : e = (start, 0) := by simpa [astarInit] using he
      subst heq
      refine ⟨[start], by simp, rfl, rfl, List.nodup_singleton _,
        List.chain'_singleton _, by simp, ?_⟩
      intro x hx
      rw [List.mem_singleton.mp hx]
      exact ⟨0, le_refl _, by simp [astarInit, alookup]⟩
    · intro p hp
      have heq : p = start := by simpa [astarInit] using hp
      exact ⟨0, 0, by rw [heq]; simp [astarInit]⟩
    · intro e he
      have heq : e = (0, 0, start) := by simpa [astarInit] using he
      rw [heq]
      simp [astarInit, alookup]
    · intro v hv
      by_cases hgs : goal = start
      · exact ⟨0, 0, by rw [hgs]; simp [astarInit]⟩
      · have hnone : alookup (astarInit start).g goal = none := by
          show (if start = goal then some 0 else none) = none
          exact if_neg (fun hc => hgs hc.symm)
        rw [hnone] at hv
        exact Option.noConfusion hv
  · intro e he
    have heq : e = (start, 0) := by simpa [astarInit] using he
    exact Or.inl ⟨0, 0, by rw [heq]; simp [astarInit]⟩

theorem astarInit_phi_lt (w h : Nat) (start : Pt) :
    phi w h (astarInit start) < astarFuel w h := by
  show 1 + (w * h + 1) * ((w * h + 1) - 1) + 0 < (w * h + 1) * (w * h + 1) + 2
  have hmul : (w * h + 1) * ((w * h + 1) - 1) ≤ (w * h + 1) * (w * h + 1) :=
    Nat.mul_le_mul_left _ (by omega)
  omega

/-- C5 (as amended): for in-bounds `start` and `goal`, `find_path` returns
`[start]` when `start = goal` (even on an occupied cell — the original
claim's "None whenever the goal cell is occupied" fails there); it returns
`none` when the goal cell is occupied and `start ≠ goal`; every returned
path is a valid route (begins at `start`, ends at `goal`, consecutive
points are grid neighbors, no point other than `start` is occupied); and
whenever any valid route exists it returns a path. -/
theorem find_path_spec :
    ∀ (g : HexGrid) (start goal : Pt),
      inBounds g.width g.height start → inBounds g.width g.height goal →
      (start = goal → g.findPath start goal = some [start]) ∧
      (start ≠ goal → (alookup g.grid goal).isSome →
        g.findPath start goal = none) ∧
      (∀ p, g.findPath start goal = some p →
        ValidSeq g.grid g.width g.height start goal p) ∧
      ((∃ l, ValidSeq g.grid g.width g.height start goal l) →
        ∃ p, g.findPath start goal = some p) := by
  intro g start goal hbs hbg
  by_cases hsg : start = goal
  · refine ⟨fun _ => ?_, fun hne _ => absurd hsg hne, ?_, fun _ => ?_⟩
    · unfold HexGrid.findPath
      rw [if_pos hsg]
    · intro p hp
      unfold HexGrid.findPath at hp
      rw [if_pos hsg] at hp
      have hpe : p = [start] := (Option.some_inj.mp hp).symm
      rw [hpe]
      exact ⟨by simp, rfl, by rw [← hsg]; rfl, List.chain'_singleton _,
        fun x hx hxs => absurd (List.mem_singleton.mp hx) hxs⟩
    · exact ⟨[start], by unfold HexGrid.findPath; rw [if_pos hsg]⟩
  · by_cases hocc : (alookup g.grid goal).isSome
    · refine ⟨fun heq => absurd heq hsg, fun _ _ => ?_, ?_, ?_⟩
      · unfold HexGrid.findPath
        rw [if_neg hsg, if_pos hocc]
      · intro p hp
        unfold HexGrid.findPath at hp
        rw [if_neg hsg, if_pos hocc] at hp
        exact Option.noConfusion hp
      · rintro ⟨l, hl⟩
        exfalso
        obtain ⟨hlne, hlhd, hllast, _, hlpass⟩ := hl
        have hgoalmem : goal ∈ l := getLast?_mem l goal hllast
        have := hlpass goal hgoalmem (Ne.symm hsg)
        rw [this] at hocc
        simp at hocc
    · have hgoalfree : alookup g.grid goal = none :=
        Option.not_isSome_iff_eq_none.mp hocc
      have hAI0 := astarInit_inv g.grid g.width g.height start goal
      have hphi0 := astarInit_phi_lt g.width g.height start
      refine ⟨fun heq => absurd heq hsg, fun _ hx => absurd hx hocc, ?_, ?_⟩
      · intro p hp
        rw [findPath_loop_eq g start goal hsg hocc] at hp
        cases hloop : astarLoop g.grid g.width g.height goal
            (astarFuel g.width g.height) (astarInit start) with
        | found q =>
          rw [hloop] at hp
          have hqp : q = p := Option.some_inj.mp hp
          exact hqp ▸ astarLoop_found_valid hgoalfree _ _ hAI0 q hloop
        | exhausted =>
          rw [hloop] at hp
          exact Option.noConfusion hp
        | fuelOut =>
          rw [hloop] at hp
          exact Option.noConfusion hp
      · rintro ⟨l, hl⟩
        cases hloop : astarLoop g.grid g.width g.height goal
            (astarFuel g.width g.height) (astarInit start) with
        | found q =>
          refine ⟨q, ?_⟩
          rw [findPath_loop_eq g start goal hsg hocc, hloop]
        | exhausted =>
          exact absurd hl (astarLoop_exhausted_noroute _ _ hAI0 hloop l)
        | fuelOut =>
          exact absurd hloop (astarLoop_no_fuelOut _ _ hAI0 hphi0)

/-- C5 counterexample to the claim as stated: on a 2×2 grid whose cell
`(0,0)` is occupied by object 7, `find_path` from `(0,0)` to `(0,0)` has an
occupied in-bounds goal cell yet returns `some [(0,0)]`, not `None` —
the `start == goal` early return precedes the occupied-goal check. -/
theorem find_path_occupied_goal_counterexample :
    (alookup (HexGrid.mk 2 2 [(⟨0, 0⟩, 7)] [(7, ⟨0, 0⟩)]).grid ⟨0, 0⟩).isSome ∧
      inBounds 2 2 ⟨0, 0⟩ ∧
      (HexGrid.mk 2 2 [(⟨0, 0⟩, 7)] [(7, ⟨0, 0⟩)]).findPath ⟨0, 0⟩ ⟨0, 0⟩ =
        some [⟨0, 0⟩] := by
  refine ⟨by decide, by decide, ?_⟩
  unfold HexGrid.findPath
  rw [if_pos rfl]

/-- Witness for the amended C5 on a concrete empty 2×2 grid: the straight
route `[(0,0), (0,1)]` is valid, and `find_path` indeed finds a path. -/
theorem find_path_spec_witness :
    inBounds 2 2 ⟨0, 0⟩ ∧ inBounds 2 2 ⟨0, 1⟩ ∧
      ValidSeq (HexGrid.mk 2 2 [] []).grid 2 2 ⟨0, 0⟩ ⟨0, 1⟩ [⟨0, 0⟩, ⟨0, 1⟩] ∧
      ∃ p, (HexGrid.mk 2 2 [] []).findPath ⟨0, 0⟩ ⟨0, 1⟩ = some p := by
  have hv : ValidSeq (HexGrid.mk 2 2 [] []).grid 2 2 ⟨0, 0⟩ ⟨0, 1⟩
      [⟨0, 0⟩, ⟨0, 1⟩] := by
    refine ⟨by simp, rfl, rfl,
      List.chain'_cons.mpr ⟨by decide, List.chain'_singleton _⟩,
      fun x hx hxs => rfl⟩
  exact ⟨by decide, by decide, hv,
    (find_path_spec (HexGrid.mk 2 2 [] []) ⟨0, 0⟩ ⟨0, 1⟩ (by decide)
      (by decide)).2.2.2 ⟨[⟨0, 0⟩, ⟨0, 1⟩], hv⟩⟩

/-! ## C8: a rejected move leaves the state unchanged

The engine's error values carry the state at the moment of the raise, so
"no partial mutation" is the statement that every `execute_move` error
carries exactly the input state.  The danger spots are the raises after a
grid write: `__setitem__` after `del` in `_move`/`_charge` (excluded
because validation has already checked the bounds) and the range check of
`_attack` after the reposition of a Charge (excluded because the charge
destination is the last point of a `find_path_adj` path, which is a grid
neighbor of the target and hence at hex distance exactly 1). -/

theorem error_state_eq {α : Type} {m1 m2 : String} {s1 s2 : GameState}
    (h : (Except.error (m1, s1) : EngineRes α) = .error (m2, s2)) : s2 = s1 := by
  injection h with h1
  exact (congrArg Prod.snd h1).symm

theorem setItem_isOk (g : HexGrid) (pt : Pt) (oid : Nat)
    (hb : inBounds g.width g.height pt) : ∃ g', g.setItem pt oid = .ok g' := by
  unfold HexGrid.setItem
  rw [if_pos hb]
  exact ⟨_, rfl⟩

theorem isValidMove_error_state {s : GameState} {uid : Nat} {tp : Pt} {md : Nat}
    {m : String} {s' : GameState} (h : s.isValidMove uid tp md = .error (m, s')) :
    s' = s := by
  unfold GameState.isValidMove at h
  by_cases hb : ¬ inBounds s.grid.width s.grid.height tp
  · rw [if_pos hb] at h
    exact absurd h (by simp)
  · rw [if_neg hb] at h
    cases hti : s.grid.getItem tp with
    | some tu =>
      simp only [hti, Option.isSome_some, Option.get_some] at h
      by_cases htu : tu ≠ uid
      · rw [if_pos htu] at h
        exact absurd h (by simp)
      · rw [if_neg htu] at h
        cases hgp : s.grid.getPt uid with
        | none =>
          rw [hgp] at h
          exact error_state_eq h
        | some pos =>
          rw [hgp] at h
          exact absurd h (by simp)
    | none =>
      simp only [hti, Option.isSome_none, Bool.false_eq_true, dite_false] at h
      cases hgp : s.grid.getPt uid with
      | none =>
        rw [hgp] at h
        exact error_state_eq h
      | some pos =>
        rw [hgp] at h
        exact absurd h (by simp)

theorem isValidMove_true_spec {s : GameState} {uid : Nat} {tp : Pt} {md : Nat}
    (h : s.isValidMove uid tp md = .ok true) :
    inBounds s.grid.width s.grid.height tp ∧
    (alookup s.grid.grid tp = none ∨ alookup s.grid.grid tp = some uid) ∧
    ∃ pos, s.grid.getPt uid = some pos ∧ hexDistance pos tp ≤ md := by
  unfold GameState.isValidMove at h
  by_cases hb : ¬ inBounds s.grid.width s.grid.height tp
  · rw [if_pos hb] at h
    simp at h
  · rw [if_neg hb] at h
    cases hti : s.grid.getItem tp with
    | some tu =>
      simp only [hti, Option.isSome_some, Option.get_some] at h
      by_cases htu : tu ≠ uid
      · rw [if_pos htu] at h
        simp at h
      · rw [if_neg htu] at h
        cases hgp : s.grid.getPt uid with
        | none =>
          rw [hgp] at h
          exact absurd h (by simp)
        | some pos =>
          rw [hgp] at h
          have hd : hexDistance pos tp ≤ md := by
            injection h with h2
            exact of_decide_eq_true h2
          have hgi : s.grid.getItem tp = some uid := by
            rw [hti, not_not.mp htu]
          exact ⟨not_not.mp hb, Or.inr (getItem_some_lookup hgi), pos, rfl, hd⟩
    | none =>
      simp only [hti, Option.isSome_none, Bool.false_eq_true, dite_false] at h
      cases hgp : s.grid.getPt uid with
      | none =>
        rw [hgp] at h
        exact absurd h (by simp)
      | some pos =>
        rw [hgp] at h
        have hd : hexDistance pos tp ≤ md := by
          injection h with h2
          exact of_decide_eq_true h2
        have hlk : alookup s.grid.grid tp = none := by
          have hgi := hti
          unfold HexGrid.getItem at hgi
          rwa [if_pos (not_not.mp hb)] at hgi
        exact ⟨not_not.mp hb, Or.inl hlk, pos, rfl, hd⟩

theorem hexDistance_self (p : Pt) : hexDistance p p = 0 := by
  simp [hexDistance]

theorem hexDistance_neighbor {w h : Nat} {p nb : Pt}
    (hm : nb ∈ getNeighbors w h p) : hexDistance nb p = 1 := by
  unfold getNeighbors at hm
  rw [List.mem_filter] at hm
  obtain ⟨hm, _⟩ := hm
  rw [List.mem_map] at hm
  obtain ⟨off, hoff, hadd⟩ := hm
  subst hadd
  by_cases hpar : p.y % 2 = 0
  · rw [if_pos hpar] at hoff
    simp only [evenRowOffsets, List.mem_cons, List.not_mem_nil, or_false] at hoff
    rcases hoff with hoff | hoff | hoff | hoff | hoff | hoff <;>
      · subst hoff
        simp only [hexDistance, toCube, Pt.add]
        omega
  · rw [if_neg hpar] at hoff
    have hpar1 : p.y % 2 = 1 := by omega
    simp only [oddRowOffsets, List.mem_cons, List.not_mem_nil, or_false] at hoff
    rcases hoff with hoff | hoff | hoff | hoff | hoff | hoff <;>
      · subst hoff
        simp only [hexDistance, toCube, Pt.add]
        omega

theorem getLastD_of_getLast? {l : List Pt} {a : Pt} (h : l.getLast? = some a)
    (d : Pt) : l.getLastD d = a := by
  rw [List.getLastD_eq_getLast?, h]
  rfl

theorem findPathAdj_some {hg : HexGrid} {start goal : Pt} {path : List Pt}
    (h : hg.findPathAdj start goal = some path) :
    ∃ nb ∈ getNeighbors hg.width hg.height goal,
      hg.findPath start nb = some path := by
  unfold HexGrid.findPathAdj at h
  have main : ∀ (l : List (List Pt)) (acc : Option (List Pt)) (r : List Pt),
      l.foldl (fun best p =>
        match best with
        | none => some p
        | some b => if p.length < b.length then some p else best) acc = some r →
      r ∈ l ∨ acc = some r := by
    intro l
    induction l with
    | nil => exact fun acc r h => Or.inr h
    | cons hd tl ih =>
      intro acc r h
      rcases ih _ r h with hm | hm
      · exact Or.inl (List.mem_cons_of_mem _ hm)
      · cases acc with
        | none =>
          simp only at hm
          have he : hd = r := Option.some_inj.mp hm
          subst he
          exact Or.inl (List.mem_cons_self _ _)
        | some b =>
          simp only at hm
          by_cases hc : hd.length < b.length
          · rw [if_pos hc] at hm
            have he : hd = r := Option.some_inj.mp hm
            subst he
            exact Or.inl (List.mem_cons_self _ _)
          · rw [if_neg hc] at hm
            exact Or.inr hm
  rcases main _ none path h with hm | hm
  · rw [List.mem_filterMap] at hm
    obtain ⟨nb, hnb, hfp⟩ := hm
    exact ⟨nb, hnb, hfp⟩
  · exact absurd hm (by simp)

theorem findPath_some_last {g : HexGrid} {start goal : Pt} {p : List Pt}
    (h : g.findPath start goal = some p) : p.getLast? = some goal := by
  by_cases hsg : start = goal
  · unfold HexGrid.findPath at h
    rw [if_pos hsg] at h
    have hps : [start] = p := Option.some_inj.mp h
    rw [← hps, hsg]
    rfl
  · by_cases hocc : (alookup g.grid goal).isSome
    · unfold HexGrid.findPath at h
      rw [if_neg hsg, if_pos hocc] at h
      exact absurd h (by simp)
    · have hgoalfree : alookup g.grid goal = none :=
        Option.not_isSome_iff_eq_none.mp hocc
      rw [findPath_loop_eq g start goal hsg hocc] at h
      cases hloop : astarLoop g.grid g.width g.height goal
          (astarFuel g.width g.height) (astarInit start) with
      | found q =>
        rw [hloop] at h
        have hqp : q = p := Option.some_inj.mp h
        have hv := astarLoop_found_valid hgoalfree _ _
          (astarInit_inv g.grid g.width g.height start goal) q hloop
        rw [hqp] at hv
        exact hv.2.2.1
      | exhausted =>
        rw [hloop] at h
        exact absurd h (by simp)
      | fuelOut =>
        rw [hloop] at h
        exact absurd h (by simp)

theorem applyDamage_no_error {s : GameState} {tuid : Nat} {tpos : Pt}
    {base th : Int} {rr : RollResult} (hg : GInv s.grid)
    (htpos : s.grid.getPt tuid = some tpos) {m : String} {sErr : GameState} :
    s.applyDamage base tuid th rr ≠ .error (m, sErr) := by
  obtain ⟨s1, hok, _⟩ := applyDamage_spec base th rr hg htpos
  rw [hok]
  simp

theorem attack_error_state {s : GameState} {auid tuid : Nat} {th : Int}
    {roll : RollFn} {penaltyWc : Int} {m : String} {sErr : GameState}
    (hg : GInv s.grid)
    (h : s.attack auid tuid th roll penaltyWc = .error (m, sErr)) : sErr = s := by
  unfold GameState.attack at h
  split at h
  case h_1 apos tpos hap htp =>
    split at h
    · exact error_state_eq h
    · split at h
      case h_1 atype ttype hat htt =>
        dsimp only at h
        split at h
        case h_1 e heq =>
          obtain ⟨em, es⟩ := e
          exact absurd heq (applyDamage_no_error hg htp)
        case h_2 => exact absurd h (by simp)
      case h_2 => exact error_state_eq h
  case h_2 => exact error_state_eq h

theorem castSpell_error_state {s : GameState} {auid tuid : Nat}
    {spellName : String} {th : Int} {roll : RollFn} {m : String}
    {sErr : GameState} (hg : GInv s.grid)
    (h : s.castSpell auid spellName tuid th roll = .error (m, sErr)) :
    sErr = s := by
  unfold GameState.castSpell at h
  split at h
  case h_1 => exact error_state_eq h
  case h_2 atype hut =>
    split at h
    · exact error_state_eq h
    · split at h
      case h_1 => exact error_state_eq h
      case h_2 spell hsp =>
        split at h
        case h_1 apos tpos hap htp =>
          dsimp only at h
          split at h
          case h_1 e heq =>
            obtain ⟨em, es⟩ := e
            exact absurd heq (applyDamage_no_error hg htp)
          case h_2 => exact absurd h (by simp)
        case h_2 => exact error_state_eq h

theorem moveUnit_error_state {s : GameState} {uid : Nat} {tp : Pt}
    {m : String} {sErr : GameState}
    (h : s.moveUnit uid tp = .error (m, sErr)) : sErr = s := by
  unfold GameState.moveUnit at h
  split at h
  case h_1 => exact error_state_eq h
  case h_2 utype hut =>
    split at h
    case h_1 e heq =>
      obtain ⟨em, es⟩ := e
      exact (error_state_eq h).trans (isValidMove_error_state heq)
    case h_2 => exact error_state_eq h
    case h_3 hvm =>
      obtain ⟨hb, hocc, pos, hpos, hdp⟩ := isValidMove_true_spec hvm
      split at h
      case h_1 => exact error_state_eq h
      case h_2 oldPos hold =>
        split at h
        case h_1 => exact error_state_eq h
        case h_2 g1 hdel =>
          dsimp only at h
          have hdims : g1.width = s.grid.width ∧ g1.height = s.grid.height := by
            unfold HexGrid.delItem at hdel
            cases hocc2 : alookup s.grid.grid oldPos with
            | none =>
              rw [hocc2] at hdel
              exact absurd hdel (by simp)
            | some o =>
              rw [hocc2] at hdel
              have he : s.grid.eraseAt oldPos = g1 := by injection hdel
              rw [← he]
              exact eraseAt_dims _ _
          obtain ⟨g2, hset⟩ := setItem_isOk g1 tp uid
            (by rw [hdims.1, hdims.2]; exact hb)
          rw [hset] at h
          exact absurd h (by simp)

theorem charge_error_state {s : GameState} {auid tuid : Nat}
    {movePos tpos : Pt} {th : Int} {roll : RollFn} {m : String}
    {sErr : GameState} (hg : GInv s.grid)
    (htpos : s.grid.getPt tuid = some tpos)
    (hdist : hexDistance movePos tpos ≤ 1)
    (htt : (alookup s.inst.units tuid).isSome)
    (h : s.charge auid movePos tuid th roll = .error (m, sErr)) : sErr = s := by
  unfold GameState.charge at h
  split at h
  case h_1 => exact error_state_eq h
  case h_2 atype hut =>
    split at h
    case h_1 e heq =>
      obtain ⟨em, es⟩ := e
      exact (error_state_eq h).trans (isValidMove_error_state heq)
    case h_2 => exact error_state_eq h
    case h_3 hvm =>
      obtain ⟨hb, hocc, pos, hpos, hdp⟩ := isValidMove_true_spec hvm
      split at h
      case h_1 => exact error_state_eq h
      case h_2 oldPos hold =>
        split at h
        case h_1 => exact error_state_eq h
        case h_2 g1 hdel =>
          dsimp only at h
          obtain ⟨oid0, hoo, hg1, hw1, hh1, hgr1, hrv1⟩ := delItem_ok_spec hg hdel
          have hgridold : alookup s.grid.grid oldPos = some auid :=
            (hg.lookup_iff _ _).mpr hold
          have hoid0 : auid = oid0 :=
            Option.some_inj.mp (hgridold.symm.trans hoo)
          subst hoid0
          obtain ⟨g2, hset⟩ := setItem_isOk g1 movePos auid
            (by rw [hw1, hh1]; exact hb)
          simp only [hset] at h
          obtain ⟨hg2, hw2, hh2, hgr2, hrv2⟩ := setItem_ok_spec hg1 hset
          have hgetA : ({ s with grid := g2 } : GameState).grid.getPt auid =
              some movePos := by
            show alookup g2.rev auid = some movePos
            rw [hrv2 auid, if_pos rfl]
          obtain ⟨ttype, htt'⟩ := Option.isSome_iff_exists.mp htt
          by_cases htuA : tuid = auid
          · -- self-target: attacker and target coincide after the move
            have hgetT : ({ s with grid := g2 } : GameState).grid.getPt tuid =
                some movePos := by
              show alookup g2.rev tuid = some movePos
              rw [htuA, hrv2 auid, if_pos rfl]
            rw [attack_eq th roll 4 hgetA hgetT
              (show ({ s with grid := g2 } : GameState).unitTypeOf auid = some atype
                from hut)
              (show ({ s with grid := g2 } : GameState).unitTypeOf tuid = some ttype
                from htt')] at h
            rw [if_neg (by rw [hexDistance_self]; omega)] at h
            split at h
            next e heq =>
              obtain ⟨em, es⟩ := e
              exact absurd heq (applyDamage_no_error hg2 hgetT)
            next => exact absurd h (by simp)
          · have hgetT : ({ s with grid := g2 } : GameState).grid.getPt tuid =
                some tpos := by
              show alookup g2.rev tuid = some tpos
              rw [hrv2 tuid, if_neg htuA]
              have hmv1 : alookup g1.grid movePos ≠ some tuid := by
                rw [hgr1 movePos]
                by_cases hmo : movePos = oldPos
                · rw [if_pos hmo]
                  simp
                · rw [if_neg hmo]
                  rcases hocc with hnone | hself
                  · rw [hnone]
                    simp
                  · rw [hself]
                    exact fun hc => htuA (Option.some_inj.mp hc).symm
              rw [if_neg hmv1, hrv1 tuid, if_neg htuA]
              exact htpos
            rw [attack_eq th roll 4 hgetA hgetT
              (show ({ s with grid := g2 } : GameState).unitTypeOf auid = some atype
                from hut)
              (show ({ s with grid := g2 } : GameState).unitTypeOf tuid = some ttype
                from htt')] at h
            rw [if_neg (by omega)] at h
            split at h
            next e heq =>
              obtain ⟨em, es⟩ := e
              exact absurd heq (applyDamage_no_error hg2 hgetT)
            next => exact absurd h (by simp)

/-- C8 (spec-modelled `find_path_adj`): whenever `execute_move` rejects a
move — raising on any path, for any move kind and roll policy — the error
carries exactly the input state: grid occupancy, every unit's health, and
the turn cursor (hence the current unit) are unchanged.  The two raises
that sit after a grid write cannot fire: the `__setitem__` after `del` in
`_move`/`_charge` has its bounds pre-checked by `is_valid_move`, and the
range check of `_attack` after a Charge's reposition always passes because
the charge destination — the last point of a `find_path_adj` path — is a
grid neighbor of the target, at hex distance exactly 1.  Hypotheses: the
two occupancy dicts are mutually inverse and every unit with a health
record has a unit type. -/
theorem rejected_move_state_unchanged :
    ∀ (s : GameState) (move : GameMove) (roll : RollFn) (msg : String)
      (sErr : GameState),
      GInv s.grid →
      (∀ e ∈ s.units, (alookup s.inst.units e.1).isSome) →
      s.executeMove move roll = .error (msg, sErr) →
      sErr = s ∧ sErr.grid = s.grid ∧ sErr.units = s.units ∧
        sErr.current_turn_index = s.current_turn_index ∧
        sErr.currentUnit = s.currentUnit := by
  intro s move roll msg sErr hg hWF h
  suffices hs : sErr = s by
    exact ⟨hs, by rw [hs], by rw [hs], by rw [hs], by rw [hs]⟩
  unfold GameState.executeMove at h
  split at h
  case h_1 => exact error_state_eq h
  case h_2 auid hcur =>
    split at h
    · -- MOVE
      split at h
      next e heq =>
        obtain ⟨em, es⟩ := e
        exact (error_state_eq h).trans (moveUnit_error_state heq)
      next => exact absurd h (by simp)
    · -- ATTACK
      split at h
      next => exact error_state_eq h
      next tuid hti =>
        split at h
        next => exact error_state_eq h
        next th hth =>
          split at h
          next e heq =>
            obtain ⟨em, es⟩ := e
            exact (error_state_eq h).trans (attack_error_state hg heq)
          next => exact absurd h (by simp)
    · -- CHARGE
      split at h
      next => exact error_state_eq h
      next tuid hti =>
        split at h
        next => exact error_state_eq h
        next th hth =>
          split at h
          next apos tpos hap htp =>
            split at h
            next => exact error_state_eq h
            next path hpath =>
              split at h
              · exact error_state_eq h
              · split at h
                next => exact error_state_eq h
                next atype hat =>
                  split at h
                  · exact error_state_eq h
                  · split at h
                    next e heq =>
                      obtain ⟨em, es⟩ := e
                      obtain ⟨nb, hnb, hfp⟩ := findPathAdj_some hpath
                      have hlastD : path.getLastD ⟨0, 0⟩ = nb :=
                        getLastD_of_getLast? (findPath_some_last hfp) _
                      have hdist :
                          hexDistance (path.getLastD ⟨0, 0⟩) tpos ≤ 1 := by
                        rw [hlastD]
                        exact le_of_eq (hexDistance_neighbor hnb)
                      have htt : (alookup s.inst.units tuid).isSome :=
                        hWF (tuid, th) (mem_of_alookup _ _ _ hth)
                      exact (error_state_eq h).trans
                        (charge_error_state hg htp hdist htt heq)
                    next => exact absurd h (by simp)
          next => exact error_state_eq h
    · -- CAST_SPELL
      split at h
      next => exact error_state_eq h
      next tuid hti =>
        split at h
        next => exact error_state_eq h
        next th hth =>
          split at h
          next => exact error_state_eq h
          next spellName hsp =>
            split at h
            next e heq =>
              obtain ⟨em, es⟩ := e
              exact (error_state_eq h).trans (castSpell_error_state hg heq)
            next => exact absurd h (by simp)

/-- Witness for C8: on the concrete two-unit state, an Attack aimed at the
empty cell `(2,2)` is rejected; the error state is the input state with
grid, healths and cursor intact. -/
theorem rejected_move_state_unchanged_witness :
    (GameState.mk
        ⟨[], [1, 2], [(1, ⟨"A", 3, 0, 0, 1, 1, []⟩), (2, ⟨"B", 3, 0, 0, 1, 1, []⟩)]⟩
        ⟨3, 3, [(⟨0, 0⟩, 1), (⟨1, 0⟩, 2)], [(1, ⟨0, 0⟩), (2, ⟨1, 0⟩)]⟩
        [(1, 3), (2, 3)] 0).executeMove ⟨.ATTACK, ⟨2, 2⟩, none⟩ (fixedRoll .HIT) =
      .error ("ValueError: No unit at target position",
        GameState.mk
          ⟨[], [1, 2], [(1, ⟨"A", 3, 0, 0, 1, 1, []⟩), (2, ⟨"B", 3, 0, 0, 1, 1, []⟩)]⟩
          ⟨3, 3, [(⟨0, 0⟩, 1), (⟨1, 0⟩, 2)], [(1, ⟨0, 0⟩), (2, ⟨1, 0⟩)]⟩
          [(1, 3), (2, 3)] 0) ∧
      (GameState.mk
        ⟨[], [1, 2], [(1, ⟨"A", 3, 0, 0, 1, 1, []⟩), (2, ⟨"B", 3, 0, 0, 1, 1, []⟩)]⟩
        ⟨3, 3, [(⟨0, 0⟩, 1), (⟨1, 0⟩, 2)], [(1, ⟨0, 0⟩), (2, ⟨1, 0⟩)]⟩
        [(1, 3), (2, 3)] 0 : GameState) =
      GameState.mk
        ⟨[], [1, 2], [(1, ⟨"A", 3, 0, 0, 1, 1, []⟩), (2, ⟨"B", 3, 0, 0, 1, 1, []⟩)]⟩
        ⟨3, 3, [(⟨0, 0⟩, 1), (⟨1, 0⟩, 2)], [(1, ⟨0, 0⟩), (2, ⟨1, 0⟩)]⟩
        [(1, 3), (2, 3)] 0 := by
  refine ⟨rfl, ?_⟩
  exact (rejected_move_state_unchanged
    (GameState.mk
      ⟨[], [1, 2], [(1, ⟨"A", 3, 0, 0, 1, 1, []⟩), (2, ⟨"B", 3, 0, 0, 1, 1, []⟩)]⟩
      ⟨3, 3, [(⟨0, 0⟩, 1), (⟨1, 0⟩, 2)], [(1, ⟨0, 0⟩), (2, ⟨1, 0⟩)]⟩
      [(1, 3), (2, 3)] 0)
    ⟨.ATTACK, ⟨2, 2⟩, none⟩ (fixedRoll .HIT)
    "ValueError: No unit at target position"
    (GameState.mk
      ⟨[], [1, 2], [(1, ⟨"A", 3, 0, 0, 1, 1, []⟩), (2, ⟨"B", 3, 0, 0, 1, 1, []⟩)]⟩
      ⟨3, 3, [(⟨0, 0⟩, 1), (⟨1, 0⟩, 2)], [(1, ⟨0, 0⟩), (2, ⟨1, 0⟩)]⟩
      [(1, 3), (2, 3)] 0)
    (by decide) (by decide) rfl).1


end GMArena
